import Mathlib

/-! # pistis-arg-parser: a shallow embedding and its checked properties

The development follows the three layers of the library:

* `CmdLineArgGenerator` (the token cursor, `CmdLineArgGenerator.hpp/.cpp`),
* `AbstractCmdLineArgs` (the dispatch loop, `AbstractCmdLineArgs.cpp`),
* `SimpleCmdLineArgs` (binding tables and formatters, `SimpleCmdLineArgs.hpp/.cpp`).

C++ exceptions are values of the type `Exc`; a member function that mutates
the object returns the new object next to its result, so that the state
reached when an exception escapes is visible.  Pointers into `argv` are
integer indices into the list of raw arguments.
-/

namespace Pistis

/-! ## Exceptions -/

/-- Exceptions that can cross the library.  The first five are the subclasses of
`arg_parser::CmdLineArgError`; each constructor keeps the arguments given to the
C++ constructor.  `FormatError` is `SimpleCmdLineArgs::FormatError`,
`UtilIllegalValueError` is `pistis::exceptions::IllegalValueError` (thrown by the
numeric helpers of the utility library), `StdException` is any other exception
derived from `std::exception` and `Unknown` is a thrown object of any other type. -/
inductive Exc where
  | ValueMissingError (appName argName : String)
  | IllegalValueError (appName argName value details : String)
  | UnknownCmdLineArgError (appName argName : String)
  | TooManyCmdLineArgsError (appName : String)
  | RequiredCmdLineArgMissingError (appName argName : String)
  | FormatError (value details : String)
  | UtilIllegalValueError (what : String)
  | StdException (what : String)
  | Unknown
  deriving DecidableEq

namespace CmdLineArgError

/-- Embeds `CmdLineArgError::createMessage_` (CmdLineArgError.cpp:12-24). -/
def createMessage_ (appName details : String) : String :=
  (if appName ≠ "" then appName ++ ": " else "") ++
  (if details ≠ "" then details else "Error parsing command-line arguments")

end CmdLineArgError

namespace IllegalValueError

/-- Embeds `IllegalValueError::createMessage_` (IllegalValueError.cpp:19-37). -/
def createMessage_ (argName value details : String) : String :=
  "Illegal value" ++
  (if value ≠ "" then " \"" ++ value ++ "\"" else "") ++
  (if argName ≠ "" then " for command-line argument " ++ argName
   else " on the command-line") ++
  (if details ≠ "" then " (" ++ details ++ ")" else "")

end IllegalValueError

namespace ValueMissingError

/-- Embeds `ValueMissingError::createMessage_` (ValueMissingError.cpp:12-20). -/
def createMessage_ (argName : String) : String :=
  if argName ≠ "" then "Value missing for " ++ argName
  else "Required value missing on the command-line"

end ValueMissingError

namespace UnknownCmdLineArgError

/-- Embeds `UnknownCmdLineArgError::_createMessage` (UnknownCmdLineArgError.cpp:12-21). -/
def _createMessage (argName : String) : String :=
  "Unknown command-line argument" ++ (if argName ≠ "" then " " ++ argName else "")

end UnknownCmdLineArgError

namespace FormatError

/-- Embeds `SimpleCmdLineArgs::FormatError::createMessage_` (SimpleCmdLineArgs.cpp:205-217). -/
def createMessage_ (value details : String) : String :=
  "Formatting error" ++
  (if value ≠ "" then " for \"" ++ value ++ "\"" else "") ++
  (if details ≠ "" then " (" ++ details ++ ")" else "")

end FormatError

namespace Exc

/-- The message handed to the exception base class by each constructor. -/
def message : Exc → String
  | ValueMissingError appName argName =>
      CmdLineArgError.createMessage_ appName (ValueMissingError.createMessage_ argName)
  | IllegalValueError appName argName value details =>
      CmdLineArgError.createMessage_ appName
        (Pistis.IllegalValueError.createMessage_ argName value details)
  | UnknownCmdLineArgError appName argName =>
      CmdLineArgError.createMessage_ appName (UnknownCmdLineArgError._createMessage argName)
  | TooManyCmdLineArgsError appName =>
      CmdLineArgError.createMessage_ appName "Too many command-line arguments"
  | RequiredCmdLineArgMissingError appName argName =>
      CmdLineArgError.createMessage_ appName (argName ++ " not specified.  Use -h for help.")
  | FormatError value details => Pistis.FormatError.createMessage_ value details
  | UtilIllegalValueError what => what
  | StdException what => what
  | Unknown => ""

/-- The exception is an `arg_parser::CmdLineArgError` (caught by
`catch(const CmdLineArgError&)`). -/
def isCmdLineArgError : Exc → Bool
  | ValueMissingError _ _ => true
  | IllegalValueError _ _ _ _ => true
  | UnknownCmdLineArgError _ _ => true
  | TooManyCmdLineArgsError _ => true
  | RequiredCmdLineArgMissingError _ _ => true
  | _ => false

/-- The exception is an `arg_parser::IllegalValueError`. -/
def isIllegalValue : Exc → Bool
  | IllegalValueError _ _ _ _ => true
  | _ => false

/-- The exception is an `arg_parser::ValueMissingError`. -/
def isValueMissing : Exc → Bool
  | ValueMissingError _ _ => true
  | _ => false

end Exc

/-- Equality of outcomes is decidable, so that concrete runs can be checked. -/
instance instDecidableEqExcept {ε α : Type} [DecidableEq ε] [DecidableEq α] :
    DecidableEq (Except ε α) := fun a b =>
  match a, b with
  | .ok x, .ok y =>
    if h : x = y then isTrue (by rw [h]) else isFalse (fun hh => h (Except.ok.inj hh))
  | .error x, .error y =>
    if h : x = y then isTrue (by rw [h]) else isFalse (fun hh => h (Except.error.inj hh))
  | .ok _, .error _ => isFalse (fun hh => Except.noConfusion hh)
  | .error _, .ok _ => isFalse (fun hh => Except.noConfusion hh)

/-! ## External numeric helpers -/

/-- Outcome codes of the quiet conversions of the utility library
(`util::NumConversionResult`); only `OK` is named by this repository. -/
inductive NumConversionResult where
  | OK
  | failure (code : Nat)
  deriving DecidableEq

/-- The functions of `pistis::util` that the parser calls.  They live in another
library, so they are parameters of the embedding: `toInt64` is
`util::toInt64(v, 10)`, `toUInt64` is `util::toUInt64(v, 10)`, `toInt64Quietly` and
`descriptionFor` are used by `ArgFormatter<int>`. -/
structure NumUtil where
  toInt64 : String → Except Exc Int
  toUInt64 : String → Except Exc Nat
  toInt64Quietly : String → Int × NumConversionResult
  descriptionFor : NumConversionResult → String

/-- The constant `INT64_MIN`. -/
def INT64_MIN : Int := -(2 ^ 63)
/-- The constant `INT64_MAX`. -/
def INT64_MAX : Int := 2 ^ 63 - 1
/-- The constant `UINT64_MAX`. -/
def UINT64_MAX : Nat := 2 ^ 64 - 1
/-- The constant `INT_MIN`. -/
def INT_MIN : Int := -(2 ^ 31)
/-- The constant `INT_MAX`. -/
def INT_MAX : Int := 2 ^ 31 - 1

/-- Embeds `util::join(begin, end, separator)`. -/
def join (xs : List String) (separator : String) : String :=
  separator.intercalate xs

/-- Value of a decimal digit. -/
def digitValue (c : Char) : Option Nat :=
  if 48 ≤ c.toNat ∧ c.toNat ≤ 57 then some (c.toNat - 48) else none

/-- Reads a run of decimal digits, most significant first, onto `acc`. -/
def readDigits : List Char → Nat → Option Nat
  | [], acc => some acc
  | c :: cs, acc =>
    match digitValue c with
    | some d => readDigits cs (10 * acc + d)
    | none => none

/-- Base-10 reading of an unsigned number; the empty text is not a number. -/
def readNat (cs : List Char) : Option Nat :=
  match cs with
  | [] => none
  | _ => readDigits cs 0

/-- Base-10 reading of a signed number with an optional leading minus sign. -/
def readInt (cs : List Char) : Option Int :=
  match cs with
  | '-' :: ds => (readNat ds).map (fun n => -(n : Int))
  | _ => (readNat cs).map (fun n => (n : Int))

/-- A sample instance of `NumUtil` used to evaluate the embedding on concrete
tokens: base-10 text within the range of the target type converts, any other
text is refused (the throwing helpers raise the utility library's
`IllegalValueError`). -/
def decimalNumUtil : NumUtil where
  toInt64 s :=
    match readInt s.data with
    | some v => if INT64_MIN ≤ v ∧ v ≤ INT64_MAX then .ok v
                else .error (Exc.UtilIllegalValueError "value out of range")
    | none => .error (Exc.UtilIllegalValueError "not a number")
  toUInt64 s :=
    match readNat s.data with
    | some v => if v ≤ UINT64_MAX then .ok v
                else .error (Exc.UtilIllegalValueError "value out of range")
    | none => .error (Exc.UtilIllegalValueError "not a number")
  toInt64Quietly s :=
    match readInt s.data with
    | some v => if INT64_MIN ≤ v ∧ v ≤ INT64_MAX then (v, .OK) else (0, .failure 2)
    | none => (0, .failure 1)
  descriptionFor r :=
    match r with
    | .OK => "OK"
    | .failure _ => "Value is not a valid integer"

/-! ## The token cursor -/

/-- State of a `CmdLineArgGenerator`.  `argv` is the raw argument vector
(`argc = argv.length`); `args_` is index 1, `end_` is index `argc`, and
`current_` is the index the cursor points at.  The index is an integer so that
`--current_` is exact. -/
structure CmdLineArgGenerator where
  argv : List String
  current_ : Int
  deriving DecidableEq

namespace CmdLineArgGenerator

/-- The index `args_ = argv + 1`. -/
def args_ (_g : CmdLineArgGenerator) : Int := 1

/-- The index `end_ = argv + argc`. -/
def end_ (g : CmdLineArgGenerator) : Int := g.argv.length

/-- The constructor (CmdLineArgGenerator.cpp:9-16): `current_` starts at `args_`;
`argc < 1` is rejected with the utility library's `IllegalValueError`. -/
def new (argv : List String) : Except Exc CmdLineArgGenerator :=
  if argv.length < 1 then .error (Exc.UtilIllegalValueError "argc must be > 0")
  else .ok { argv := argv, current_ := 1 }

/-- Embeds `appName()`: `argv[0]`, or the empty string when there is none. -/
def appName (g : CmdLineArgGenerator) : String := g.argv.headD ""

/-- Embeds `numArgs()`: `end_ - args_`. -/
def numArgs (g : CmdLineArgGenerator) : Int := g.end_ - g.args_

/-- Embeds `remaining()`: `end_ - current_`.  No operation moves `current_` past `end_`,
so the cast to `size_t` never wraps. -/
def remaining (g : CmdLineArgGenerator) : Int := g.end_ - g.current_

/-- The position of the cursor in the token stream, `current_ - args_`. -/
def position (g : CmdLineArgGenerator) : Int := g.current_ - g.args_

/-- The string `*current_`. -/
def deref (g : CmdLineArgGenerator) : String := g.argv.getD g.current_.toNat ""

/-- Embeds `current(argName)` (CmdLineArgGenerator.cpp:18-23). -/
def current (g : CmdLineArgGenerator) (argName : String) : Except Exc String :=
  if g.current_ = g.end_ then .error (Exc.ValueMissingError g.appName argName)
  else .ok g.deref

/-- Embeds `next(argName)` (CmdLineArgGenerator.cpp:25-30): returns `*current_++`. -/
def next (g : CmdLineArgGenerator) (argName : String) :
    Except Exc String × CmdLineArgGenerator :=
  if g.current_ = g.end_ then (.error (Exc.ValueMissingError g.appName argName), g)
  else (.ok g.deref, { g with current_ := g.current_ + 1 })

/-- The statement `--current_`. -/
def putBack (g : CmdLineArgGenerator) : CmdLineArgGenerator :=
  { g with current_ := g.current_ - 1 }

/-- Embeds `nextAs(argName, convert)` (CmdLineArgGenerator.hpp:31-39).  The `try` block
covers both the call of `next` and the call of `convert`; the handler
`catch(...)` decrements `current_` and rethrows. -/
def nextAs {α : Type} (g : CmdLineArgGenerator) (argName : String)
    (convert : String → String → Except Exc α) : Except Exc α × CmdLineArgGenerator :=
  match g.next argName with
  | (.error e, g1) => (.error e, g1.putBack)
  | (.ok v, g1) =>
    match convert argName v with
    | .error e => (.error e, g1.putBack)
    | .ok x => (.ok x, g1)

/-- Embeds `nextInSet(argName, legalValues)` (CmdLineArgGenerator.hpp:41-54);
`legalValues` is the content of the set in iteration order. -/
def nextInSet (g : CmdLineArgGenerator) (argName : String) (legalValues : List String) :
    Except Exc String × CmdLineArgGenerator :=
  match g.next argName with
  | (.error e, g1) => (.error e, g1)
  | (.ok v, g1) =>
    if v ∉ legalValues then
      let msg := "Must be one of \"" ++ join legalValues "\", \"" ++ "\""
      (.error (Exc.IllegalValueError g1.appName argName v msg), g1.putBack)
    else (.ok v, g1)

/-- Embeds `nextAsInt(argName)` (CmdLineArgGenerator.cpp:32-42): only the utility
library's `IllegalValueError` is translated; anything else propagates. -/
def nextAsInt (nu : NumUtil) (g : CmdLineArgGenerator) (argName : String) :
    Except Exc Int × CmdLineArgGenerator :=
  match g.nextAs argName (fun _ v => nu.toInt64 v) with
  | (.error (Exc.UtilIllegalValueError _), g1) =>
      (.error (Exc.IllegalValueError g1.appName argName g1.deref "Must be an integer"), g1)
  | r => r

/-- The message built by `nextAsIntInRange` when the bound check fails. -/
def intRangeMsg (minValue maxValue : Int) : String :=
  "Must be an integer" ++
  (if minValue ≠ INT64_MIN ∧ maxValue ≠ INT64_MAX then
     " between " ++ toString minValue ++ " and " ++ toString maxValue
   else if minValue ≠ INT64_MIN then
     " greater than or equal to " ++ toString minValue
   else " less than or equal to " ++ toString maxValue)

/-- Embeds `nextAsIntInRange(argName, minValue, maxValue)` (CmdLineArgGenerator.cpp:44-62). -/
def nextAsIntInRange (nu : NumUtil) (g : CmdLineArgGenerator) (argName : String)
    (minValue maxValue : Int) : Except Exc Int × CmdLineArgGenerator :=
  match nextAsInt nu g argName with
  | (.error e, g1) => (.error e, g1)
  | (.ok v, g1) =>
    if v < minValue ∨ v > maxValue then
      (.error (Exc.IllegalValueError g1.putBack.appName argName g1.putBack.deref
        (intRangeMsg minValue maxValue)), g1.putBack)
    else (.ok v, g1)

/-- Embeds `nextAsUInt(argName)` (CmdLineArgGenerator.cpp:64-74). -/
def nextAsUInt (nu : NumUtil) (g : CmdLineArgGenerator) (argName : String) :
    Except Exc Nat × CmdLineArgGenerator :=
  match g.nextAs argName (fun _ v => nu.toUInt64 v) with
  | (.error (Exc.UtilIllegalValueError _), g1) =>
      (.error (Exc.IllegalValueError g1.appName argName g1.deref "Must be an integer > 0"), g1)
  | r => r

/-- The message built by `nextAsUIntInRange` when the bound check fails. -/
def uintRangeMsg (minValue maxValue : Nat) : String :=
  "Must be an integer" ++
  (if maxValue ≠ UINT64_MAX then
     " between " ++ toString minValue ++ " and " ++ toString maxValue
   else " greater than or equal to " ++ toString minValue)

/-- Embeds `nextAsUIntInRange(argName, minValue, maxValue)` (CmdLineArgGenerator.cpp:76-91).
The body ends after the `if` statement: on the path where the bound check
passes, control reaches the closing brace without a `return`, so the call
hands no value back.  That outcome is `none`; `some` never occurs. -/
def nextAsUIntInRange (nu : NumUtil) (g : CmdLineArgGenerator) (argName : String)
    (minValue maxValue : Nat) : Except Exc (Option Nat) × CmdLineArgGenerator :=
  match nextAsUInt nu g argName with
  | (.error e, g1) => (.error e, g1)
  | (.ok v, g1) =>
    if v < minValue ∨ v > maxValue then
      (.error (Exc.IllegalValueError g1.putBack.appName argName g1.putBack.deref
        (uintRangeMsg minValue maxValue)), g1.putBack)
    else (.ok none, g1)

/-- At most `n` successive calls of `next()`: the tokens they return, in order,
and the cursor afterwards; the run stops at the first call that throws. -/
def nextN : Nat → CmdLineArgGenerator → List String × CmdLineArgGenerator
  | 0, g => ([], g)
  | n + 1, g =>
    match g.next "" with
    | (.error _, g1) => ([], g1)
    | (.ok tok, g1) => (tok :: (nextN n g1).1, (nextN n g1).2)

end CmdLineArgGenerator

/-! ## The dispatch loop of `AbstractCmdLineArgs` -/

/-- The test `!arg.empty() && (arg[0] == '-')` of `AbstractCmdLineArgs::parse`. -/
def isNamedToken (arg : String) : Bool :=
  match arg.data with
  | [] => false
  | c :: _ => c == '-'

/-- Data members of `AbstractCmdLineArgs`. -/
structure AbstractCmdLineArgs where
  showUsage_ : Bool
  deriving DecidableEq

namespace AbstractCmdLineArgs

/-- The virtual member functions of `AbstractCmdLineArgs`, as implemented by a
class whose state has type `S`.  Each returns the object (and the cursor) as it
is when the call returns or throws. -/
structure Virtuals (S : Type) where
  init_ : S → List String → Except Exc Unit × S
  handleNamedArg_ : S → CmdLineArgGenerator → String →
    Except Exc Bool × CmdLineArgGenerator × S
  handleUnnamedArg_ : S → CmdLineArgGenerator → String →
    Except Exc Bool × CmdLineArgGenerator × S
  check_ : S → String → Except Exc Unit × S

/-- Embeds `AbstractCmdLineArgs::init_` (AbstractCmdLineArgs.cpp:30-32). -/
def init_ (a : AbstractCmdLineArgs) (_argv : List String) : AbstractCmdLineArgs :=
  { a with showUsage_ := false }

/-- Embeds `AbstractCmdLineArgs::handleNamedArg_` (AbstractCmdLineArgs.cpp:34-41). -/
def handleNamedArg_ (a : AbstractCmdLineArgs) (_args : CmdLineArgGenerator)
    (argName : String) : Bool × AbstractCmdLineArgs :=
  if argName = "-h" ∨ argName = "--help" then (true, { a with showUsage_ := true })
  else (false, a)

/-- Embeds `AbstractCmdLineArgs::handleUnnamedArg_` (AbstractCmdLineArgs.cpp:43-46). -/
def handleUnnamedArg_ (a : AbstractCmdLineArgs) (_args : CmdLineArgGenerator)
    (_value : String) : Bool × AbstractCmdLineArgs :=
  (false, a)

/-- Embeds `AbstractCmdLineArgs::check_` (AbstractCmdLineArgs.cpp:48-50). -/
def check_ (a : AbstractCmdLineArgs) (_appName : String) : AbstractCmdLineArgs := a

/-- The body of the `while` loop of `AbstractCmdLineArgs::parse`
(AbstractCmdLineArgs.cpp:16-26): read one token and hand it to the named or the
unnamed hook. -/
def dispatch {S : Type} (vt : Virtuals S) (args : CmdLineArgGenerator) (s : S) :
    Except Exc Unit × CmdLineArgGenerator × S :=
  match args.next "" with
  | (.error e, g1) => (.error e, g1, s)
  | (.ok arg, g1) =>
    if isNamedToken arg then
      match vt.handleNamedArg_ s g1 arg with
      | (.error e, g2, s2) => (.error e, g2, s2)
      | (.ok false, g2, s2) => (.error (Exc.UnknownCmdLineArgError g2.appName arg), g2, s2)
      | (.ok true, g2, s2) => (.ok (), g2, s2)
    else
      match vt.handleUnnamedArg_ s g1 arg with
      | (.error e, g2, s2) => (.error e, g2, s2)
      | (.ok false, g2, s2) => (.error (Exc.TooManyCmdLineArgsError g2.appName), g2, s2)
      | (.ok true, g2, s2) => (.ok (), g2, s2)

/-- The loop `while (args.remaining()) ...` of `AbstractCmdLineArgs::parse`, run for
at most `fuel` iterations; `none` means the iterations were used up before the
loop ended. -/
def parseLoop {S : Type} (vt : Virtuals S) :
    Nat → CmdLineArgGenerator → S → Option (Except Exc Unit × CmdLineArgGenerator × S)
  | fuel, args, s =>
    if args.remaining = 0 then some (.ok (), args, s)
    else
      match fuel with
      | 0 => none
      | fuel + 1 =>
        match dispatch vt args s with
        | (.error e, g1, s1) => some (.error e, g1, s1)
        | (.ok (), g1, s1) => parseLoop vt fuel g1 s1

/-- Embeds `AbstractCmdLineArgs::parse(argc, argv)` (AbstractCmdLineArgs.cpp:12-28), with
`argc = argv.length`: `init_`, construction of the cursor, the loop, `check_`.
The result is the outcome together with the object afterwards. -/
def parse {S : Type} (vt : Virtuals S) (fuel : Nat) (s : S) (argv : List String) :
    Option (Except Exc Unit × S) :=
  match vt.init_ s argv with
  | (.error e, s0) => some (.error e, s0)
  | (.ok (), s0) =>
    match CmdLineArgGenerator.new argv with
    | .error e => some (.error e, s0)
    | .ok args =>
      match parseLoop vt fuel args s0 with
      | none => none
      | some (.error e, _, s1) => some (.error e, s1)
      | some (.ok (), g1, s1) => some (vt.check_ s1 g1.appName)

/-- The first `n` iterations of the loop of `parse`, when each of them starts
with a token left and ends normally: the tokens read at dispatch positions, in
order, and the state reached. -/
def dispatched {S : Type} (vt : Virtuals S) :
    Nat → CmdLineArgGenerator → S → Option (List String × CmdLineArgGenerator × S)
  | 0, args, s => some ([], args, s)
  | n + 1, args, s =>
    if args.remaining = 0 then none
    else
      match dispatch vt args s with
      | (.error _, _, _) => none
      | (.ok (), g1, s1) =>
        match dispatched vt n g1 s1 with
        | none => none
        | some (toks, g2, s2) => some (args.deref :: toks, g2, s2)

end AbstractCmdLineArgs

/-! ## Bindings and the tables of `SimpleCmdLineArgs` -/

/-- What a binding's conversion step does: from the cursor, the token that
selected the binding and the destinations, to an outcome, the cursor and the
destinations afterwards. -/
abbrev Handler (σ : Type) :=
  CmdLineArgGenerator → String → σ → Except Exc Unit × CmdLineArgGenerator × σ

/-- Embeds `SimpleCmdLineArgs::ArgHandler` with its delegate (`DelegatingArgHandler`). -/
structure ArgHandler (σ : Type) where
  argName_ : String
  description_ : String
  required_ : Bool
  final_ : Bool
  found_ : Bool
  handleValue : Handler σ

namespace ArgHandler

/-- Embeds `ArgHandler::fullName` (SimpleCmdLineArgs.cpp:228-238). -/
def fullName {σ : Type} (h : ArgHandler σ) : String :=
  if h.argName_ ≠ "" ∧ h.description_ ≠ "" then
    h.description_ ++ " (" ++ h.argName_ ++ ")"
  else if h.description_ ≠ "" then h.description_
  else h.argName_

/-- Embeds `ArgHandler::setFound`. -/
def setFound {σ : Type} (h : ArgHandler σ) (v : Bool) : ArgHandler σ :=
  { h with found_ := v }

end ArgHandler

/-- The type `HandlerMapType`: the entries of the `std::unordered_map` in iteration order. -/
abbrev HandlerMapType (σ : Type) := List (String × ArgHandler σ)

namespace HandlerMapType

/-- The call `namedArgs_.find(argName)`: the entry stored under the key, if any. -/
def find {σ : Type} : HandlerMapType σ → String → Option (ArgHandler σ)
  | [], _ => none
  | (k, h) :: rest, argName => if k = argName then some h else find rest argName

/-- The call `i->second->setFound(v)` for the entry `i` that `find(argName)` returns. -/
def setFound {σ : Type} : HandlerMapType σ → String → Bool → HandlerMapType σ
  | [], _, _ => []
  | (k, h) :: rest, argName, v =>
    if k = argName then (k, h.setFound v) :: rest
    else (k, h) :: setFound rest argName v

end HandlerMapType

/-- A hook that does nothing: the body of `SimpleCmdLineArgs::initValues_` and of
`SimpleCmdLineArgs::checkValues_`. -/
def noHook {σ : Type} : σ → Except Exc Unit × σ := fun s => (.ok (), s)

/-- State of a `SimpleCmdLineArgs` object.  `values` is the state of the concrete
subclass (the destinations the bindings write to); `initValues_` and
`checkValues_` are the subclass's overrides of the two hooks (`noHook` when it
has none); `currentUnnamedArg_` is the iterator as an index into `unnamedArgs_`. -/
structure SimpleCmdLineArgs (σ : Type) extends AbstractCmdLineArgs where
  namedArgs_ : HandlerMapType σ
  unnamedArgs_ : List (ArgHandler σ)
  currentUnnamedArg_ : Nat
  initValues_ : σ → Except Exc Unit × σ
  checkValues_ : σ → Except Exc Unit × σ
  values : σ

namespace SimpleCmdLineArgs

/-- The `catch` clauses of `handleNamedArg_` and `handleUnnamedArg_`
(SimpleCmdLineArgs.cpp:124-134, 155-164), tried in order: a `FormatError`
becomes an `IllegalValueError` with its value and details, a `CmdLineArgError` is
rethrown, any other `std::exception` becomes an `IllegalValueError` with its
message as details, and anything else one without details. -/
def translateError (appName fullName : String) : Exc → Exc
  | .FormatError value details => .IllegalValueError appName fullName value details
  | .ValueMissingError a n => .ValueMissingError a n
  | .IllegalValueError a n v d => .IllegalValueError a n v d
  | .UnknownCmdLineArgError a n => .UnknownCmdLineArgError a n
  | .TooManyCmdLineArgsError a => .TooManyCmdLineArgsError a
  | .RequiredCmdLineArgMissingError a n => .RequiredCmdLineArgMissingError a n
  | .UtilIllegalValueError what => .IllegalValueError appName fullName "" what
  | .StdException what => .IllegalValueError appName fullName "" what
  | .Unknown => .IllegalValueError appName fullName "" ""

/-- Embeds `SimpleCmdLineArgs::init_` (SimpleCmdLineArgs.cpp:101-111). -/
def init_ {σ : Type} (a : SimpleCmdLineArgs σ) (argv : List String) :
    Except Exc Unit × SimpleCmdLineArgs σ :=
  let a1 : SimpleCmdLineArgs σ :=
    { a with
      toAbstractCmdLineArgs := AbstractCmdLineArgs.init_ a.toAbstractCmdLineArgs argv
      namedArgs_ := a.namedArgs_.map (fun p => (p.1, p.2.setFound false))
      unnamedArgs_ := a.unnamedArgs_.map (fun h => h.setFound false)
      currentUnnamedArg_ := 0 }
  match a1.initValues_ a1.values with
  | (r, v) => (r, { a1 with values := v })

/-- Embeds `SimpleCmdLineArgs::handleNamedArg_` (SimpleCmdLineArgs.cpp:113-138). -/
def handleNamedArg_ {σ : Type} (a : SimpleCmdLineArgs σ) (args : CmdLineArgGenerator)
    (argName : String) : Except Exc Bool × CmdLineArgGenerator × SimpleCmdLineArgs σ :=
  match AbstractCmdLineArgs.handleNamedArg_ a.toAbstractCmdLineArgs args argName with
  | (true, base) => (.ok true, args, { a with toAbstractCmdLineArgs := base })
  | (false, _) =>
    match a.namedArgs_.find argName with
    | some h =>
      match h.handleValue args argName a.values with
      | (.ok (), g1, v1) =>
          (.ok true, g1,
            { a with values := v1, namedArgs_ := a.namedArgs_.setFound argName true })
      | (.error e, g1, v1) =>
          (.error (translateError g1.appName h.fullName e), g1, { a with values := v1 })
    | none => (.ok false, args, a)

/-- Embeds `SimpleCmdLineArgs::handleUnnamedArg_` (SimpleCmdLineArgs.cpp:140-166). -/
def handleUnnamedArg_ {σ : Type} (a : SimpleCmdLineArgs σ) (args : CmdLineArgGenerator)
    (argValue : String) : Except Exc Bool × CmdLineArgGenerator × SimpleCmdLineArgs σ :=
  match AbstractCmdLineArgs.handleUnnamedArg_ a.toAbstractCmdLineArgs args argValue with
  | (true, base) => (.ok true, args, { a with toAbstractCmdLineArgs := base })
  | (false, _) =>
    match a.unnamedArgs_.get? a.currentUnnamedArg_ with
    | none => (.ok false, args, a)
    | some h =>
      match h.handleValue args argValue a.values with
      | (.ok (), g1, v1) =>
          (.ok true, g1,
            { a with
              values := v1
              unnamedArgs_ := a.unnamedArgs_.set a.currentUnnamedArg_ (h.setFound true)
              currentUnnamedArg_ :=
                if h.final_ then a.currentUnnamedArg_ else a.currentUnnamedArg_ + 1 })
      | (.error e, g1, v1) =>
          (.error (translateError g1.appName h.fullName e), g1, { a with values := v1 })

/-- The first handler of a list that is required and was not found. -/
def firstMissing {σ : Type} : List (ArgHandler σ) → Option (ArgHandler σ)
  | [] => none
  | h :: rest => if h.required_ ∧ ¬ h.found_ then some h else firstMissing rest

/-- Embeds `SimpleCmdLineArgs::check_` (SimpleCmdLineArgs.cpp:168-183): the named table in
iteration order, then the positional list from `currentUnnamedArg_` on, then the
`checkValues_` hook. -/
def check_ {σ : Type} (a : SimpleCmdLineArgs σ) (appName : String) :
    Except Exc Unit × SimpleCmdLineArgs σ :=
  let a1 : SimpleCmdLineArgs σ :=
    { a with toAbstractCmdLineArgs := AbstractCmdLineArgs.check_ a.toAbstractCmdLineArgs appName }
  match firstMissing (a1.namedArgs_.map Prod.snd) with
  | some h => (.error (Exc.RequiredCmdLineArgMissingError appName h.fullName), a1)
  | none =>
    match firstMissing (a1.unnamedArgs_.drop a1.currentUnnamedArg_) with
    | some h => (.error (Exc.RequiredCmdLineArgMissingError appName h.fullName), a1)
    | none =>
      match a1.checkValues_ a1.values with
      | (r, v) => (r, { a1 with values := v })

/-- The overrides of the four virtual functions by `SimpleCmdLineArgs`. -/
def virtuals (σ : Type) : AbstractCmdLineArgs.Virtuals (SimpleCmdLineArgs σ) where
  init_ := init_
  handleNamedArg_ := handleNamedArg_
  handleUnnamedArg_ := handleUnnamedArg_
  check_ := check_

/-- The member `parse` as inherited by a `SimpleCmdLineArgs` object. -/
def parse {σ : Type} (fuel : Nat) (a : SimpleCmdLineArgs σ) (argv : List String) :
    Option (Except Exc Unit × SimpleCmdLineArgs σ) :=
  AbstractCmdLineArgs.parse (virtuals σ) fuel a argv

/-- The object `b` carries the bindings and hooks of `a`; only `found_` flags,
the positional iterator, `showUsage_` and the destinations may differ. -/
def SameBindings {σ : Type} (a b : SimpleCmdLineArgs σ) : Prop :=
  b.namedArgs_.map (fun p => (p.1, p.2.setFound false)) =
    a.namedArgs_.map (fun p => (p.1, p.2.setFound false)) ∧
  b.unnamedArgs_.map (fun h => h.setFound false) =
    a.unnamedArgs_.map (fun h => h.setFound false) ∧
  b.initValues_ = a.initValues_ ∧ b.checkValues_ = a.checkValues_

/-- Every positional binding before the positional iterator has been found. -/
def FoundBefore {σ : Type} (a : SimpleCmdLineArgs σ) : Prop :=
  ∀ i h, i < a.currentUnnamedArg_ → a.unnamedArgs_.get? i = some h → h.found_ = true

/-- The constructor `SimpleCmdLineArgs()`: empty tables, `showUsage_` false. -/
def new {σ : Type} (values : σ) (initValues_ checkValues_ : σ → Except Exc Unit × σ) :
    SimpleCmdLineArgs σ where
  showUsage_ := false
  namedArgs_ := []
  unnamedArgs_ := []
  currentUnnamedArg_ := 0
  initValues_ := initValues_
  checkValues_ := checkValues_
  values := values

/-- Embeds `createDelegate_` (SimpleCmdLineArgs.hpp:1125-1133); `found_` starts false. -/
def createDelegate_ {σ : Type} (argName description : String) (required final : Bool)
    (delegate : Handler σ) : ArgHandler σ where
  argName_ := argName
  description_ := description
  required_ := required
  final_ := final
  found_ := false
  handleValue := delegate

/-- Embeds `SimpleCmdLineArgs::registerHandler_` (SimpleCmdLineArgs.cpp:73-99).  The two
`IllegalStateError`s and the `IllegalValueError` are exceptions of the utility
library.  A new named entry is put at the end of the iteration order. -/
def registerHandler_ {σ : Type} (a : SimpleCmdLineArgs σ) (h : ArgHandler σ) :
    Except Exc (SimpleCmdLineArgs σ) :=
  if h.argName_ = "" then
    if (a.unnamedArgs_.getLast?.map (fun l => l.final_)) = some true then
      .error (Exc.StdException
        ("Previous handler for unnamed arguments can accept any number of " ++
         "unnamed arguments, so no further handlers for unnamed arguments " ++
         "are allowed"))
    else .ok { a with unnamedArgs_ := a.unnamedArgs_ ++ [h] }
  else if h.argName_.data.head? ≠ some '-' then
    .error (Exc.UtilIllegalValueError "Named arguments must begin with a '-'")
  else if (a.namedArgs_.find h.argName_).isSome then
    .error (Exc.StdException
      ("Argument \"" ++ h.argName_ ++ "\" already has a handler registered for it"))
  else .ok { a with namedArgs_ := a.namedArgs_ ++ [(h.argName_, h)] }

end SimpleCmdLineArgs

/-! ## Formatters and the scalar registrations -/

/-- The conversion of an `int64_t` to `int` done by `return v.first` in
`ArgFormatter<int>::format`: the value modulo `2^32`, as a signed number. -/
def toInt32 (v : Int) : Int := (v + 2 ^ 31) % 2 ^ 32 - 2 ^ 31

namespace ArgFormatter

/-- Embeds `ArgFormatter<int>::format(value)` (SimpleCmdLineArgs.hpp:1156-1163). -/
def formatInt (nu : NumUtil) (value : String) : Except Exc Int :=
  match nu.toInt64Quietly value with
  | (v, .OK) => .ok (toInt32 v)
  | (_, r) => .error (Exc.FormatError value (nu.descriptionFor r))

/-- Embeds `ArgFormatter<std::string>::format(value)` (SimpleCmdLineArgs.hpp:1242-1244). -/
def formatString (value : String) : Except Exc String := .ok value

end ArgFormatter

/-- A C++ reference `Value& v` into the subclass state: how to read the variable
and how to assign to it. -/
structure Ref (σ α : Type) where
  get : σ → α
  set : σ → α → σ

namespace SimpleCmdLineArgs

/-- The delegate of the scalar `registerNamedArg_` (SimpleCmdLineArgs.hpp:202-205):
`v = ArgFormatter<Value>::format(args.next(argName))`. -/
def namedScalarDelegate {σ α : Type} (format : String → Except Exc α) (v : Ref σ α) :
    Handler σ :=
  fun args argName s =>
    match args.next argName with
    | (.error e, g1) => (.error e, g1, s)
    | (.ok tok, g1) =>
      match format tok with
      | .error e => (.error e, g1, s)
      | .ok x => (.ok (), g1, v.set s x)

/-- The delegate of the scalar `registerUnnamedArg_` (SimpleCmdLineArgs.hpp:688-691):
`v = ArgFormatter<Value>::format(argValue)`. -/
def unnamedScalarDelegate {σ α : Type} (format : String → Except Exc α) (v : Ref σ α) :
    Handler σ :=
  fun args argValue s =>
    match format argValue with
    | .error e => (.error e, args, s)
    | .ok x => (.ok (), args, v.set s x)

/-- The scalar `registerNamedArg_(argName, description, required, v)`
(SimpleCmdLineArgs.hpp:195-207); named handlers are created with `final = true`. -/
def registerNamedArg_ {σ α : Type} (format : String → Except Exc α)
    (a : SimpleCmdLineArgs σ) (argName description : String) (required : Bool)
    (v : Ref σ α) : Except Exc (SimpleCmdLineArgs σ) :=
  a.registerHandler_
    (createDelegate_ argName description required true (namedScalarDelegate format v))

/-- The scalar `registerUnnamedArg_(description, required, v)`
(SimpleCmdLineArgs.hpp:682-694), created with `final = false`. -/
def registerUnnamedArg_ {σ α : Type} (format : String → Except Exc α)
    (a : SimpleCmdLineArgs σ) (description : String) (required : Bool)
    (v : Ref σ α) : Except Exc (SimpleCmdLineArgs σ) :=
  a.registerHandler_
    (createDelegate_ "" description required false (unnamedScalarDelegate format v))

end SimpleCmdLineArgs

/-! ## A store of typed variables for the destinations -/

/-- The member variables of a concrete argument-definition class that bindings
write to: `int` variables, `std::string` variables, `std::vector<std::string>`
variables and `std::unordered_set<std::string>` variables, each family indexed
by a number that stands for the variable's identity.  A set is kept as the list
of its distinct elements. -/
structure Memory where
  ints : Nat → Int
  strings : Nat → String
  stringLists : Nat → List String
  stringSets : Nat → List String

namespace Memory

/-- The reference to the `int` variable number `i`. -/
def intRef (i : Nat) : Ref Memory Int where
  get m := m.ints i
  set m x := { m with ints := fun j => if j = i then x else m.ints j }

/-- The reference to the `std::string` variable number `i`. -/
def stringRef (i : Nat) : Ref Memory String where
  get m := m.strings i
  set m x := { m with strings := fun j => if j = i then x else m.strings j }

/-- The reference to the `std::vector<std::string>` variable number `i`. -/
def stringListRef (i : Nat) : Ref Memory (List String) where
  get m := m.stringLists i
  set m x := { m with stringLists := fun j => if j = i then x else m.stringLists j }

/-- The reference to the `std::unordered_set<std::string>` variable number `i`. -/
def stringSetRef (i : Nat) : Ref Memory (List String) where
  get m := m.stringSets i
  set m x := { m with stringSets := fun j => if j = i then x else m.stringSets j }

/-- All `int` variables are 0, all strings and all containers empty. -/
def zero : Memory where
  ints := fun _ => 0
  strings := fun _ => ""
  stringLists := fun _ => []
  stringSets := fun _ => []

end Memory

/-- A value of one of the two scalar types. -/
inductive Value where
  | int (v : Int)
  | string (v : String)
  deriving DecidableEq

/-- A scalar destination: an `int` variable or a `std::string` variable. -/
inductive Dest where
  | int (i : Nat)
  | string (i : Nat)
  deriving DecidableEq

namespace Dest

/-- The delegate that the scalar `registerNamedArg_` creates for a destination. -/
def namedDelegate (nu : NumUtil) : Dest → Handler Memory
  | .int i => SimpleCmdLineArgs.namedScalarDelegate (ArgFormatter.formatInt nu) (Memory.intRef i)
  | .string i => SimpleCmdLineArgs.namedScalarDelegate ArgFormatter.formatString (Memory.stringRef i)

/-- What a scalar variable holds. -/
def read : Dest → Memory → Value
  | .int i, m => .int (m.ints i)
  | .string i, m => .string (m.strings i)

/-- The conversion `ArgFormatter<Value>::format` for the destination's type. -/
def format (nu : NumUtil) : Dest → String → Except Exc Value
  | .int _, tok => (ArgFormatter.formatInt nu tok).map Value.int
  | .string _, tok => (ArgFormatter.formatString tok).map Value.string

end Dest

/-! ## Custom handlers, checked formatters, list and set destinations -/

namespace Exc

/-- The exception is one of the library's typed errors: a `CmdLineArgError` or a
`FormatError`. -/
def isTyped : Exc → Bool
  | FormatError _ _ => true
  | e => e.isCmdLineArgError

end Exc

namespace Ref

/-- The statement `v.push_back(x)` on a referenced vector. -/
def pushBack {σ α : Type} (v : Ref σ (List α)) (s : σ) (x : α) : σ :=
  v.set s (v.get s ++ [x])

/-- The statement `v.insert(x)` on a referenced set: an element already present
is not added again. -/
def insert {σ α : Type} [DecidableEq α] (v : Ref σ (List α)) (s : σ) (x : α) : σ :=
  if x ∈ v.get s then s else v.set s (v.get s ++ [x])

end Ref

namespace ArgFormatter

/-- The detail built by `ArgFormatter<int>::format(value, minValue, maxValue)` when
the bound check fails (SimpleCmdLineArgs.hpp:1168-1177).  The second branch
streams `maxValue`, and the third has no blank before `and`, as the source does. -/
def intRangeDetail (minValue maxValue : Int) : String :=
  if minValue = INT_MIN then
    "Value must be less than or equal to " ++ toString maxValue
  else if maxValue = INT_MAX then
    "Value must be greater than or equal to " ++ toString maxValue
  else
    "Value must be between " ++ toString minValue ++ "and " ++ toString maxValue ++
      " (inclusive)"

/-- Embeds `ArgFormatter<int>::format(value, minValue, maxValue)`
(SimpleCmdLineArgs.hpp:1165-1181). -/
def formatIntInRange (nu : NumUtil) (minValue maxValue : Int) (value : String) :
    Except Exc Int :=
  match formatInt nu value with
  | .error e => .error e
  | .ok v =>
    if v < minValue ∨ v > maxValue then
      .error (Exc.FormatError value (intRangeDetail minValue maxValue))
    else .ok v

/-- Embeds `ArgFormatter<int>::format(value, legalValues)`
(SimpleCmdLineArgs.hpp:1183-1193); `legalValues` is the content of the
`std::unordered_set<int>` in iteration order, and `util::join` streams each
element in decimal. -/
def formatIntInSet (nu : NumUtil) (legalValues : List Int) (value : String) :
    Except Exc Int :=
  match formatInt nu value with
  | .error e => .error e
  | .ok v =>
    if v ∉ legalValues then
      .error (Exc.FormatError value
        ("Legal values are " ++ join (legalValues.map (fun x => toString x)) ", "))
    else .ok v

end ArgFormatter

namespace SimpleCmdLineArgs

/-- The `catch` clauses around the caller's handler in the custom-handler
overloads of `registerNamedArg_` and `registerUnnamedArg_`
(SimpleCmdLineArgs.cpp:33-43, 58-68): a `FormatError` or `CmdLineArgError` is
rethrown, any other `std::exception` becomes `FormatError(e.what())` and
anything else `FormatError(std::string())`. -/
def wrapHandlerError : Exc → Exc
  | .FormatError value details => .FormatError value details
  | .ValueMissingError a n => .ValueMissingError a n
  | .IllegalValueError a n v d => .IllegalValueError a n v d
  | .UnknownCmdLineArgError a n => .UnknownCmdLineArgError a n
  | .TooManyCmdLineArgsError a => .TooManyCmdLineArgsError a
  | .RequiredCmdLineArgMissingError a n => .RequiredCmdLineArgMissingError a n
  | .UtilIllegalValueError what => .FormatError "" what
  | .StdException what => .FormatError "" what
  | .Unknown => .FormatError "" ""

/-- The delegate created by the custom-handler overloads: the caller's handler
inside the `try` block. -/
def customDelegate {σ : Type} (handler : Handler σ) : Handler σ :=
  fun args argName s =>
    match handler args argName s with
    | (.ok (), g1, s1) => (.ok (), g1, s1)
    | (.error e, g1, s1) => (.error (wrapHandlerError e), g1, s1)

/-- The overload `registerNamedArg_(argName, description, required, handler)`
(SimpleCmdLineArgs.cpp:22-46). -/
def registerNamedArgHandler_ {σ : Type} (a : SimpleCmdLineArgs σ)
    (argName description : String) (required : Bool) (handler : Handler σ) :
    Except Exc (SimpleCmdLineArgs σ) :=
  a.registerHandler_ (createDelegate_ argName description required true (customDelegate handler))

/-- The overload `registerUnnamedArg_(description, required, handler)`
(SimpleCmdLineArgs.cpp:48-71). -/
def registerUnnamedArgHandler_ {σ : Type} (a : SimpleCmdLineArgs σ)
    (description : String) (required : Bool) (handler : Handler σ) :
    Except Exc (SimpleCmdLineArgs σ) :=
  a.registerHandler_ (createDelegate_ "" description required false (customDelegate handler))

/-- The `catch` clauses inside the loop of `splitAndApply`
(SimpleCmdLineArgs.hpp:182-188) for the piece `*i`: a `FormatError` is rethrown,
any other exception becomes a `FormatError` for the piece with the exception's
message (none for a thrown object that is no `std::exception`). -/
def pieceError (piece : String) : Exc → Exc
  | .FormatError value details => .FormatError value details
  | e => .FormatError piece e.message

/-- The loop of `splitAndApply` over the pieces the split iterator yields. -/
def applyPieces {σ : Type} (f : String → σ → Except Exc Unit × σ) :
    List String → σ → Except Exc Unit × σ
  | [], s => (.ok (), s)
  | piece :: rest, s =>
    match f piece s with
    | (.ok (), s1) => applyPieces f rest s1
    | (.error e, s1) => (.error (pieceError piece e), s1)

/-- Embeds `splitAndApply(value, separator, allowEmpty, f)`
(SimpleCmdLineArgs.hpp:170-193).  `split value separator` is the sequence of
pieces that `util::SplitIterator(value, separator)` yields; the iterator belongs
to the utility library and is a parameter. -/
def splitAndApply {σ : Type} (split : String → String → List String)
    (value separator : String) (allowEmpty : Bool)
    (f : String → σ → Except Exc Unit × σ) (s : σ) : Except Exc Unit × σ :=
  if value ≠ "" then applyPieces f (split value separator) s
  else if allowEmpty = false then (.error (Exc.FormatError "" "Value is empty"), s)
  else (.ok (), s)

/-- The inner lambda `v.push_back(ArgFormatter<Value>::format(value))`. -/
def pushBackPiece {σ α : Type} (format : String → Except Exc α) (v : Ref σ (List α)) :
    String → σ → Except Exc Unit × σ :=
  fun value s =>
    match format value with
    | .error e => (.error e, s)
    | .ok x => (.ok (), v.pushBack s x)

/-- The inner lambda `v.insert(ArgFormatter<Value>::format(value))`. -/
def insertPiece {σ α : Type} [DecidableEq α] (format : String → Except Exc α)
    (v : Ref σ (List α)) : String → σ → Except Exc Unit × σ :=
  fun value s =>
    match format value with
    | .error e => (.error e, s)
    | .ok x => (.ok (), v.insert s x)

/-- The delegate of `registerNamedArg_` with a vector destination
(SimpleCmdLineArgs.hpp:216-219): `v.push_back(format(args.next(argName)))`. -/
def namedListDelegate {σ α : Type} (format : String → Except Exc α)
    (v : Ref σ (List α)) : Handler σ :=
  fun args argName s =>
    match args.next argName with
    | (.error e, g1) => (.error e, g1, s)
    | (.ok tok, g1) =>
      match pushBackPiece format v tok s with
      | (r, s1) => (r, g1, s1)

/-- The delegate of `registerNamedArg_` with a set destination
(SimpleCmdLineArgs.hpp:252-255): `v.insert(format(args.next(argName)))`. -/
def namedSetDelegate {σ α : Type} [DecidableEq α] (format : String → Except Exc α)
    (v : Ref σ (List α)) : Handler σ :=
  fun args argName s =>
    match args.next argName with
    | (.error e, g1) => (.error e, g1, s)
    | (.ok tok, g1) =>
      match insertPiece format v tok s with
      | (r, s1) => (r, g1, s1)

/-- The delegate of the named registrations that take a separator
(SimpleCmdLineArgs.hpp:233-240, 268-276):
`splitAndApply(args.next(argName), separator, allowEmpty, f)`. -/
def namedSplitDelegate {σ : Type} (split : String → String → List String)
    (separator : String) (allowEmpty : Bool) (f : String → σ → Except Exc Unit × σ) :
    Handler σ :=
  fun args argName s =>
    match args.next argName with
    | (.error e, g1) => (.error e, g1, s)
    | (.ok tok, g1) =>
      match splitAndApply split tok separator allowEmpty f s with
      | (r, s1) => (r, g1, s1)

/-- The overload `registerNamedArg_(argName, description, required, v)` for a
`std::vector<Value>` destination (SimpleCmdLineArgs.hpp:209-221). -/
def registerNamedArgList_ {σ α : Type} (format : String → Except Exc α)
    (a : SimpleCmdLineArgs σ) (argName description : String) (required : Bool)
    (v : Ref σ (List α)) : Except Exc (SimpleCmdLineArgs σ) :=
  a.registerHandler_
    (createDelegate_ argName description required true (namedListDelegate format v))

/-- The overload `registerNamedArg_(argName, description, required, separator,
allowEmpty, v)` for a `std::vector<Value>` destination
(SimpleCmdLineArgs.hpp:223-243). -/
def registerNamedArgSplitList_ {σ α : Type} (split : String → String → List String)
    (format : String → Except Exc α) (a : SimpleCmdLineArgs σ)
    (argName description : String) (required : Bool) (separator : String)
    (allowEmpty : Bool) (v : Ref σ (List α)) : Except Exc (SimpleCmdLineArgs σ) :=
  a.registerHandler_
    (createDelegate_ argName description required true
      (namedSplitDelegate split separator allowEmpty (pushBackPiece format v)))

/-- The overload `registerNamedArg_(argName, description, required, v)` for a
`std::unordered_set<Value>` destination (SimpleCmdLineArgs.hpp:245-257). -/
def registerNamedArgSet_ {σ α : Type} [DecidableEq α] (format : String → Except Exc α)
    (a : SimpleCmdLineArgs σ) (argName description : String) (required : Bool)
    (v : Ref σ (List α)) : Except Exc (SimpleCmdLineArgs σ) :=
  a.registerHandler_
    (createDelegate_ argName description required true (namedSetDelegate format v))

/-- The overload `registerNamedArg_(argName, description, required, separator,
allowEmpty, v)` for a `std::unordered_set<Value>` destination
(SimpleCmdLineArgs.hpp:259-278). -/
def registerNamedArgSplitSet_ {σ α : Type} [DecidableEq α]
    (split : String → String → List String) (format : String → Except Exc α)
    (a : SimpleCmdLineArgs σ) (argName description : String) (required : Bool)
    (separator : String) (allowEmpty : Bool) (v : Ref σ (List α)) :
    Except Exc (SimpleCmdLineArgs σ) :=
  a.registerHandler_
    (createDelegate_ argName description required true
      (namedSplitDelegate split separator allowEmpty (insertPiece format v)))

/-- The scalar `registerNamedArgInRange_(argName, description, required, minValue,
maxValue, v)` for `int` (SimpleCmdLineArgs.hpp:280-295):
`v = ArgFormatter<int>::format(args.next(argName), minValue, maxValue)`. -/
def registerNamedArgInRange_ {σ : Type} (nu : NumUtil) (a : SimpleCmdLineArgs σ)
    (argName description : String) (required : Bool) (minValue maxValue : Int)
    (v : Ref σ Int) : Except Exc (SimpleCmdLineArgs σ) :=
  a.registerHandler_
    (createDelegate_ argName description required true
      (namedScalarDelegate (ArgFormatter.formatIntInRange nu minValue maxValue) v))

/-- The scalar `registerNamedArgInSet_(argName, description, required, legalValues,
v)` for `int` (SimpleCmdLineArgs.hpp:387-403):
`v = ArgFormatter<int>::format(args.next(argName), legalValues)`. -/
def registerNamedArgInSet_ {σ : Type} (nu : NumUtil) (a : SimpleCmdLineArgs σ)
    (argName description : String) (required : Bool) (legalValues : List Int)
    (v : Ref σ Int) : Except Exc (SimpleCmdLineArgs σ) :=
  a.registerHandler_
    (createDelegate_ argName description required true
      (namedScalarDelegate (ArgFormatter.formatIntInSet nu legalValues) v))

end SimpleCmdLineArgs

/-- Splits a run of characters at every occurrence of the separator: `skip`
counts the characters of a separator still to be passed over and `piece` holds
the current piece in reverse. -/
def splitChars (separator : List Char) : List Char → Nat → List Char → List String
  | [], _, piece => [String.mk piece.reverse]
  | _ :: cs, skip + 1, piece => splitChars separator cs skip piece
  | c :: cs, 0, piece =>
    if separator ≠ [] ∧ separator.isPrefixOf (c :: cs) then
      String.mk piece.reverse :: splitChars separator cs (separator.length - 1) []
    else splitChars separator cs 0 (c :: piece)

/-- A sample split iterator used to evaluate the embedding on concrete tokens:
the pieces between the occurrences of the separator, empty pieces included. -/
def sampleSplit (value separator : String) : List String :=
  splitChars separator.data value.data 0 []

/-! ## Registration attempts, value maps and positional containers -/

/-- Embeds `SimpleCmdLineArgs::ValueMap<Value>` (SimpleCmdLineArgs.hpp:38-93):
`values_` holds the entries of the `std::unordered_map` in iteration order. -/
structure ValueMap (α : Type) where
  values_ : List (String × α)

namespace ValueMap

/-- The default constructor `ValueMap()`. -/
def empty {α : Type} : ValueMap α := ⟨[]⟩

/-- The call `values_.find(key)`: the value stored under the key, if any. -/
def find {α : Type} : List (String × α) → String → Option α
  | [], _ => none
  | (k, v) :: rest, key => if k = key then some v else find rest key

/-- Embeds `allKeys()` (SimpleCmdLineArgs.hpp:51-58). -/
def allKeys {α : Type} (m : ValueMap α) : List String := m.values_.map Prod.fst

/-- Embeds `hasValue(key)` (SimpleCmdLineArgs.hpp:59-61). -/
def hasValue {α : Type} (m : ValueMap α) (key : String) : Bool :=
  (find m.values_ key).isSome

/-- Embeds `operator[](key)` (SimpleCmdLineArgs.hpp:62-73). -/
def lookup {α : Type} (m : ValueMap α) (key : String) : Except Exc α :=
  match find m.values_ key with
  | none =>
      .error (Exc.FormatError key ("Legal values are \"" ++ join m.allKeys "\", \"" ++ "\""))
  | some v => .ok v

/-- Embeds `setValue(key, value)` (SimpleCmdLineArgs.hpp:74-79): the outcome and
the map afterwards.  `ItemExistsError` is an exception of the utility library; it
is kept as `StdException` with the key given to its constructor.  A new entry is
put at the end of the iteration order. -/
def setValue {α : Type} (m : ValueMap α) (key : String) (value : α) :
    Except Exc Unit × ValueMap α :=
  if m.hasValue key then (.error (Exc.StdException key), m)
  else (.ok (), ⟨m.values_ ++ [(key, value)]⟩)

end ValueMap

namespace SimpleCmdLineArgs

/-- The object after the call `registerHandler_(h)`, whether the call returned
or threw.  Each of the three `throw` statements of `registerHandler_`
(SimpleCmdLineArgs.cpp:76-81, 84-87, 89-93) comes before any assignment to a
member, so a call that throws leaves the object as it was. -/
def afterRegisterHandler_ {σ : Type} (a : SimpleCmdLineArgs σ) (h : ArgHandler σ) :
    SimpleCmdLineArgs σ :=
  match a.registerHandler_ h with
  | .ok a1 => a1
  | .error _ => a

/-- A sequence of calls of `registerHandler_` on one object, in order, the calls
that throw included. -/
def registerAll {σ : Type} (a : SimpleCmdLineArgs σ) (hs : List (ArgHandler σ)) :
    SimpleCmdLineArgs σ :=
  hs.foldl afterRegisterHandler_ a

/-- The delegate of `registerUnnamedArg_` with a vector destination
(SimpleCmdLineArgs.hpp:701-704): `v.push_back(ArgFormatter<Value>::format(argValue))`. -/
def unnamedListDelegate {σ α : Type} (format : String → Except Exc α)
    (v : Ref σ (List α)) : Handler σ :=
  fun args argValue s =>
    match pushBackPiece format v argValue s with
    | (r, s1) => (r, args, s1)

/-- The delegate of `registerUnnamedArg_` with a set destination
(SimpleCmdLineArgs.hpp:733-736): `v.insert(ArgFormatter<Value>::format(argValue))`. -/
def unnamedSetDelegate {σ α : Type} [DecidableEq α] (format : String → Except Exc α)
    (v : Ref σ (List α)) : Handler σ :=
  fun args argValue s =>
    match insertPiece format v argValue s with
    | (r, s1) => (r, args, s1)

/-- The delegate of the positional registrations that take a separator
(SimpleCmdLineArgs.hpp:715-723, 747-755):
`splitAndApply(argValue, separator, false, f)`. -/
def unnamedSplitDelegate {σ : Type} (split : String → String → List String)
    (separator : String) (f : String → σ → Except Exc Unit × σ) : Handler σ :=
  fun args argValue s =>
    match splitAndApply split argValue separator false f s with
    | (r, s1) => (r, args, s1)

/-- The overload `registerUnnamedArg_(description, required, v)` for a
`std::vector<Value>` destination (SimpleCmdLineArgs.hpp:695-706), created with
`final = true`. -/
def registerUnnamedArgList_ {σ α : Type} (format : String → Except Exc α)
    (a : SimpleCmdLineArgs σ) (description : String) (required : Bool)
    (v : Ref σ (List α)) : Except Exc (SimpleCmdLineArgs σ) :=
  a.registerHandler_
    (createDelegate_ "" description required true (unnamedListDelegate format v))

/-- The overload `registerUnnamedArg_(description, required, separator, v)` for a
`std::vector<Value>` destination (SimpleCmdLineArgs.hpp:708-725), created with
`final = false`. -/
def registerUnnamedArgSplitList_ {σ α : Type} (split : String → String → List String)
    (format : String → Except Exc α) (a : SimpleCmdLineArgs σ) (description : String)
    (required : Bool) (separator : String) (v : Ref σ (List α)) :
    Except Exc (SimpleCmdLineArgs σ) :=
  a.registerHandler_
    (createDelegate_ "" description required false
      (unnamedSplitDelegate split separator (pushBackPiece format v)))

/-- The overload `registerUnnamedArg_(description, required, v)` for a
`std::unordered_set<Value>` destination (SimpleCmdLineArgs.hpp:727-738), created
with `final = true`. -/
def registerUnnamedArgSet_ {σ α : Type} [DecidableEq α] (format : String → Except Exc α)
    (a : SimpleCmdLineArgs σ) (description : String) (required : Bool)
    (v : Ref σ (List α)) : Except Exc (SimpleCmdLineArgs σ) :=
  a.registerHandler_
    (createDelegate_ "" description required true (unnamedSetDelegate format v))

/-- The overload `registerUnnamedArg_(description, required, separator, v)` for a
`std::unordered_set<Value>` destination (SimpleCmdLineArgs.hpp:740-757), created
with `final = false`. -/
def registerUnnamedArgSplitSet_ {σ α : Type} [DecidableEq α]
    (split : String → String → List String) (format : String → Except Exc α)
    (a : SimpleCmdLineArgs σ) (description : String) (required : Bool)
    (separator : String) (v : Ref σ (List α)) : Except Exc (SimpleCmdLineArgs σ) :=
  a.registerHandler_
    (createDelegate_ "" description required false
      (unnamedSplitDelegate split separator (insertPiece format v)))

/-- The scalar overload `registerNamedArg_(argName, description, required,
valueMap, v)` (SimpleCmdLineArgs.hpp:487-500): `v = valueMap[args.next(argName)]`. -/
def registerNamedArgValueMap_ {σ α : Type} (a : SimpleCmdLineArgs σ)
    (argName description : String) (required : Bool) (valueMap : ValueMap α)
    (v : Ref σ α) : Except Exc (SimpleCmdLineArgs σ) :=
  a.registerHandler_
    (createDelegate_ argName description required true
      (namedScalarDelegate valueMap.lookup v))

end SimpleCmdLineArgs

namespace Dest

/-- The delegate that the scalar `registerUnnamedArg_` creates for a destination. -/
def unnamedDelegate (nu : NumUtil) : Dest → Handler Memory
  | .int i =>
      SimpleCmdLineArgs.unnamedScalarDelegate (ArgFormatter.formatInt nu) (Memory.intRef i)
  | .string i =>
      SimpleCmdLineArgs.unnamedScalarDelegate ArgFormatter.formatString (Memory.stringRef i)

end Dest

namespace Item

end Item

/-! ## Conversion steps and the cursor -/

namespace SimpleCmdLineArgs

/-- A conversion step that keeps the cursor inside the stream and never moves
it backwards: started on a cursor that is not past the end, it leaves a cursor
over the same arguments, at or after the position it started from and not past
the end. -/
def CursorSafe {σ : Type} (h : Handler σ) : Prop :=
  ∀ (g : CmdLineArgGenerator) (name : String) (v : σ), g.current_ ≤ g.end_ →
    (h g name v).2.1.argv = g.argv ∧ g.current_ ≤ (h g name v).2.1.current_ ∧
    (h g name v).2.1.current_ ≤ g.end_

/-- The conversion step is one that a built-in registration creates: the
scalar, vector, set or delimiter-split delegate of `registerNamedArg_` or of
`registerUnnamedArg_`, for some destination and some conversion (plain,
range-checked, set-checked, value map or formatter function). -/
def BuiltIn {σ : Type} (h : Handler σ) : Prop :=
  (∃ (α : Type) (format : String → Except Exc α) (v : Ref σ α),
    h = namedScalarDelegate format v ∨ h = unnamedScalarDelegate format v) ∨
  (∃ (α : Type) (format : String → Except Exc α) (v : Ref σ (List α)),
    h = namedListDelegate format v ∨ h = unnamedListDelegate format v) ∨
  (∃ (α : Type) (_ : DecidableEq α) (format : String → Except Exc α) (v : Ref σ (List α)),
    h = namedSetDelegate format v ∨ h = unnamedSetDelegate format v) ∨
  (∃ (split : String → String → List String) (separator : String) (allowEmpty : Bool)
      (f : String → σ → Except Exc Unit × σ),
    h = namedSplitDelegate split separator allowEmpty f ∨
    h = unnamedSplitDelegate split separator f)

end SimpleCmdLineArgs

/-! ## Sample argument definitions -/

namespace Sample

open SimpleCmdLineArgs

/-- The named part of the test class `NamedSingleValueCmdLineArgs`, without its
floating-point option: `-i`, a required `int` (variable 0), and `-s`, an optional
string (variable 0). -/
def named : SimpleCmdLineArgs Memory where
  showUsage_ := false
  namedArgs_ :=
    [("-i", createDelegate_ "-i" "int value" true true (Dest.namedDelegate decimalNumUtil (.int 0))),
     ("-s", createDelegate_ "-s" "string value" false true
        (Dest.namedDelegate decimalNumUtil (.string 0)))]
  unnamedArgs_ := []
  currentUnnamedArg_ := 0
  initValues_ := noHook
  checkValues_ := noHook
  values := Memory.zero

/-- Two scalar positional bindings, as in the test class
`UnnamedSingleValueCmdLineArgs`: a required `int` (variable 0), then an optional
string (variable 0). -/
def positional : SimpleCmdLineArgs Memory where
  showUsage_ := false
  namedArgs_ := []
  unnamedArgs_ :=
    [createDelegate_ "" "int value" true false
       (unnamedScalarDelegate (ArgFormatter.formatInt decimalNumUtil) (Memory.intRef 0)),
     createDelegate_ "" "string value" false false
       (unnamedScalarDelegate ArgFormatter.formatString (Memory.stringRef 0))]
  currentUnnamedArg_ := 0
  initValues_ := noHook
  checkValues_ := noHook
  values := Memory.zero

/-- A required `int` flag `-i` (variable 0) next to a required positional `int`
(variable 1). -/
def namedAndPositional : SimpleCmdLineArgs Memory where
  showUsage_ := false
  namedArgs_ :=
    [("-i", createDelegate_ "-i" "int value" true true (Dest.namedDelegate decimalNumUtil (.int 0)))]
  unnamedArgs_ :=
    [createDelegate_ "" "count" true false
       (unnamedScalarDelegate (ArgFormatter.formatInt decimalNumUtil) (Memory.intRef 1))]
  currentUnnamedArg_ := 0
  initValues_ := noHook
  checkValues_ := noHook
  values := Memory.zero

/-- An optional `int` binding registered under the spelling `-h` (variable 0). -/
def helpSpelling : SimpleCmdLineArgs Memory where
  showUsage_ := false
  namedArgs_ :=
    [("-h", createDelegate_ "-h" "height" false true (Dest.namedDelegate decimalNumUtil (.int 0)))]
  unnamedArgs_ := []
  currentUnnamedArg_ := 0
  initValues_ := noHook
  checkValues_ := noHook
  values := Memory.zero

/-- Two optional `int` flags `-a` and `-b` bound to the same variable 0. -/
def sharedDestination : SimpleCmdLineArgs Memory where
  showUsage_ := false
  namedArgs_ :=
    [("-a", createDelegate_ "-a" "first" false true (Dest.namedDelegate decimalNumUtil (.int 0))),
     ("-b", createDelegate_ "-b" "second" false true (Dest.namedDelegate decimalNumUtil (.int 0)))]
  unnamedArgs_ := []
  currentUnnamedArg_ := 0
  initValues_ := noHook
  checkValues_ := noHook
  values := Memory.zero

/-- The object `named` as a first parse of `-i 100 -s foo` leaves it: both
bindings found, the `int` variable 100 and the string variable `"foo"`. -/
def namedAfterFirst : SimpleCmdLineArgs Memory :=
  { named with
    namedArgs_ :=
      [("-i", (createDelegate_ "-i" "int value" true true
          (Dest.namedDelegate decimalNumUtil (.int 0))).setFound true),
       ("-s", (createDelegate_ "-s" "string value" false true
          (Dest.namedDelegate decimalNumUtil (.string 0))).setFound true)]
    values := (Memory.stringRef 0).set ((Memory.intRef 0).set Memory.zero 100) "foo" }

/-- String containers behind named flags: `-l` appends to the vector 0, `-t`
inserts into the set 0, `-L` splits its value on `,` and appends the pieces to
the vector 1 (an empty value is refused), `-T` splits its value on `,` and
inserts the pieces into the set 1 (an empty value is allowed). -/
def collections : SimpleCmdLineArgs Memory where
  showUsage_ := false
  namedArgs_ :=
    [("-l", createDelegate_ "-l" "list" false true
        (namedListDelegate ArgFormatter.formatString (Memory.stringListRef 0))),
     ("-t", createDelegate_ "-t" "set" false true
        (namedSetDelegate ArgFormatter.formatString (Memory.stringSetRef 0))),
     ("-L", createDelegate_ "-L" "separated list" false true
        (namedSplitDelegate sampleSplit "," false
          (pushBackPiece ArgFormatter.formatString (Memory.stringListRef 1)))),
     ("-T", createDelegate_ "-T" "separated set" false true
        (namedSplitDelegate sampleSplit "," true
          (insertPiece ArgFormatter.formatString (Memory.stringSetRef 1))))]
  unnamedArgs_ := []
  currentUnnamedArg_ := 0
  initValues_ := noHook
  checkValues_ := noHook
  values := Memory.zero

/-- An override of `initValues_` that puts every variable back to its initial
value. -/
def resetHook : Memory → Except Exc Unit × Memory :=
  fun _ => (.ok (), Memory.zero)

/-- A caller's handler that consumes one token and then throws a
`std::runtime_error` with the message `boom`. -/
def throwingHandler : Handler Memory :=
  fun args argName m =>
    ((Except.error (Exc.StdException "boom") : Except Exc Unit), (args.next argName).2, m)

/-- Checked `int` options and a custom handler: `-i` is range-checked with
bounds `[-10, 10]` (variable 0, as in the test class
`NamedSingleValueInRangeCmdLineArgs`), `-j` is restricted to the values 10, 20,
30, 40 and 50 (variable 1, as in `NamedSingleValueInSetCmdLineArgs`), `-k` is
range-checked with the lower bound 0 and `INT_MAX` as upper bound (variable 2),
and `-x` has a custom handler that consumes one token and throws a
`std::runtime_error` with the message `boom`. -/
def checked : SimpleCmdLineArgs Memory where
  showUsage_ := false
  namedArgs_ :=
    [("-i", createDelegate_ "-i" "integer value" false true
        (namedScalarDelegate (ArgFormatter.formatIntInRange decimalNumUtil (-10) 10)
          (Memory.intRef 0))),
     ("-j", createDelegate_ "-j" "integer value" false true
        (namedScalarDelegate (ArgFormatter.formatIntInSet decimalNumUtil [10, 20, 30, 40, 50])
          (Memory.intRef 1))),
     ("-k", createDelegate_ "-k" "count" false true
        (namedScalarDelegate (ArgFormatter.formatIntInRange decimalNumUtil 0 INT_MAX)
          (Memory.intRef 2))),
     ("-x", createDelegate_ "-x" "data" false true
        (customDelegate throwingHandler))]
  unnamedArgs_ := []
  currentUnnamedArg_ := 0
  initValues_ := noHook
  checkValues_ := noHook
  values := Memory.zero

/-- The enumeration `TestEnum` of the test suite. -/
inductive TestEnum where
  | NONE
  | ONE
  | TWO
  | THREE
  deriving DecidableEq

/-- The map built by `testEnumValueMap_()` (SimpleCmdLineArgsTest.cpp:63-69):
three calls of `setValue` on an empty map. -/
def testEnumValueMap_ : ValueMap TestEnum :=
  (((ValueMap.empty.setValue "one" TestEnum.ONE).2.setValue "two" TestEnum.TWO).2.setValue
    "three" TestEnum.THREE).2

/-- The option `-e` of the test class `NamedSingleValueCmdLineArgs`: an optional
`TestEnum` looked up in `testEnumValueMap_()`; the state is the variable `e_`. -/
def enumArgs : SimpleCmdLineArgs TestEnum where
  showUsage_ := false
  namedArgs_ :=
    [("-e", createDelegate_ "-e" "enum value" false true
        (namedScalarDelegate testEnumValueMap_.lookup ⟨fun e => e, fun _ x => x⟩))]
  unnamedArgs_ := []
  currentUnnamedArg_ := 0
  initValues_ := noHook
  checkValues_ := noHook
  values := TestEnum.NONE

/-- A caller's positional handler after `UnnamedArbitraryCmdLineArgs::handleArgs_`
(SimpleCmdLineArgsTest.cpp:632-637), with `nextAsInt()` where the test calls
`nextAsDouble()`: the token itself goes to the `int` variable 0, the next token
is read with `nextAsInt()` into the `int` variable 1, and the token after it with
`next()` into the string variable 0.  No label is passed to the cursor. -/
def arbitraryHandler : Handler Memory :=
  fun args argValue m =>
    match ArgFormatter.formatInt decimalNumUtil argValue with
    | .error e => (.error e, args, m)
    | .ok i =>
      match args.nextAsInt decimalNumUtil "" with
      | (.error e, g1) => (.error e, g1, (Memory.intRef 0).set m i)
      | (.ok j, g1) =>
        match g1.next "" with
        | (.error e, g2) =>
            (.error e, g2, (Memory.intRef 1).set ((Memory.intRef 0).set m i) j)
        | (.ok s, g2) =>
            (.ok (), g2,
              (Memory.stringRef 0).set ((Memory.intRef 1).set ((Memory.intRef 0).set m i) j) s)

/-- The test class `UnnamedArbitraryCmdLineArgs`: one optional positional
binding `data` with the custom handler `arbitraryHandler`. -/
def unnamedArbitrary : SimpleCmdLineArgs Memory where
  showUsage_ := false
  namedArgs_ := []
  unnamedArgs_ := [createDelegate_ "" "data" false false (customDelegate arbitraryHandler)]
  currentUnnamedArg_ := 0
  initValues_ := noHook
  checkValues_ := noHook
  values := Memory.zero

/-- A positional string vector as in `UnnamedVectorCmdLineArgs(STRING)`
(variable 0, registered without a separator), after a scalar positional `int`
(variable 0), next to an optional `int` flag `-n` (variable 1). -/
def repeated : SimpleCmdLineArgs Memory where
  showUsage_ := false
  namedArgs_ :=
    [("-n", createDelegate_ "-n" "number" false true
        (namedScalarDelegate (ArgFormatter.formatInt decimalNumUtil) (Memory.intRef 1)))]
  unnamedArgs_ :=
    [createDelegate_ "" "count" false false
       (unnamedScalarDelegate (ArgFormatter.formatInt decimalNumUtil) (Memory.intRef 0)),
     createDelegate_ "" "string value" false true
       (unnamedListDelegate ArgFormatter.formatString (Memory.stringListRef 0))]
  currentUnnamedArg_ := 0
  initValues_ := noHook
  checkValues_ := noHook
  values := Memory.zero

/-- Two positional string vectors registered with the separator `,`, as in
`UnnamedVectorCmdLineArgs(SEPARATED)` (variables 0 and 1). -/
def separated : SimpleCmdLineArgs Memory where
  showUsage_ := false
  namedArgs_ := []
  unnamedArgs_ :=
    [createDelegate_ "" "string values" false false
       (unnamedSplitDelegate sampleSplit ","
         (pushBackPiece ArgFormatter.formatString (Memory.stringListRef 0))),
     createDelegate_ "" "more values" false false
       (unnamedSplitDelegate sampleSplit ","
         (pushBackPiece ArgFormatter.formatString (Memory.stringListRef 1)))]
  currentUnnamedArg_ := 0
  initValues_ := noHook
  checkValues_ := noHook
  values := Memory.zero

/-- Three scalar positional bindings: an `int` (variable 0), a string
(variable 0) and a second `int` (variable 1), none required. -/
def threePositional : SimpleCmdLineArgs Memory where
  showUsage_ := false
  namedArgs_ := []
  unnamedArgs_ :=
    [createDelegate_ "" "first" false false (Dest.unnamedDelegate decimalNumUtil (.int 0)),
     createDelegate_ "" "second" false false (Dest.unnamedDelegate decimalNumUtil (.string 0)),
     createDelegate_ "" "third" false false (Dest.unnamedDelegate decimalNumUtil (.int 1))]
  currentUnnamedArg_ := 0
  initValues_ := noHook
  checkValues_ := noHook
  values := Memory.zero

/-- What the hooks of a dispatcher were handed, in the order of the calls. -/
inductive Event where
  | init (argv : List String)
  | named (arg : String)
  | unnamed (value : String)
  | check (appName : String)
  deriving DecidableEq

/-- A dispatcher over `AbstractCmdLineArgs` that accepts every token without
touching the cursor and logs what its four hooks are handed, after the class
`TestCmdLineArgs` of AbstractCmdLineArgsTest.cpp:19-82 without its limits on the
flag spellings and on the number of positional tokens. -/
def recorder : AbstractCmdLineArgs.Virtuals (List Event) where
  init_ s argv := (.ok (), s ++ [Event.init argv])
  handleNamedArg_ s args arg := (.ok true, args, s ++ [Event.named arg])
  handleUnnamedArg_ s args value := (.ok true, args, s ++ [Event.unnamed value])
  check_ s appName := (.ok (), s ++ [Event.check appName])

/-- The definition `named` with hooks that count their calls, as the test classes
record them in `initValuesCalled_` and `checkValuesCalled_`: `initValues_`
increments the `int` variable 8 and `checkValues_` the `int` variable 9. -/
def counted : SimpleCmdLineArgs Memory :=
  { named with
    initValues_ := fun m => (.ok (), (Memory.intRef 8).set m (m.ints 8 + 1))
    checkValues_ := fun m => (.ok (), (Memory.intRef 9).set m (m.ints 9 + 1)) }

/-- A caller's handler after `NamedArbitraryCmdLineArgs::handleArgs_`
(SimpleCmdLineArgsTest.cpp:615-620), with `nextAsInt` where the test calls
`nextAsDouble`: three further tokens are read, with `nextAsInt(argName)` into
the `int` variables 0 and 1 and with `next(argName)` into the string
variable 0. -/
def namedArbitraryHandler : Handler Memory :=
  fun args argName m =>
    match args.nextAsInt decimalNumUtil argName with
    | (.error e, g1) => (.error e, g1, m)
    | (.ok i, g1) =>
      match g1.nextAsInt decimalNumUtil argName with
      | (.error e, g2) => (.error e, g2, (Memory.intRef 0).set m i)
      | (.ok j, g2) =>
        match g2.next argName with
        | (.error e, g3) =>
            (.error e, g3, (Memory.intRef 1).set ((Memory.intRef 0).set m i) j)
        | (.ok s, g3) =>
            (.ok (), g3,
              (Memory.stringRef 0).set ((Memory.intRef 1).set ((Memory.intRef 0).set m i) j) s)

/-- The test class `NamedArbitraryCmdLineArgs` (SimpleCmdLineArgsTest.cpp:602-613):
the optional flag `-x`, description `data`, with the custom handler
`namedArbitraryHandler`; next to it an optional string flag `-s` (variable 1). -/
def namedArbitrary : SimpleCmdLineArgs Memory where
  showUsage_ := false
  namedArgs_ :=
    [("-x", createDelegate_ "-x" "data" false true (customDelegate namedArbitraryHandler)),
     ("-s", createDelegate_ "-s" "string value" false true
        (namedScalarDelegate ArgFormatter.formatString (Memory.stringRef 1)))]
  unnamedArgs_ := []
  currentUnnamedArg_ := 0
  initValues_ := noHook
  checkValues_ := noHook
  values := Memory.zero

/-- A required `int` binding registered under the spelling `-h` (variable 0),
next to an optional string flag `-s` (variable 0). -/
def requiredHelp : SimpleCmdLineArgs Memory where
  showUsage_ := false
  namedArgs_ :=
    [("-h", createDelegate_ "-h" "height" true true (Dest.namedDelegate decimalNumUtil (.int 0))),
     ("-s", createDelegate_ "-s" "string value" false true
        (Dest.namedDelegate decimalNumUtil (.string 0)))]
  unnamedArgs_ := []
  currentUnnamedArg_ := 0
  initValues_ := noHook
  checkValues_ := noHook
  values := Memory.zero

/-- Two optional scalar positional bindings, not final, that are bound to the
same `int` variable 0. -/
def sharedPositional : SimpleCmdLineArgs Memory where
  showUsage_ := false
  namedArgs_ := []
  unnamedArgs_ :=
    [createDelegate_ "" "first" false false
       (unnamedScalarDelegate (ArgFormatter.formatInt decimalNumUtil) (Memory.intRef 0)),
     createDelegate_ "" "second" false false
       (unnamedScalarDelegate (ArgFormatter.formatInt decimalNumUtil) (Memory.intRef 0))]
  currentUnnamedArg_ := 0
  initValues_ := noHook
  checkValues_ := noHook
  values := Memory.zero

/-- The definition `threePositional` with an `initValues_` hook that gives the
`int` variable 1, the destination of the third binding, the default 42 at the
start of every parse. -/
def positionalDefaults : SimpleCmdLineArgs Memory :=
  { threePositional with initValues_ := fun m => (.ok (), (Memory.intRef 1).set m 42) }

/-- The definition `threePositional` with an `initValues_` hook that throws. -/
def positionalInitThrows : SimpleCmdLineArgs Memory :=
  { threePositional with initValues_ := fun m => (.error (Exc.StdException "no defaults"), m) }

end Sample

end Pistis

/-! # Checked properties -/

namespace Pistis

/-! ## The token cursor -/

namespace CmdLineArgGenerator

theorem putBack_advance (g : CmdLineArgGenerator) :
    putBack { g with current_ := g.current_ + 1 } = g := by
  cases g
  simp [putBack]

theorem next_of_remaining {g : CmdLineArgGenerator} (h : g.remaining ≠ 0) (argName : String) :
    g.next argName = (.ok g.deref, { g with current_ := g.current_ + 1 }) := by
  have hne : g.current_ ≠ g.end_ := by
    intro heq
    apply h
    simp [remaining, heq]
  simp [next, hne]

theorem next_of_end {g : CmdLineArgGenerator} (h : g.remaining = 0) (argName : String) :
    g.next argName = (.error (Exc.ValueMissingError g.appName argName), g) := by
  have heq : g.current_ = g.end_ := by
    simp only [remaining] at h
    omega
  simp [next, heq]

theorem current_of_remaining {g : CmdLineArgGenerator} (h : g.remaining ≠ 0)
    (argName : String) : g.current argName = .ok g.deref := by
  have hne : g.current_ ≠ g.end_ := by
    intro heq
    apply h
    simp [remaining, heq]
  simp [current, hne]

theorem remaining_advance (g : CmdLineArgGenerator) :
    remaining { g with current_ := g.current_ + 1 } = g.remaining - 1 := by
  simp only [remaining, end_]
  omega

/-- When a token is left, a failing `nextAs` leaves the cursor as it found it. -/
theorem nextAs_error_restores {α : Type} {g g1 : CmdLineArgGenerator} (h : g.remaining ≠ 0)
    {argName : String} {convert : String → String → Except Exc α} {e : Exc}
    (hr : g.nextAs argName convert = (.error e, g1)) : g1 = g := by
  unfold nextAs at hr
  rw [next_of_remaining h] at hr
  simp only at hr
  split at hr
  · simp only [Prod.mk.injEq, putBack_advance] at hr
    exact hr.2.symm
  · simp at hr

/-- When a token is left, a successful `nextAs` returns the conversion of the
current token and advances by one. -/
theorem nextAs_ok {α : Type} {g g1 : CmdLineArgGenerator} (h : g.remaining ≠ 0)
    {argName : String} {convert : String → String → Except Exc α} {x : α}
    (hr : g.nextAs argName convert = (.ok x, g1)) :
    convert argName g.deref = .ok x ∧ g1 = { g with current_ := g.current_ + 1 } := by
  unfold nextAs at hr
  rw [next_of_remaining h] at hr
  simp only at hr
  split at hr
  · simp at hr
  · rename_i y hy
    simp only [Prod.mk.injEq, Except.ok.injEq] at hr
    exact ⟨by rw [hy, hr.1], hr.2.symm⟩

theorem nextAsInt_error_restores {nu : NumUtil} {g g1 : CmdLineArgGenerator}
    (h : g.remaining ≠ 0) {argName : String} {e : Exc}
    (hr : nextAsInt nu g argName = (.error e, g1)) : g1 = g := by
  unfold nextAsInt at hr
  split at hr
  · rename_i w g2 heq
    simp only [Prod.mk.injEq] at hr
    rw [← hr.2]
    exact nextAs_error_restores h heq
  · exact nextAs_error_restores h hr

theorem nextAsUInt_error_restores {nu : NumUtil} {g g1 : CmdLineArgGenerator}
    (h : g.remaining ≠ 0) {argName : String} {e : Exc}
    (hr : nextAsUInt nu g argName = (.error e, g1)) : g1 = g := by
  unfold nextAsUInt at hr
  split at hr
  · rename_i w g2 heq
    simp only [Prod.mk.injEq] at hr
    rw [← hr.2]
    exact nextAs_error_restores h heq
  · exact nextAs_error_restores h hr

theorem nextAsInt_ok {nu : NumUtil} {g g1 : CmdLineArgGenerator}
    (h : g.remaining ≠ 0) {argName : String} {v : Int}
    (hr : nextAsInt nu g argName = (.ok v, g1)) :
    nu.toInt64 g.deref = .ok v ∧ g1 = { g with current_ := g.current_ + 1 } := by
  unfold nextAsInt at hr
  split at hr
  · simp at hr
  · exact nextAs_ok h hr

theorem nextAsUInt_ok {nu : NumUtil} {g g1 : CmdLineArgGenerator}
    (h : g.remaining ≠ 0) {argName : String} {v : Nat}
    (hr : nextAsUInt nu g argName = (.ok v, g1)) :
    nu.toUInt64 g.deref = .ok v ∧ g1 = { g with current_ := g.current_ + 1 } := by
  unfold nextAsUInt at hr
  split at hr
  · simp at hr
  · exact nextAs_ok h hr

theorem nextAsIntInRange_error_restores {nu : NumUtil} {g g1 : CmdLineArgGenerator}
    (h : g.remaining ≠ 0) {argName : String} {minValue maxValue : Int} {e : Exc}
    (hr : nextAsIntInRange nu g argName minValue maxValue = (.error e, g1)) : g1 = g := by
  unfold nextAsIntInRange at hr
  split at hr
  · rename_i e2 g2 heq
    simp only [Prod.mk.injEq] at hr
    rw [← hr.2]
    exact nextAsInt_error_restores h heq
  · rename_i v g2 heq
    have hg2 := (nextAsInt_ok h heq).2
    split at hr
    · simp only [Prod.mk.injEq] at hr
      rw [← hr.2, hg2, putBack_advance]
    · simp at hr

theorem nextAsUIntInRange_error_restores {nu : NumUtil} {g g1 : CmdLineArgGenerator}
    (h : g.remaining ≠ 0) {argName : String} {minValue maxValue : Nat} {e : Exc}
    (hr : nextAsUIntInRange nu g argName minValue maxValue = (.error e, g1)) : g1 = g := by
  unfold nextAsUIntInRange at hr
  split at hr
  · rename_i e2 g2 heq
    simp only [Prod.mk.injEq] at hr
    rw [← hr.2]
    exact nextAsUInt_error_restores h heq
  · rename_i v g2 heq
    have hg2 := (nextAsUInt_ok h heq).2
    split at hr
    · simp only [Prod.mk.injEq] at hr
      rw [← hr.2, hg2, putBack_advance]
    · simp at hr

theorem nextInSet_error_restores {g g1 : CmdLineArgGenerator}
    (h : g.remaining ≠ 0) {argName : String} {legalValues : List String} {e : Exc}
    (hr : nextInSet g argName legalValues = (.error e, g1)) : g1 = g := by
  unfold nextInSet at hr
  rw [next_of_remaining h] at hr
  simp only at hr
  split at hr
  · simp only [Prod.mk.injEq, putBack_advance] at hr
    exact hr.2.symm
  · simp at hr

/-- C5 (put-back invariant).  For each of the typed extractions `nextAsInt`,
`nextAsIntInRange`, `nextAsUInt`, `nextAsUIntInRange` and `nextInSet`, on a cursor
with at least one remaining token: if the call fails with an `IllegalValueError`,
then `remaining()` is what it was before the call and `current()` returns the
token at which the cursor stood before the call, which is the token the call
read and tried to convert. -/
theorem C5_put_back_on_illegal_value (nu : NumUtil) (g : CmdLineArgGenerator)
    (argName label : String) (hrem : 0 < g.remaining) :
    (g.next argName).1 = .ok g.deref ∧
    (∀ e g1, nextAsInt nu g argName = (.error e, g1) → e.isIllegalValue = true →
      g1.remaining = g.remaining ∧ g1.current label = .ok g.deref) ∧
    (∀ minValue maxValue e g1,
      nextAsIntInRange nu g argName minValue maxValue = (.error e, g1) →
      e.isIllegalValue = true →
      g1.remaining = g.remaining ∧ g1.current label = .ok g.deref) ∧
    (∀ e g1, nextAsUInt nu g argName = (.error e, g1) → e.isIllegalValue = true →
      g1.remaining = g.remaining ∧ g1.current label = .ok g.deref) ∧
    (∀ minValue maxValue e g1,
      nextAsUIntInRange nu g argName minValue maxValue = (.error e, g1) →
      e.isIllegalValue = true →
      g1.remaining = g.remaining ∧ g1.current label = .ok g.deref) ∧
    (∀ legalValues e g1, nextInSet g argName legalValues = (.error e, g1) →
      e.isIllegalValue = true →
      g1.remaining = g.remaining ∧ g1.current label = .ok g.deref) := by
  have h : g.remaining ≠ 0 := by omega
  refine ⟨by rw [next_of_remaining h], ?_, ?_, ?_, ?_, ?_⟩
  · intro e g1 hr _
    rw [nextAsInt_error_restores h hr]
    exact ⟨rfl, current_of_remaining h label⟩
  · intro minValue maxValue e g1 hr _
    rw [nextAsIntInRange_error_restores h hr]
    exact ⟨rfl, current_of_remaining h label⟩
  · intro e g1 hr _
    rw [nextAsUInt_error_restores h hr]
    exact ⟨rfl, current_of_remaining h label⟩
  · intro minValue maxValue e g1 hr _
    rw [nextAsUIntInRange_error_restores h hr]
    exact ⟨rfl, current_of_remaining h label⟩
  · intro legalValues e g1 hr _
    rw [nextInSet_error_restores h hr]
    exact ⟨rfl, current_of_remaining h label⟩

/-- C5 at the cursor of the test `NextAsIntInRange` standing on its last token
`"badValue"`: the call fails with an `IllegalValueError`, one token remains as
before and `current()` still returns `"badValue"`. -/
theorem C5_put_back_witness :
    (0 : Int) < (CmdLineArgGenerator.mk ["app", "100", "1000", "badValue"] 3).remaining ∧
    nextAsIntInRange decimalNumUtil ⟨["app", "100", "1000", "badValue"], 3⟩ "-arg" 0 1000 =
      (.error (Exc.IllegalValueError "app" "-arg" "badValue" "Must be an integer"),
        ⟨["app", "100", "1000", "badValue"], 3⟩) ∧
    (CmdLineArgGenerator.mk ["app", "100", "1000", "badValue"] 3).remaining = 1 ∧
    (CmdLineArgGenerator.mk ["app", "100", "1000", "badValue"] 3).current "" =
      .ok "badValue" :=
  ⟨by decide, by decide,
   ((C5_put_back_on_illegal_value decimalNumUtil ⟨["app", "100", "1000", "badValue"], 3⟩
      "-arg" "" (by decide)).2.2.1 0 1000
      (Exc.IllegalValueError "app" "-arg" "badValue" "Must be an integer")
      ⟨["app", "100", "1000", "badValue"], 3⟩ (by decide) rfl).1.trans (by decide),
   ((C5_put_back_on_illegal_value decimalNumUtil ⟨["app", "100", "1000", "badValue"], 3⟩
      "-arg" "" (by decide)).2.2.1 0 1000
      (Exc.IllegalValueError "app" "-arg" "badValue" "Must be an integer")
      ⟨["app", "100", "1000", "badValue"], 3⟩ (by decide) rfl).2.trans (by decide)⟩

/-- C6 at a failing input.  The cursor over `app 7` stands at the end of the
stream (`remaining() = 0`).  `nextAsInt` and `nextAsUInt` throw
`ValueMissingError`, but the handler `catch(...)` of `nextAs` has decremented
`current_`: afterwards `remaining()` is 1 and `current()` returns `"7"` again.
The range-checked variants inherit this.  `current`, `next` and `nextInSet` leave
the cursor where it was. -/
theorem C6_numeric_extraction_at_end_moves_cursor (nu : NumUtil) :
    (CmdLineArgGenerator.mk ["app", "7"] 2).remaining = 0 ∧
    nextAsInt nu ⟨["app", "7"], 2⟩ "" =
      (.error (Exc.ValueMissingError "app" ""), ⟨["app", "7"], 1⟩) ∧
    nextAsUInt nu ⟨["app", "7"], 2⟩ "" =
      (.error (Exc.ValueMissingError "app" ""), ⟨["app", "7"], 1⟩) ∧
    nextAsIntInRange nu ⟨["app", "7"], 2⟩ "" 0 10 =
      (.error (Exc.ValueMissingError "app" ""), ⟨["app", "7"], 1⟩) ∧
    nextAsUIntInRange nu ⟨["app", "7"], 2⟩ "" 0 10 =
      (.error (Exc.ValueMissingError "app" ""), ⟨["app", "7"], 1⟩) ∧
    (CmdLineArgGenerator.mk ["app", "7"] 1).remaining = 1 ∧
    (CmdLineArgGenerator.mk ["app", "7"] 1).current "" = .ok "7" ∧
    (CmdLineArgGenerator.mk ["app", "7"] 2).current "" =
      .error (Exc.ValueMissingError "app" "") ∧
    (CmdLineArgGenerator.mk ["app", "7"] 2).next "" =
      (.error (Exc.ValueMissingError "app" ""), ⟨["app", "7"], 2⟩) ∧
    nextInSet ⟨["app", "7"], 2⟩ "" ["7"] =
      (.error (Exc.ValueMissingError "app" ""), ⟨["app", "7"], 2⟩) := by
  refine ⟨by decide, ?_, ?_, ?_, ?_, by decide, by decide, by decide, by decide, by decide⟩
  · rfl
  · rfl
  · rfl
  · rfl

/-- C7 at a failing input.  On the empty token stream (`argv` holds only the
program name) the fresh cursor has position 0 = length.  `nextAsInt` throws
`ValueMissingError` and leaves the position at -1, below 0; a following
`current()` then returns the program name. -/
theorem C7_position_below_zero_on_empty_stream (nu : NumUtil) :
    CmdLineArgGenerator.new ["app"] = .ok ⟨["app"], 1⟩ ∧
    (CmdLineArgGenerator.mk ["app"] 1).position = 0 ∧
    (CmdLineArgGenerator.mk ["app"] 1).numArgs = 0 ∧
    nextAsInt nu ⟨["app"], 1⟩ "" =
      (.error (Exc.ValueMissingError "app" ""), ⟨["app"], 0⟩) ∧
    (nextAsInt nu ⟨["app"], 1⟩ "").2.position = -1 ∧
    (nextAsInt nu ⟨["app"], 1⟩ "").2.remaining = 1 ∧
    (nextAsInt nu ⟨["app"], 1⟩ "").2.current "" = .ok "app" := by
  refine ⟨by decide, by decide, by decide, rfl, ?_, ?_, ?_⟩
  · have h : nextAsInt nu ⟨["app"], 1⟩ "" =
        (.error (Exc.ValueMissingError "app" ""), ⟨["app"], 0⟩) := rfl
    rw [h]; decide
  · have h : nextAsInt nu ⟨["app"], 1⟩ "" =
        (.error (Exc.ValueMissingError "app" ""), ⟨["app"], 0⟩) := rfl
    rw [h]; decide
  · have h : nextAsInt nu ⟨["app"], 1⟩ "" =
        (.error (Exc.ValueMissingError "app" ""), ⟨["app"], 0⟩) := rfl
    rw [h]; decide

theorem deref_at_length (pre : List String) (tok : String) (rest : List String) :
    deref ⟨pre ++ tok :: rest, (pre.length : Int)⟩ = tok := by
  simp only [deref, Int.toNat_ofNat, List.getD_eq_getElem?_getD]
  rw [List.getElem?_append_right (le_refl _)]
  simp

/-- Reading `rest.length` tokens from a cursor that stands just before `rest`
yields `rest` and ends at the end of the stream. -/
theorem nextN_suffix (rest pre : List String) :
    nextN rest.length ⟨pre ++ rest, (pre.length : Int)⟩ =
      (rest, ⟨pre ++ rest, ((pre ++ rest).length : Int)⟩) := by
  induction rest generalizing pre with
  | nil => simp [nextN]
  | cons tok rest ih =>
    have hne : (pre.length : Int) ≠ ((pre ++ tok :: rest).length : Int) := by
      simp only [List.length_append, List.length_cons]
      omega
    have hnext : next ⟨pre ++ tok :: rest, (pre.length : Int)⟩ "" =
        (.ok tok, ⟨pre ++ tok :: rest, (pre.length : Int) + 1⟩) := by
      simp only [next, end_, hne, if_false, deref_at_length]
    have ih2 := ih (pre ++ [tok])
    simp only [List.append_assoc, List.singleton_append, List.length_append,
      List.length_singleton, List.length_cons, List.length_nil, Nat.cast_add, Nat.cast_one,
      Nat.cast_zero, zero_add] at ih2
    simp only [List.length_cons, nextN, hnext, ih2, List.length_append, Nat.cast_add,
      Nat.cast_one]

/-- C8.  On a cursor with `remaining() > 0`, `current()` returns the token at the
position (and, being `const`, changes nothing) and `next()` returns that same
token and lowers `remaining()` by exactly one.  Hence on a fresh cursor over the
raw arguments `app :: toks` (so `argc - 1 = toks.length`), `argc - 1` calls of
`next()` yield `toks` in their original order, and then `remaining() = 0`. -/
theorem C8_current_and_next :
    (∀ (g : CmdLineArgGenerator) (label : String), 0 < g.remaining →
      g.current label = .ok g.deref ∧
      (g.next label).1 = .ok g.deref ∧
      (g.next label).2.remaining = g.remaining - 1) ∧
    (∀ (app : String) (toks : List String),
      ∃ g0 : CmdLineArgGenerator,
        CmdLineArgGenerator.new (app :: toks) = .ok g0 ∧
        g0.appName = app ∧
        g0.remaining = toks.length ∧
        (nextN toks.length g0).1 = toks ∧
        (nextN toks.length g0).2.remaining = 0) := by
  constructor
  · intro g label hrem
    have h : g.remaining ≠ 0 := by omega
    rw [current_of_remaining h, next_of_remaining h]
    exact ⟨rfl, rfl, remaining_advance g⟩
  · intro app toks
    refine ⟨⟨app :: toks, 1⟩, ?_, ?_, ?_, ?_, ?_⟩
    · simp [CmdLineArgGenerator.new]
    · simp [appName]
    · simp only [remaining, end_, List.length_cons]
      push_cast
      omega
    · have h := nextN_suffix toks [app]
      simp only [List.singleton_append, List.length_singleton, Nat.cast_one] at h
      rw [h]
    · have h := nextN_suffix toks [app]
      simp only [List.singleton_append, List.length_singleton, Nat.cast_one] at h
      rw [h]
      simp [remaining, end_]

/-- C8 on the cursor of the test `CurrentAndNext`, one token in: `current()` and
`next()` both return `"100"`, and `remaining()` goes from 2 to 1. -/
theorem C8_current_and_next_witness :
    (0 : Int) < (CmdLineArgGenerator.mk ["app", "-p", "100", "filename.txt"] 2).remaining ∧
    (CmdLineArgGenerator.mk ["app", "-p", "100", "filename.txt"] 2).current "" = .ok "100" ∧
    ((CmdLineArgGenerator.mk ["app", "-p", "100", "filename.txt"] 2).next "").1 = .ok "100" ∧
    ((CmdLineArgGenerator.mk ["app", "-p", "100", "filename.txt"] 2).next "").2.remaining = 1 :=
  ⟨by decide,
   (C8_current_and_next.1 ⟨["app", "-p", "100", "filename.txt"], 2⟩ "" (by decide)).1.trans
     (by decide),
   (C8_current_and_next.1 ⟨["app", "-p", "100", "filename.txt"], 2⟩ "" (by decide)).2.1.trans
     (by decide),
   (C8_current_and_next.1 ⟨["app", "-p", "100", "filename.txt"], 2⟩ "" (by decide)).2.2.trans
     (by decide)⟩

theorem nextAsInt_of_converts {nu : NumUtil} {g : CmdLineArgGenerator}
    (h : g.remaining ≠ 0) (argName : String) {v : Int} (hv : nu.toInt64 g.deref = .ok v) :
    nextAsInt nu g argName = (.ok v, { g with current_ := g.current_ + 1 }) := by
  simp only [nextAsInt, nextAs, next_of_remaining h, hv]

theorem nextAsUInt_of_converts {nu : NumUtil} {g : CmdLineArgGenerator}
    (h : g.remaining ≠ 0) (argName : String) {v : Nat} (hv : nu.toUInt64 g.deref = .ok v) :
    nextAsUInt nu g argName = (.ok v, { g with current_ := g.current_ + 1 }) := by
  simp only [nextAsUInt, nextAs, next_of_remaining h, hv]

/-- C9.  Let the cursor stand on a token that the base-10 conversion
`util::toInt64` reads as the integer `v`.  If `minValue <= v <= maxValue`,
`nextAsIntInRange` returns `v` and advances by exactly one token.  Otherwise it
throws an `IllegalValueError` built from that token's text (and the message for
the bounds), and the cursor is where it was before the call. -/
theorem C9_nextAsIntInRange (nu : NumUtil) (g : CmdLineArgGenerator) (argName : String)
    (minValue maxValue v : Int) (hrem : 0 < g.remaining)
    (hv : nu.toInt64 g.deref = .ok v) :
    (minValue ≤ v ∧ v ≤ maxValue →
      nextAsIntInRange nu g argName minValue maxValue =
        (.ok v, { g with current_ := g.current_ + 1 }) ∧
      (nextAsIntInRange nu g argName minValue maxValue).2.remaining = g.remaining - 1 ∧
      (nextAsIntInRange nu g argName minValue maxValue).2.position = g.position + 1) ∧
    (¬ (minValue ≤ v ∧ v ≤ maxValue) →
      nextAsIntInRange nu g argName minValue maxValue =
        (.error (Exc.IllegalValueError g.appName argName g.deref
          (intRangeMsg minValue maxValue)), g)) := by
  have h : g.remaining ≠ 0 := by omega
  constructor
  · intro hin
    have hnot : ¬ (v < minValue ∨ v > maxValue) := by omega
    have heq : nextAsIntInRange nu g argName minValue maxValue =
        (.ok v, { g with current_ := g.current_ + 1 }) := by
      simp only [nextAsIntInRange, nextAsInt_of_converts h argName hv, hnot, if_false]
    rw [heq]
    refine ⟨rfl, remaining_advance g, ?_⟩
    simp only [position, args_]
    omega
  · intro hout
    have hyes : v < minValue ∨ v > maxValue := by omega
    simp only [nextAsIntInRange, nextAsInt_of_converts h argName hv, hyes, if_true,
      putBack_advance]

/-- C9 on the tokens of the test `NextAsIntInRange`: `"100"` within `[0, 200]` is
returned and consumed; `"1000"` outside `[0, 200]` is refused with its text and
stays current; `"1000"` at the inclusive upper bound of `[0, 1000]` is returned. -/
theorem C9_nextAsIntInRange_witness :
    nextAsIntInRange decimalNumUtil ⟨["app", "100", "1000", "badValue"], 1⟩ "-arg" 0 200 =
      (.ok 100, ⟨["app", "100", "1000", "badValue"], 2⟩) ∧
    nextAsIntInRange decimalNumUtil ⟨["app", "100", "1000", "badValue"], 2⟩ "" 0 200 =
      (.error (Exc.IllegalValueError "app" "" "1000" "Must be an integer between 0 and 200"),
        ⟨["app", "100", "1000", "badValue"], 2⟩) ∧
    nextAsIntInRange decimalNumUtil ⟨["app", "100", "1000", "badValue"], 2⟩ "-arg" 0 1000 =
      (.ok 1000, ⟨["app", "100", "1000", "badValue"], 3⟩) :=
  ⟨((C9_nextAsIntInRange decimalNumUtil ⟨["app", "100", "1000", "badValue"], 1⟩ "-arg" 0 200
      100 (by decide) (by decide)).1 (by decide)).1,
   (C9_nextAsIntInRange decimalNumUtil ⟨["app", "100", "1000", "badValue"], 2⟩ "" 0 200
      1000 (by decide) (by decide)).2 (by decide),
   ((C9_nextAsIntInRange decimalNumUtil ⟨["app", "100", "1000", "badValue"], 2⟩ "-arg" 0 1000
      1000 (by decide) (by decide)).1 (by decide)).1⟩

/-- C10 at a failing input, the first call of the test `NextAsUIntInRange`: on
the token `"100"` with bounds `[0, 200]` the cursor advances by one token, but
the call ends without a `return` statement and hands back no value, where the
test expects 100.  The same happens for `"1000"` with bounds `[0, 1000]`. -/
theorem C10_nextAsUIntInRange_returns_no_value :
    nextAsUIntInRange decimalNumUtil ⟨["app", "100", "1000", "-1"], 1⟩ "-arg" 0 200 =
      (.ok none, ⟨["app", "100", "1000", "-1"], 2⟩) ∧
    nextAsUIntInRange decimalNumUtil ⟨["app", "100", "1000", "-1"], 2⟩ "-arg" 0 1000 =
      (.ok none, ⟨["app", "100", "1000", "-1"], 3⟩) ∧
    nextAsUInt decimalNumUtil ⟨["app", "100", "1000", "-1"], 1⟩ "-arg" =
      (.ok 100, ⟨["app", "100", "1000", "-1"], 2⟩) ∧
    nextAsIntInRange decimalNumUtil ⟨["app", "100", "1000", "-1"], 1⟩ "-arg" 0 200 =
      (.ok 100, ⟨["app", "100", "1000", "-1"], 2⟩) := by
  decide

end CmdLineArgGenerator

end Pistis

namespace Pistis

/-! ## The dispatch loop -/

namespace AbstractCmdLineArgs

/-- After `n` completed iterations the loop goes on from the state reached. -/
theorem parseLoop_of_dispatched {S : Type} (vt : Virtuals S) :
    ∀ (n : Nat) (g : CmdLineArgGenerator) (s : S) (toks : List String)
      (g1 : CmdLineArgGenerator) (s1 : S) (m : Nat),
      dispatched vt n g s = some (toks, g1, s1) →
      parseLoop vt (n + m) g s = parseLoop vt m g1 s1 := by
  intro n
  induction n with
  | zero =>
    intro g s toks g1 s1 m h
    simp only [dispatched, Option.some.injEq, Prod.mk.injEq] at h
    obtain ⟨_, hg, hs⟩ := h
    subst hg hs
    simp
  | succ n ih =>
    intro g s toks g1 s1 m h
    unfold dispatched at h
    split at h
    · simp at h
    · rename_i hrem
      split at h
      · simp at h
      · rename_i g2 s2 hd
        split at h
        · simp at h
        · rename_i toks2 g3 s3 hrest
          simp only [Option.some.injEq, Prod.mk.injEq] at h
          obtain ⟨_, hg, hs⟩ := h
          subst hg hs
          have hfuel : n + 1 + m = (n + m) + 1 := by omega
          rw [hfuel]
          conv_lhs => unfold parseLoop
          simp only [hrem, if_false, hd]
          exact ih g2 s2 toks2 g3 s3 m hrest

/-- A loop that ends normally has completed some number of iterations and
stands at the end of the stream. -/
theorem dispatched_of_parseLoop {S : Type} (vt : Virtuals S) :
    ∀ (fuel : Nat) (g : CmdLineArgGenerator) (s : S) (g1 : CmdLineArgGenerator) (s1 : S),
      parseLoop vt fuel g s = some (.ok (), g1, s1) →
      g1.remaining = 0 ∧ ∃ n toks, n ≤ fuel ∧ dispatched vt n g s = some (toks, g1, s1) := by
  intro fuel
  induction fuel with
  | zero =>
    intro g s g1 s1 h
    unfold parseLoop at h
    split at h
    · rename_i hrem
      simp only [Option.some.injEq, Prod.mk.injEq, true_and] at h
      obtain ⟨hg, hs⟩ := h
      subst hg hs
      exact ⟨hrem, 0, [], le_refl _, rfl⟩
    · simp at h
  | succ fuel ih =>
    intro g s g1 s1 h
    unfold parseLoop at h
    split at h
    · rename_i hrem
      simp only [Option.some.injEq, Prod.mk.injEq, true_and] at h
      obtain ⟨hg, hs⟩ := h
      subst hg hs
      exact ⟨hrem, 0, [], Nat.zero_le _, rfl⟩
    · rename_i hrem
      simp only at h
      split at h
      · simp at h
      · rename_i g2 s2 hd
        obtain ⟨hend, n, toks, hn, hdis⟩ := ih g2 s2 g1 s1 h
        refine ⟨hend, n + 1, g.deref :: toks, by omega, ?_⟩
        unfold dispatched
        simp only [hrem, if_false, hd, hdis]

/-- A property kept by every completed iteration holds after any number of them. -/
theorem dispatched_invariant {S : Type} (vt : Virtuals S)
    (P : CmdLineArgGenerator → S → Prop)
    (hstep : ∀ g s g1 s1, P g s → g.remaining ≠ 0 → dispatch vt g s = (.ok (), g1, s1) →
      P g1 s1) :
    ∀ (n : Nat) (g : CmdLineArgGenerator) (s : S) (toks : List String)
      (g1 : CmdLineArgGenerator) (s1 : S),
      P g s → dispatched vt n g s = some (toks, g1, s1) → P g1 s1 := by
  intro n
  induction n with
  | zero =>
    intro g s toks g1 s1 hP h
    simp only [dispatched, Option.some.injEq, Prod.mk.injEq] at h
    obtain ⟨_, hg, hs⟩ := h
    subst hg hs
    exact hP
  | succ n ih =>
    intro g s toks g1 s1 hP h
    unfold dispatched at h
    split at h
    · simp at h
    · rename_i hrem
      split at h
      · simp at h
      · rename_i g2 s2 hd
        split at h
        · simp at h
        · rename_i toks2 g3 s3 hrest
          simp only [Option.some.injEq, Prod.mk.injEq] at h
          obtain ⟨_, hg, hs⟩ := h
          subst hg hs
          exact ih g2 s2 toks2 g3 s3 (hstep g s g2 s2 hP hrem hd) hrest

/-- An iteration that throws ends the loop, and `parse`, with that exception. -/
theorem parseLoop_error_after {S : Type} (vt : Virtuals S) {n : Nat}
    {g0 g g1 : CmdLineArgGenerator} {s0 s s1 : S} {toks : List String} {e : Exc}
    (hreach : dispatched vt n g0 s0 = some (toks, g, s)) (hrem : g.remaining ≠ 0)
    (hd : dispatch vt g s = (.error e, g1, s1)) (fuel : Nat) (hfuel : n < fuel) :
    parseLoop vt fuel g0 s0 = some (.error e, g1, s1) := by
  obtain ⟨m, rfl⟩ : ∃ m, fuel = n + (m + 1) := ⟨fuel - n - 1, by omega⟩
  rw [parseLoop_of_dispatched vt n g0 s0 toks g s (m + 1) hreach]
  unfold parseLoop
  simp only [hrem, if_false, hd]

end AbstractCmdLineArgs

end Pistis

namespace Pistis

/-! ## Bindings under the dispatch loop -/

namespace HandlerMapType

theorem find_eq_none_iff {σ : Type} (m : HandlerMapType σ) (k : String) :
    m.find k = none ↔ k ∉ m.map Prod.fst := by
  induction m with
  | nil => simp [find]
  | cons p rest ih =>
    obtain ⟨k1, h1⟩ := p
    by_cases hk : k1 = k
    · simp [find, hk]
    · have hk2 : ¬ k = k1 := fun h => hk h.symm
      simp [find, hk, hk2, ih]

theorem setFound_static {σ : Type} (m : HandlerMapType σ) (k : String) (v : Bool) :
    (m.setFound k v).map (fun p => (p.1, p.2.setFound false)) =
      m.map (fun p => (p.1, p.2.setFound false)) := by
  induction m with
  | nil => rfl
  | cons p rest ih =>
    obtain ⟨k1, h1⟩ := p
    by_cases hk : k1 = k
    · simp [setFound, hk, ArgHandler.setFound]
    · simp [setFound, hk, ih]

end HandlerMapType

namespace SimpleCmdLineArgs

theorem set_static {σ : Type} (l : List (ArgHandler σ)) (i : Nat) (h : ArgHandler σ)
    (hget : l.get? i = some h) (v : Bool) :
    (l.set i (h.setFound v)).map (fun x => x.setFound false) =
      l.map (fun x => x.setFound false) := by
  induction l generalizing i with
  | nil => rfl
  | cons x rest ih =>
    cases i with
    | zero =>
      simp only [List.get?_cons_zero, Option.some.injEq] at hget
      subst hget
      simp [ArgHandler.setFound]
    | succ i =>
      simp only [List.get?_cons_succ] at hget
      simp [ih i hget]

theorem SameBindings.refl {σ : Type} (a : SimpleCmdLineArgs σ) : SameBindings a a :=
  ⟨rfl, rfl, rfl, rfl⟩

theorem SameBindings.trans {σ : Type} {a b c : SimpleCmdLineArgs σ}
    (h1 : SameBindings a b) (h2 : SameBindings b c) : SameBindings a c :=
  ⟨h2.1.trans h1.1, h2.2.1.trans h1.2.1, h2.2.2.1.trans h1.2.2.1, h2.2.2.2.trans h1.2.2.2⟩

theorem SameBindings.keys {σ : Type} {a b : SimpleCmdLineArgs σ} (h : SameBindings a b) :
    b.namedArgs_.map Prod.fst = a.namedArgs_.map Prod.fst := by
  have h1 := congrArg (List.map Prod.fst) h.1
  simpa [List.map_map, Function.comp_def] using h1

theorem SameBindings.length_unnamed {σ : Type} {a b : SimpleCmdLineArgs σ}
    (h : SameBindings a b) : b.unnamedArgs_.length = a.unnamedArgs_.length := by
  have h1 := congrArg List.length h.2.1
  simpa using h1

theorem SameBindings.final_unnamed {σ : Type} {a b : SimpleCmdLineArgs σ}
    (h : SameBindings a b) (hf : ∀ x ∈ a.unnamedArgs_, x.final_ = false) :
    ∀ x ∈ b.unnamedArgs_, x.final_ = false := by
  intro x hx
  have hmem : x.setFound false ∈ b.unnamedArgs_.map (fun y => y.setFound false) :=
    List.mem_map.mpr ⟨x, hx, rfl⟩
  rw [h.2.1] at hmem
  obtain ⟨y, hy, hxy⟩ := List.mem_map.mp hmem
  have := congrArg ArgHandler.final_ hxy
  simp only [ArgHandler.setFound] at this
  rw [← this]
  exact hf y hy

/-- The function `init_` keeps the bindings and clears the positional iterator. -/
theorem init_spec {σ : Type} (a a0 : SimpleCmdLineArgs σ) (argv : List String) (r : Except Exc Unit)
    (h : a.init_ argv = (r, a0)) :
    SameBindings a a0 ∧ a0.currentUnnamedArg_ = 0 ∧ a0.showUsage_ = false ∧
    (∀ p ∈ a0.namedArgs_, p.2.found_ = false) ∧ (∀ x ∈ a0.unnamedArgs_, x.found_ = false) := by
  simp only [init_, Prod.mk.injEq] at h
  obtain ⟨_, ha⟩ := h
  subst ha
  refine ⟨⟨?_, ?_, rfl, rfl⟩, rfl, rfl, ?_, ?_⟩
  · simp [List.map_map, Function.comp_def, ArgHandler.setFound]
  · simp [List.map_map, Function.comp_def, ArgHandler.setFound]
  · intro p hp
    simp only [List.mem_map] at hp
    obtain ⟨q, _, rfl⟩ := hp
    rfl
  · intro x hx
    simp only [List.mem_map] at hx
    obtain ⟨q, _, rfl⟩ := hx
    rfl

/-- What a call of `handleNamedArg_` that returns `true` has done. -/
theorem handleNamedArg_true {σ : Type} {a a1 : SimpleCmdLineArgs σ}
    {g g1 : CmdLineArgGenerator} {t : String}
    (h : a.handleNamedArg_ g t = (.ok true, g1, a1)) :
    SameBindings a a1 ∧ a1.unnamedArgs_ = a.unnamedArgs_ ∧
    a1.currentUnnamedArg_ = a.currentUnnamedArg_ := by
  unfold handleNamedArg_ at h
  split at h
  · simp only [Prod.mk.injEq, true_and] at h
    obtain ⟨_, ha⟩ := h
    subst ha
    exact ⟨⟨rfl, rfl, rfl, rfl⟩, rfl, rfl⟩
  · split at h
    · split at h
      · simp only [Prod.mk.injEq, true_and] at h
        obtain ⟨_, ha⟩ := h
        subst ha
        exact ⟨⟨HandlerMapType.setFound_static _ _ _, rfl, rfl, rfl⟩, rfl, rfl⟩
      · simp at h
    · simp at h

/-- What a call of `handleUnnamedArg_` that returns `true` has done. -/
theorem handleUnnamedArg_true {σ : Type} {a a1 : SimpleCmdLineArgs σ}
    {g g1 : CmdLineArgGenerator} {t : String}
    (h : a.handleUnnamedArg_ g t = (.ok true, g1, a1)) :
    a1.namedArgs_ = a.namedArgs_ ∧ a1.initValues_ = a.initValues_ ∧
    a1.checkValues_ = a.checkValues_ ∧
    ∃ x, a.unnamedArgs_.get? a.currentUnnamedArg_ = some x ∧
      a1.unnamedArgs_ = a.unnamedArgs_.set a.currentUnnamedArg_ (x.setFound true) ∧
      a1.currentUnnamedArg_ =
        (if x.final_ then a.currentUnnamedArg_ else a.currentUnnamedArg_ + 1) := by
  unfold handleUnnamedArg_ at h
  split at h
  · rename_i base hb
    simp [AbstractCmdLineArgs.handleUnnamedArg_] at hb
  · split at h
    · simp at h
    · rename_i x hx
      split at h
      · simp only [Prod.mk.injEq, true_and] at h
        obtain ⟨_, ha⟩ := h
        subst ha
        exact ⟨rfl, rfl, rfl, x, hx, rfl, rfl⟩
      · simp at h

/-- A completed iteration of the loop went through one of the two hooks, which
returned `true`. -/
theorem dispatch_ok_cases {σ : Type} {s s1 : SimpleCmdLineArgs σ}
    {g g1 : CmdLineArgGenerator} (hrem : g.remaining ≠ 0)
    (h : AbstractCmdLineArgs.dispatch (virtuals σ) g s = (.ok (), g1, s1)) :
    (isNamedToken g.deref = true ∧
      s.handleNamedArg_ { g with current_ := g.current_ + 1 } g.deref = (.ok true, g1, s1)) ∨
    (isNamedToken g.deref = false ∧
      s.handleUnnamedArg_ { g with current_ := g.current_ + 1 } g.deref = (.ok true, g1, s1)) := by
  unfold AbstractCmdLineArgs.dispatch at h
  rw [CmdLineArgGenerator.next_of_remaining hrem] at h
  simp only [virtuals] at h
  split at h
  · rename_i hn
    left
    refine ⟨hn, ?_⟩
    split at h
    · simp at h
    · simp at h
    · rename_i g2 s2 heq
      simp only [Prod.mk.injEq, true_and] at h
      rw [heq, h.1, h.2]
  · rename_i hn
    right
    refine ⟨by simpa using hn, ?_⟩
    split at h
    · simp at h
    · simp at h
    · rename_i g2 s2 heq
      simp only [Prod.mk.injEq, true_and] at h
      rw [heq, h.1, h.2]

/-- A completed iteration keeps the bindings. -/
theorem dispatch_sameBindings {σ : Type} {s s1 : SimpleCmdLineArgs σ}
    {g g1 : CmdLineArgGenerator} (hrem : g.remaining ≠ 0)
    (h : AbstractCmdLineArgs.dispatch (virtuals σ) g s = (.ok (), g1, s1)) :
    SameBindings s s1 := by
  rcases dispatch_ok_cases hrem h with ⟨_, hn⟩ | ⟨_, hu⟩
  · exact (handleNamedArg_true hn).1
  · obtain ⟨h1, h2, h3, x, hx, h4, _⟩ := handleUnnamedArg_true hu
    refine ⟨by rw [h1], ?_, h2, h3⟩
    rw [h4]
    exact set_static _ _ _ hx true

/-- A completed iteration keeps "found before the iterator". -/
theorem dispatch_foundBefore {σ : Type} {s s1 : SimpleCmdLineArgs σ}
    {g g1 : CmdLineArgGenerator} (hrem : g.remaining ≠ 0)
    (h : AbstractCmdLineArgs.dispatch (virtuals σ) g s = (.ok (), g1, s1))
    (hP : FoundBefore s) : FoundBefore s1 := by
  rcases dispatch_ok_cases hrem h with ⟨_, hn⟩ | ⟨_, hu⟩
  · obtain ⟨_, h2, h3⟩ := handleNamedArg_true hn
    intro i x hi hx
    rw [h3] at hi
    rw [h2] at hx
    exact hP i x hi hx
  · obtain ⟨_, _, _, x, hx, h4, h5⟩ := handleUnnamedArg_true hu
    intro i y hi hy
    rw [h4] at hy
    by_cases hic : i = s.currentUnnamedArg_
    · subst hic
      have hlt : s.currentUnnamedArg_ < s.unnamedArgs_.length := by
        rcases Nat.lt_or_ge s.currentUnnamedArg_ s.unnamedArgs_.length with hl | hl
        · exact hl
        · rw [List.get?_eq_none.mpr hl] at hx
          simp at hx
      rw [List.get?_eq_getElem?, List.getElem?_set_self hlt] at hy
      simp only [Option.some.injEq] at hy
      rw [← hy]
      rfl
    · have hne : s.currentUnnamedArg_ ≠ i := fun hh => hic hh.symm
      rw [List.get?_eq_getElem?, List.getElem?_set_ne hne, ← List.get?_eq_getElem?] at hy
      apply hP i y _ hy
      rw [h5] at hi
      split at hi <;> omega

theorem firstMissing_some {σ : Type} {l : List (ArgHandler σ)} {x : ArgHandler σ}
    (h : firstMissing l = some x) : x ∈ l ∧ x.required_ = true ∧ x.found_ = false := by
  induction l with
  | nil => simp [firstMissing] at h
  | cons y rest ih =>
    unfold firstMissing at h
    split at h
    · rename_i hy
      simp only [Option.some.injEq] at h
      subst h
      refine ⟨List.mem_cons_self _ _, hy.1, ?_⟩
      simpa using hy.2
    · obtain ⟨h1, h2⟩ := ih h
      exact ⟨List.mem_cons_of_mem _ h1, h2⟩

theorem firstMissing_none {σ : Type} {l : List (ArgHandler σ)}
    (h : firstMissing l = none) :
    ∀ x ∈ l, ¬ (x.required_ = true ∧ x.found_ = false) := by
  induction l with
  | nil => simp
  | cons y rest ih =>
    unfold firstMissing at h
    split at h
    · simp at h
    · rename_i hy
      intro x hx
      rcases List.mem_cons.mp hx with rfl | hx
      · intro hc
        exact hy ⟨hc.1, by simp [hc.2]⟩
      · exact ih h x hx

end SimpleCmdLineArgs

end Pistis

namespace Pistis

namespace SimpleCmdLineArgs

theorem eta_base {σ : Type} (a : SimpleCmdLineArgs σ) :
    { a with toAbstractCmdLineArgs := a.toAbstractCmdLineArgs } = a := by
  cases a
  rfl

/-- The sample definitions are what the registration functions build. -/
theorem Sample.named_registered :
    ((registerNamedArg_ (ArgFormatter.formatInt decimalNumUtil)
        (SimpleCmdLineArgs.new Memory.zero noHook noHook) "-i" "int value" true
        (Memory.intRef 0)).bind
      (fun a => registerNamedArg_ ArgFormatter.formatString a "-s" "string value" false
        (Memory.stringRef 0))) = .ok Sample.named := rfl

theorem Sample.positional_registered :
    ((registerUnnamedArg_ (ArgFormatter.formatInt decimalNumUtil)
        (SimpleCmdLineArgs.new Memory.zero noHook noHook) "int value" true
        (Memory.intRef 0)).bind
      (fun a => registerUnnamedArg_ ArgFormatter.formatString a "string value" false
        (Memory.stringRef 0))) = .ok Sample.positional := rfl

theorem Sample.namedAndPositional_registered :
    ((registerNamedArg_ (ArgFormatter.formatInt decimalNumUtil)
        (SimpleCmdLineArgs.new Memory.zero noHook noHook) "-i" "int value" true
        (Memory.intRef 0)).bind
      (fun a => registerUnnamedArg_ (ArgFormatter.formatInt decimalNumUtil) a "count" true
        (Memory.intRef 1))) = .ok Sample.namedAndPositional := rfl

theorem Sample.helpSpelling_registered :
    registerNamedArg_ (ArgFormatter.formatInt decimalNumUtil)
        (SimpleCmdLineArgs.new Memory.zero noHook noHook) "-h" "height" false
        (Memory.intRef 0) = .ok Sample.helpSpelling := rfl

theorem Sample.sharedDestination_registered :
    ((registerNamedArg_ (ArgFormatter.formatInt decimalNumUtil)
        (SimpleCmdLineArgs.new Memory.zero noHook noHook) "-a" "first" false
        (Memory.intRef 0)).bind
      (fun a => registerNamedArg_ (ArgFormatter.formatInt decimalNumUtil) a "-b" "second" false
        (Memory.intRef 0))) = .ok Sample.sharedDestination := rfl

/-- The tokens of a list that the loop classifies as positional. -/
theorem dispatched_positional_count {σ : Type} :
    ∀ (n : Nat) (g : CmdLineArgGenerator) (s : SimpleCmdLineArgs σ) (toks : List String)
      (g1 : CmdLineArgGenerator) (s1 : SimpleCmdLineArgs σ),
      (∀ x ∈ s.unnamedArgs_, x.final_ = false) →
      AbstractCmdLineArgs.dispatched (virtuals σ) n g s = some (toks, g1, s1) →
      s1.currentUnnamedArg_ =
        s.currentUnnamedArg_ + (toks.filter (fun t => !isNamedToken t)).length := by
  intro n
  induction n with
  | zero =>
    intro g s toks g1 s1 _ h
    simp only [AbstractCmdLineArgs.dispatched, Option.some.injEq, Prod.mk.injEq] at h
    obtain ⟨ht, _, hs⟩ := h
    subst ht hs
    simp
  | succ n ih =>
    intro g s toks g1 s1 hnf h
    unfold AbstractCmdLineArgs.dispatched at h
    split at h
    · simp at h
    · rename_i hrem
      split at h
      · simp at h
      · rename_i g2 s2 hd
        split at h
        · simp at h
        · rename_i toks2 g3 s3 hrest
          simp only [Option.some.injEq, Prod.mk.injEq] at h
          obtain ⟨ht, _, hs⟩ := h
          subst ht hs
          have hsame := dispatch_sameBindings hrem hd
          have hnf2 := hsame.final_unnamed hnf
          have := ih g2 s2 toks2 g3 s3 hnf2 hrest
          rw [this]
          rcases dispatch_ok_cases hrem hd with ⟨hn, hh⟩ | ⟨hn, hh⟩
          · rw [(handleNamedArg_true hh).2.2]
            simp [List.filter_cons, hn]
          · obtain ⟨_, _, _, x, hx, _, h5⟩ := handleUnnamedArg_true hh
            have hxf : x.final_ = false :=
              hnf x (List.mem_iff_get?.mpr ⟨_, hx⟩)
            rw [h5]
            simp only [hxf, Bool.false_eq_true, if_false, List.filter_cons, hn, Bool.not_false,
              if_true, List.length_cons]
            omega

theorem firstMissing_eq_none {σ : Type} {l : List (ArgHandler σ)}
    (h : ∀ x ∈ l, x.required_ = true → x.found_ = true) : firstMissing l = none := by
  cases hf : firstMissing l with
  | none => rfl
  | some x =>
    obtain ⟨h1, h2, h3⟩ := firstMissing_some hf
    have := h x h1 h2
    rw [h3] at this
    exact Bool.noConfusion this

end SimpleCmdLineArgs

end Pistis

namespace Pistis

/-! ## Scalar named bindings -/

namespace Dest

end Dest

namespace HandlerMapType

end HandlerMapType

end Pistis

namespace Pistis

namespace SimpleCmdLineArgs

end SimpleCmdLineArgs

end Pistis

namespace Pistis

/-! ## The parser: claims C1 to C4 -/

namespace SimpleCmdLineArgs

/-- C2, as amended.  Let the loop of `parse` have completed `n` iterations and
stand, with a token left, on a token that begins with `-`, is not the spelling of
a registered flag and is neither `-h` nor `--help`; that is, the token is read
at a dispatch position.  Then `parse` fails with `UnknownCmdLineArgError` for
that token, and the object, its destinations included, is left exactly as it
was when the token was reached. -/
theorem C2_unknown_flag_at_dispatch_position {σ : Type} (a a0 s : SimpleCmdLineArgs σ)
    (argv : List String) (g0 g : CmdLineArgGenerator) (n : Nat) (toks : List String)
    (fuel : Nat)
    (hinit : a.init_ argv = (.ok (), a0))
    (hnew : CmdLineArgGenerator.new argv = .ok g0)
    (hreach : AbstractCmdLineArgs.dispatched (virtuals σ) n g0 a0 = some (toks, g, s))
    (hrem : g.remaining ≠ 0)
    (hdash : isNamedToken g.deref = true)
    (hunreg : g.deref ∉ a.namedArgs_.map Prod.fst)
    (hnohelp : g.deref ≠ "-h" ∧ g.deref ≠ "--help")
    (hfuel : n < fuel) :
    parse fuel a argv =
      some (.error (Exc.UnknownCmdLineArgError g.appName g.deref), s) ∧
    AbstractCmdLineArgs.dispatch (virtuals σ) g s =
      (.error (Exc.UnknownCmdLineArgError g.appName g.deref),
        { g with current_ := g.current_ + 1 }, s) := by
  obtain ⟨hsame0, _⟩ := init_spec a a0 argv _ hinit
  have hsame : SameBindings a0 s :=
    AbstractCmdLineArgs.dispatched_invariant (virtuals σ) (fun _ s => SameBindings a0 s)
      (fun g s g1 s1 hP hrem hd => hP.trans (dispatch_sameBindings hrem hd)) n g0 a0 toks g s
      (SameBindings.refl a0) hreach
  have hfind : s.namedArgs_.find g.deref = none := by
    rw [HandlerMapType.find_eq_none_iff, (hsame0.trans hsame).keys]
    exact hunreg
  have hd : AbstractCmdLineArgs.dispatch (virtuals σ) g s =
      (.error (Exc.UnknownCmdLineArgError g.appName g.deref),
        { g with current_ := g.current_ + 1 }, s) := by
    unfold AbstractCmdLineArgs.dispatch
    rw [CmdLineArgGenerator.next_of_remaining hrem]
    simp only [hdash, if_true, virtuals, handleNamedArg_, AbstractCmdLineArgs.handleNamedArg_,
      hnohelp.1, hnohelp.2, or_self, if_false, hfind]
    rfl
  refine ⟨?_, hd⟩
  have hi : (virtuals σ).init_ a argv = (.ok (), a0) := hinit
  simp only [parse, AbstractCmdLineArgs.parse, hi, hnew,
    AbstractCmdLineArgs.parseLoop_error_after (virtuals σ) hreach hrem hd fuel hfuel]

/-- C2 as stated fails: with `-i` a required int flag and `-s` an optional string
flag, the stream `-i 1 -s -x` contains the token `-x`, which begins with `-` and
is neither registered nor a help flag, yet `parse` returns normally, and that
token has changed the string destination from `""` to `"-x"`. -/
theorem C2_counterexample_unknown_flag_as_value :
    isNamedToken "-x" = true ∧
    "-x" ∉ Sample.named.namedArgs_.map Prod.fst ∧
    "-x" ≠ "-h" ∧ "-x" ≠ "--help" ∧
    "-x" ∈ ["-i", "1", "-s", "-x"] ∧
    (parse 2 Sample.named ["some_program", "-i", "1", "-s", "-x"]).map
      (fun r => (r.1, r.2.values.strings 0)) = some (.ok (), "-x") ∧
    Sample.named.values.strings 0 = "" := by
  decide

/-- C2 (amended) on the stream `-i -3 -x foo` of the test `NamedSingleValue`
(its `UNKNOWN_ARG` case without the floating-point option): after one completed
iteration the loop reads `-x` and `parse` fails for it. -/
theorem C2_unknown_flag_witness :
    ∃ (g : CmdLineArgGenerator) (s : SimpleCmdLineArgs Memory),
      AbstractCmdLineArgs.dispatched (virtuals Memory) 1
        ⟨["some_program", "-i", "-3", "-x", "foo"], 1⟩
        (Sample.named.init_ ["some_program", "-i", "-3", "-x", "foo"]).2 =
          some (["-i"], g, s) ∧
      g.deref = "-x" ∧ s.values.ints 0 = -3 ∧
      parse 2 Sample.named ["some_program", "-i", "-3", "-x", "foo"] =
        some (.error (Exc.UnknownCmdLineArgError g.appName g.deref), s) :=
  ⟨_, _, rfl, by decide, by decide,
    (C2_unknown_flag_at_dispatch_position Sample.named _ _
      ["some_program", "-i", "-3", "-x", "foo"] _ _ 1 ["-i"] 2 rfl rfl rfl
      (by decide) (by decide) (by decide) (by decide) (by decide)).1⟩

/-- C4.  Let the positional list hold `k` bindings, none of them final.  Let the
loop of `parse` have completed `n` iterations, among whose tokens exactly `k`
were positional, and stand on one more positional token (the `(k+1)`-th).  Then
`parse` fails with `TooManyCmdLineArgsError`, thrown by the iteration that reads
this token, and the object is left as it was when the token was reached. -/
theorem C4_too_many_arguments {σ : Type} (a a0 s : SimpleCmdLineArgs σ)
    (argv : List String) (g0 g : CmdLineArgGenerator) (n : Nat) (toks : List String)
    (fuel : Nat)
    (hnofinal : ∀ x ∈ a.unnamedArgs_, x.final_ = false)
    (hinit : a.init_ argv = (.ok (), a0))
    (hnew : CmdLineArgGenerator.new argv = .ok g0)
    (hreach : AbstractCmdLineArgs.dispatched (virtuals σ) n g0 a0 = some (toks, g, s))
    (hk : (toks.filter (fun t => !isNamedToken t)).length = a.unnamedArgs_.length)
    (hrem : g.remaining ≠ 0)
    (hpos : isNamedToken g.deref = false)
    (hfuel : n < fuel) :
    parse fuel a argv = some (.error (Exc.TooManyCmdLineArgsError g.appName), s) ∧
    AbstractCmdLineArgs.dispatch (virtuals σ) g s =
      (.error (Exc.TooManyCmdLineArgsError g.appName),
        { g with current_ := g.current_ + 1 }, s) := by
  obtain ⟨hsame0, hcur0, _⟩ := init_spec a a0 argv _ hinit
  have hsame : SameBindings a0 s :=
    AbstractCmdLineArgs.dispatched_invariant (virtuals σ) (fun _ s => SameBindings a0 s)
      (fun g s g1 s1 hP hrem hd => hP.trans (dispatch_sameBindings hrem hd)) n g0 a0 toks g s
      (SameBindings.refl a0) hreach
  have hcount := dispatched_positional_count n g0 a0 toks g s
    (hsame0.final_unnamed hnofinal) hreach
  have hcur : s.currentUnnamedArg_ = s.unnamedArgs_.length := by
    rw [hcount, hcur0, hk, (hsame0.trans hsame).length_unnamed]
    omega
  have hget : s.unnamedArgs_.get? s.currentUnnamedArg_ = none := by
    rw [List.get?_eq_none]
    omega
  have hd : AbstractCmdLineArgs.dispatch (virtuals σ) g s =
      (.error (Exc.TooManyCmdLineArgsError g.appName),
        { g with current_ := g.current_ + 1 }, s) := by
    unfold AbstractCmdLineArgs.dispatch
    rw [CmdLineArgGenerator.next_of_remaining hrem]
    simp only [hpos, Bool.false_eq_true, if_false, virtuals, handleUnnamedArg_,
      AbstractCmdLineArgs.handleUnnamedArg_, hget]
    rfl
  refine ⟨?_, hd⟩
  have hi : (virtuals σ).init_ a argv = (.ok (), a0) := hinit
  simp only [parse, AbstractCmdLineArgs.parse, hi, hnew,
    AbstractCmdLineArgs.parseLoop_error_after (virtuals σ) hreach hrem hd fuel hfuel]

/-- C4 on two scalar positional bindings and the stream `3 foo bar`: after the
two positional tokens `3` and `foo` the loop reads `bar` and `parse` fails with
`TooManyCmdLineArgsError`. -/
theorem C4_too_many_arguments_witness :
    ∃ (g : CmdLineArgGenerator) (s : SimpleCmdLineArgs Memory),
      AbstractCmdLineArgs.dispatched (virtuals Memory) 2
        ⟨["some_program", "3", "foo", "bar"], 1⟩
        (Sample.positional.init_ ["some_program", "3", "foo", "bar"]).2 =
          some (["3", "foo"], g, s) ∧
      g.deref = "bar" ∧ s.values.ints 0 = 3 ∧ s.values.strings 0 = "foo" ∧
      parse 3 Sample.positional ["some_program", "3", "foo", "bar"] =
        some (.error (Exc.TooManyCmdLineArgsError g.appName), s) :=
  ⟨_, _, rfl, by decide, by decide, by decide,
    (C4_too_many_arguments Sample.positional _ _
      ["some_program", "3", "foo", "bar"] _ _ 2 ["3", "foo"] 3 (by decide) rfl rfl rfl
      (by decide) (by decide) (by decide) (by decide)).1⟩

end SimpleCmdLineArgs

end Pistis

namespace Pistis

/-! ## Membership-checked extraction: claim C11 -/

theorem left_append_ne_empty (s t : String) (hs : s ≠ "") : s ++ t ≠ "" := by
  intro h
  apply hs
  have hd := congrArg String.data h
  simp only [String.data_append] at hd
  have hs2 : s.data = [] := (List.append_eq_nil.mp hd).1
  cases s
  simp only at hs2
  subst hs2
  rfl

theorem intercalate_go_quoted (xs : List String) (acc acc1 : String)
    (h : "\"" ++ acc ++ "\"" = acc1) :
    "\"" ++ String.intercalate.go acc "\", \"" xs ++ "\"" =
      String.intercalate.go acc1 ", " (xs.map (fun x => "\"" ++ x ++ "\"")) := by
  induction xs generalizing acc acc1 with
  | nil => simpa [String.intercalate.go] using h
  | cons x xs ih =>
    simp only [String.intercalate.go, List.map_cons]
    apply ih
    rw [← h]
    have hsep : ("\", \"" : String) = "\"" ++ ", " ++ "\"" := by decide
    rw [hsep]
    simp only [String.append_assoc]

/-- The text `"x1", "x2", ...` built by `nextInSet` is the list of the elements,
each in double quotes, separated by a comma and a space. -/
theorem quoted_join (xs : List String) (hne : xs ≠ []) :
    "\"" ++ join xs "\", \"" ++ "\"" =
      ", ".intercalate (xs.map (fun x => "\"" ++ x ++ "\"")) := by
  cases xs with
  | nil => exact absurd rfl hne
  | cons x xs =>
    simp only [join, String.intercalate, List.map_cons]
    exact intercalate_go_quoted xs x _ rfl

/-- The message of an `IllegalValueError` with details, spelled out. -/
theorem illegalValue_message (appName argName value details : String) (hd : details ≠ "") :
    (Exc.IllegalValueError appName argName value details).message =
      (if appName ≠ "" then appName ++ ": " else "") ++
        ("Illegal value" ++ (if value ≠ "" then " \"" ++ value ++ "\"" else "") ++
          (if argName ≠ "" then " for command-line argument " ++ argName
           else " on the command-line") ++
          (" (" ++ details ++ ")")) := by
  have hne : IllegalValueError.createMessage_ argName value details ≠ "" := by
    unfold IllegalValueError.createMessage_
    apply left_append_ne_empty
    apply left_append_ne_empty
    apply left_append_ne_empty
    decide
  simp only [Exc.message, CmdLineArgError.createMessage_, hne, ne_eq, not_false_eq_true,
    if_true]
  simp only [IllegalValueError.createMessage_, hd, ne_eq, not_false_eq_true, if_true]

namespace CmdLineArgGenerator

/-- C11.  Let the cursor stand on a token `t` and let `legalValues` be the legal
strings in the iteration order of the set.  If `t` is among them, `nextInSet`
returns `t` and advances by exactly one token.  Otherwise it throws an
`IllegalValueError` built from `t`, the cursor is where it was, and the message
reads: the program name, "Illegal value", `t` in double quotes, the label, and in
parentheses "Must be one of" followed by every legal value, each in double
quotes and separated by a comma and a space. -/
theorem C11_nextInSet (g : CmdLineArgGenerator) (argName : String)
    (legalValues : List String) (hrem : 0 < g.remaining) :
    (g.deref ∈ legalValues →
      nextInSet g argName legalValues = (.ok g.deref, { g with current_ := g.current_ + 1 }) ∧
      (nextInSet g argName legalValues).2.remaining = g.remaining - 1) ∧
    (g.deref ∉ legalValues →
      nextInSet g argName legalValues =
        (.error (Exc.IllegalValueError g.appName argName g.deref
          ("Must be one of \"" ++ join legalValues "\", \"" ++ "\"")), g) ∧
      (Exc.IllegalValueError g.appName argName g.deref
          ("Must be one of \"" ++ join legalValues "\", \"" ++ "\"")).message =
        (if g.appName ≠ "" then g.appName ++ ": " else "") ++
          ("Illegal value" ++ (if g.deref ≠ "" then " \"" ++ g.deref ++ "\"" else "") ++
            (if argName ≠ "" then " for command-line argument " ++ argName
             else " on the command-line") ++
            (" (" ++ ("Must be one of \"" ++ join legalValues "\", \"" ++ "\"") ++ ")")) ∧
      (legalValues ≠ [] →
        "Must be one of \"" ++ join legalValues "\", \"" ++ "\"" =
          "Must be one of " ++
            ", ".intercalate (legalValues.map (fun x => "\"" ++ x ++ "\"")))) := by
  have h : g.remaining ≠ 0 := by omega
  constructor
  · intro hin
    have heq : nextInSet g argName legalValues =
        (.ok g.deref, { g with current_ := g.current_ + 1 }) := by
      simp only [nextInSet, next_of_remaining h, hin, not_true_eq_false, if_false]
    rw [heq]
    exact ⟨rfl, remaining_advance g⟩
  · intro hout
    refine ⟨?_, ?_, ?_⟩
    · simp only [nextInSet, next_of_remaining h, hout, not_false_eq_true, if_true,
        putBack_advance]
      rfl
    · apply illegalValue_message
      apply left_append_ne_empty
      apply left_append_ne_empty
      decide
    · intro hne
      have hq := quoted_join legalValues hne
      have hsplit : ("Must be one of \"" : String) = "Must be one of " ++ "\"" := by decide
      rw [hsplit, ← hq]
      simp only [String.append_assoc]

/-- C11 on the cursor of the test `NextInSet`: `"goodValue"` is returned and
consumed; `"badValue"` is refused, stays current, and the message lists the three
legal values in quotes. -/
theorem C11_nextInSet_witness :
    nextInSet ⟨["app", "goodValue", "badValue"], 1⟩ "-p"
        ["anotherValue", "goodValue", "someValue"] =
      (.ok "goodValue", ⟨["app", "goodValue", "badValue"], 2⟩) ∧
    nextInSet ⟨["app", "goodValue", "badValue"], 2⟩ ""
        ["anotherValue", "goodValue", "someValue"] =
      (.error (Exc.IllegalValueError "app" "" "badValue"
        "Must be one of \"anotherValue\", \"goodValue\", \"someValue\""),
        ⟨["app", "goodValue", "badValue"], 2⟩) ∧
    (Exc.IllegalValueError "app" "" "badValue"
        "Must be one of \"anotherValue\", \"goodValue\", \"someValue\"").message =
      "app: Illegal value \"badValue\" on the command-line (Must be one of \"anotherValue\", \"goodValue\", \"someValue\")" :=
  ⟨((C11_nextInSet ⟨["app", "goodValue", "badValue"], 1⟩ "-p"
      ["anotherValue", "goodValue", "someValue"] (by decide)).1 (by decide)).1,
   ((C11_nextInSet ⟨["app", "goodValue", "badValue"], 2⟩ ""
      ["anotherValue", "goodValue", "someValue"] (by decide)).2 (by decide)).1.trans
      (by decide),
   by decide⟩

end CmdLineArgGenerator

end Pistis

namespace Pistis

/-! ## More on the dispatch loop -/

namespace SimpleCmdLineArgs

/-- Whatever `handleNamedArg_` returns or throws, the bindings are kept. -/
theorem handleNamedArg_sameBindings {σ : Type} {a a1 : SimpleCmdLineArgs σ}
    {g g1 : CmdLineArgGenerator} {t : String} {r : Except Exc Bool}
    (h : a.handleNamedArg_ g t = (r, g1, a1)) :
    SameBindings a a1 ∧ a1.unnamedArgs_ = a.unnamedArgs_ ∧
    a1.currentUnnamedArg_ = a.currentUnnamedArg_ := by
  unfold handleNamedArg_ at h
  split at h
  · simp only [Prod.mk.injEq] at h
    obtain ⟨_, _, ha⟩ := h
    subst ha
    exact ⟨⟨rfl, rfl, rfl, rfl⟩, rfl, rfl⟩
  · split at h
    · split at h
      · simp only [Prod.mk.injEq] at h
        obtain ⟨_, _, ha⟩ := h
        subst ha
        exact ⟨⟨HandlerMapType.setFound_static _ _ _, rfl, rfl, rfl⟩, rfl, rfl⟩
      · simp only [Prod.mk.injEq] at h
        obtain ⟨_, _, ha⟩ := h
        subst ha
        exact ⟨⟨rfl, rfl, rfl, rfl⟩, rfl, rfl⟩
    · simp only [Prod.mk.injEq] at h
      obtain ⟨_, _, ha⟩ := h
      subst ha
      exact ⟨⟨rfl, rfl, rfl, rfl⟩, rfl, rfl⟩

/-- Whatever `handleUnnamedArg_` returns or throws, the bindings are kept. -/
theorem handleUnnamedArg_sameBindings {σ : Type} {a a1 : SimpleCmdLineArgs σ}
    {g g1 : CmdLineArgGenerator} {t : String} {r : Except Exc Bool}
    (h : a.handleUnnamedArg_ g t = (r, g1, a1)) :
    SameBindings a a1 ∧ a1.namedArgs_ = a.namedArgs_ ∧ a1.showUsage_ = a.showUsage_ := by
  unfold handleUnnamedArg_ at h
  split at h
  · rename_i base hb
    simp [AbstractCmdLineArgs.handleUnnamedArg_] at hb
  · split at h
    · simp only [Prod.mk.injEq] at h
      obtain ⟨_, _, ha⟩ := h
      subst ha
      exact ⟨⟨rfl, rfl, rfl, rfl⟩, rfl, rfl⟩
    · rename_i x hx
      split at h
      · simp only [Prod.mk.injEq] at h
        obtain ⟨_, _, ha⟩ := h
        subst ha
        exact ⟨⟨rfl, set_static _ _ _ hx true, rfl, rfl⟩, rfl, rfl⟩
      · simp only [Prod.mk.injEq] at h
        obtain ⟨_, _, ha⟩ := h
        subst ha
        exact ⟨⟨rfl, rfl, rfl, rfl⟩, rfl, rfl⟩

/-- Whatever an iteration of the loop does, the bindings are kept. -/
theorem dispatch_sameBindings_any {σ : Type} {s s1 : SimpleCmdLineArgs σ}
    {g g1 : CmdLineArgGenerator} {r : Except Exc Unit}
    (h : AbstractCmdLineArgs.dispatch (virtuals σ) g s = (r, g1, s1)) :
    SameBindings s s1 := by
  unfold AbstractCmdLineArgs.dispatch at h
  split at h
  · simp only [Prod.mk.injEq] at h
    rw [← h.2.2]
    exact SameBindings.refl s
  · simp only [virtuals] at h
    split at h
    · split at h
      all_goals
        rename_i heq
        simp only [Prod.mk.injEq] at h
        rw [← h.2.2]
        exact (handleNamedArg_sameBindings heq).1
    · split at h
      all_goals
        rename_i heq
        simp only [Prod.mk.injEq] at h
        rw [← h.2.2]
        exact (handleUnnamedArg_sameBindings heq).1

/-- Whatever the loop of `parse` does, the bindings are kept. -/
theorem parseLoop_sameBindings {σ : Type} :
    ∀ (fuel : Nat) (g : CmdLineArgGenerator) (s : SimpleCmdLineArgs σ)
      (r : Except Exc Unit) (g1 : CmdLineArgGenerator) (s1 : SimpleCmdLineArgs σ),
      AbstractCmdLineArgs.parseLoop (virtuals σ) fuel g s = some (r, g1, s1) →
      SameBindings s s1 := by
  intro fuel
  induction fuel with
  | zero =>
    intro g s r g1 s1 h
    unfold AbstractCmdLineArgs.parseLoop at h
    split at h
    · simp only [Option.some.injEq, Prod.mk.injEq] at h
      rw [← h.2.2]
      exact SameBindings.refl s
    · simp at h
  | succ fuel ih =>
    intro g s r g1 s1 h
    unfold AbstractCmdLineArgs.parseLoop at h
    split at h
    · simp only [Option.some.injEq, Prod.mk.injEq] at h
      rw [← h.2.2]
      exact SameBindings.refl s
    · simp only at h
      split at h
      · rename_i e g2 s2 hd
        simp only [Option.some.injEq, Prod.mk.injEq] at h
        rw [← h.2.2]
        exact dispatch_sameBindings_any hd
      · rename_i g2 s2 hd
        exact (dispatch_sameBindings_any hd).trans (ih g2 s2 r g1 s1 h)

/-- Whatever `check_` does, the bindings and `showUsage_` are kept. -/
theorem check_sameBindings {σ : Type} {s s1 : SimpleCmdLineArgs σ} {appName : String}
    {r : Except Exc Unit} (h : s.check_ appName = (r, s1)) :
    SameBindings s s1 ∧ s1.showUsage_ = s.showUsage_ := by
  unfold check_ at h
  simp only [AbstractCmdLineArgs.check_, eta_base] at h
  split at h
  · simp only [Prod.mk.injEq] at h
    rw [← h.2]
    exact ⟨SameBindings.refl s, rfl⟩
  · split at h
    · simp only [Prod.mk.injEq] at h
      rw [← h.2]
      exact ⟨SameBindings.refl s, rfl⟩
    · simp only [Prod.mk.injEq] at h
      rw [← h.2]
      exact ⟨⟨rfl, rfl, rfl, rfl⟩, rfl⟩

/-- Whatever `parse` does, the bindings are kept. -/
theorem parse_sameBindings {σ : Type} {a a1 : SimpleCmdLineArgs σ} {argv : List String}
    {fuel : Nat} {r : Except Exc Unit} (h : parse fuel a argv = some (r, a1)) :
    SameBindings a a1 := by
  simp only [parse, AbstractCmdLineArgs.parse] at h
  split at h
  · rename_i e s0 hi
    simp only [Option.some.injEq, Prod.mk.injEq] at h
    rw [← h.2]
    exact (init_spec a s0 argv _ hi).1
  · rename_i s0 hi
    have h0 := (init_spec a s0 argv _ hi).1
    split at h
    · simp only [Option.some.injEq, Prod.mk.injEq] at h
      rw [← h.2]
      exact h0
    · split at h
      · simp at h
      · rename_i e g1 s1 hl
        simp only [Option.some.injEq, Prod.mk.injEq] at h
        rw [← h.2]
        exact h0.trans (parseLoop_sameBindings _ _ _ _ _ _ hl)
      · rename_i g1 s1 hl
        simp only [Option.some.injEq] at h
        exact (h0.trans (parseLoop_sameBindings _ _ _ _ _ _ hl)).trans
          (check_sameBindings h).1

/-- The function `init_` sees of an object only its bindings, hooks and destinations. -/
theorem init_congr {σ : Type} {a b : SimpleCmdLineArgs σ} (h : SameBindings a b)
    (hv : a.values = b.values) (argv : List String) : a.init_ argv = b.init_ argv := by
  obtain ⟨⟨ua⟩, na, pa, ca, ia, cka, va⟩ := a
  obtain ⟨⟨ub⟩, nb, pb, cb, ib, ckb, vb⟩ := b
  obtain ⟨h1, h2, h3, h4⟩ := h
  simp only at h1 h2 h3 h4 hv
  subst h3 h4 hv
  simp only [init_, AbstractCmdLineArgs.init_, h1, h2]

/-- When the `initValues_` hook does not depend on what the destinations hold,
`init_` sees of an object only its bindings and hooks. -/
theorem init_congr_reset {σ : Type} {a b : SimpleCmdLineArgs σ} (h : SameBindings a b)
    (hc : ∀ v w, a.initValues_ v = a.initValues_ w) (argv : List String) :
    a.init_ argv = b.init_ argv := by
  obtain ⟨⟨ua⟩, na, pa, ca, ia, cka, va⟩ := a
  obtain ⟨⟨ub⟩, nb, pb, cb, ib, ckb, vb⟩ := b
  obtain ⟨h1, h2, h3, h4⟩ := h
  simp only at h1 h2 h3 h4 hc
  subst h3 h4
  simp only [init_, AbstractCmdLineArgs.init_, h1, h2, hc va vb]

/-- An iteration that throws, reached after `n` completed iterations, ends
`parse` with that exception. -/
theorem parse_error_at {σ : Type} {a a0 s s1 : SimpleCmdLineArgs σ} {argv : List String}
    {g0 g g1 : CmdLineArgGenerator} {n : Nat} {toks : List String} {e : Exc}
    (hinit : a.init_ argv = (.ok (), a0))
    (hnew : CmdLineArgGenerator.new argv = .ok g0)
    (hreach : AbstractCmdLineArgs.dispatched (virtuals σ) n g0 a0 = some (toks, g, s))
    (hrem : g.remaining ≠ 0)
    (hd : AbstractCmdLineArgs.dispatch (virtuals σ) g s = (.error e, g1, s1))
    (fuel : Nat) (hfuel : n < fuel) :
    parse fuel a argv = some (.error e, s1) := by
  have hi : (virtuals σ).init_ a argv = (.ok (), a0) := hinit
  simp only [parse, AbstractCmdLineArgs.parse, hi, hnew,
    AbstractCmdLineArgs.parseLoop_error_after (virtuals σ) hreach hrem hd fuel hfuel]

/-- A `parse` that returns normally went through `init_`, the construction of
the cursor, a loop that ended normally and `check_`. -/
theorem parse_ok_inv {σ : Type} {a a1 : SimpleCmdLineArgs σ} {argv : List String}
    {fuel : Nat} (h : parse fuel a argv = some (.ok (), a1)) :
    ∃ a0 g0 g s, a.init_ argv = (.ok (), a0) ∧ CmdLineArgGenerator.new argv = .ok g0 ∧
      AbstractCmdLineArgs.parseLoop (virtuals σ) fuel g0 a0 = some (.ok (), g, s) ∧
      s.check_ g.appName = (.ok (), a1) := by
  simp only [parse, AbstractCmdLineArgs.parse] at h
  split at h
  · simp at h
  · rename_i s0 hi
    split at h
    · simp at h
    · rename_i g0 hnew
      split at h
      · simp at h
      · simp at h
      · rename_i g1 s1 hl
        simp only [Option.some.injEq] at h
        exact ⟨s0, g0, g1, s1, hi, hnew, hl, h⟩

/-- An iteration on a registered flag that is not a help flag runs the binding's
conversion step on the cursor after the flag. -/
theorem dispatch_named {σ : Type} (s : SimpleCmdLineArgs σ) (g : CmdLineArgGenerator)
    (h : ArgHandler σ) (hrem : g.remaining ≠ 0) (hflag : isNamedToken g.deref = true)
    (hnohelp : g.deref ≠ "-h" ∧ g.deref ≠ "--help")
    (hfind : s.namedArgs_.find g.deref = some h) :
    AbstractCmdLineArgs.dispatch (virtuals σ) g s =
      match h.handleValue { g with current_ := g.current_ + 1 } g.deref s.values with
      | (.ok (), g1, v1) =>
          (.ok (), g1,
            { s with values := v1, namedArgs_ := s.namedArgs_.setFound g.deref true })
      | (.error e, g1, v1) =>
          (.error (translateError g1.appName h.fullName e), g1, { s with values := v1 }) := by
  unfold AbstractCmdLineArgs.dispatch
  rw [CmdLineArgGenerator.next_of_remaining hrem]
  simp only [hflag, if_true, virtuals, handleNamedArg_, AbstractCmdLineArgs.handleNamedArg_,
    hnohelp.1, hnohelp.2, or_self, if_false, hfind]
  rcases h.handleValue { g with current_ := g.current_ + 1 } g.deref s.values with ⟨r, g1, v1⟩
  cases r with
  | error e => rfl
  | ok u => rfl

/-- An iteration on a positional token runs the conversion step of the binding
under the positional iterator. -/
theorem dispatch_unnamed {σ : Type} (s : SimpleCmdLineArgs σ) (g : CmdLineArgGenerator)
    (h : ArgHandler σ) (hrem : g.remaining ≠ 0) (hpos : isNamedToken g.deref = false)
    (hget : s.unnamedArgs_.get? s.currentUnnamedArg_ = some h) :
    AbstractCmdLineArgs.dispatch (virtuals σ) g s =
      match h.handleValue { g with current_ := g.current_ + 1 } g.deref s.values with
      | (.ok (), g1, v1) =>
          (.ok (), g1,
            { s with
              values := v1
              unnamedArgs_ := s.unnamedArgs_.set s.currentUnnamedArg_ (h.setFound true)
              currentUnnamedArg_ :=
                if h.final_ then s.currentUnnamedArg_ else s.currentUnnamedArg_ + 1 })
      | (.error e, g1, v1) =>
          (.error (translateError g1.appName h.fullName e), g1, { s with values := v1 }) := by
  unfold AbstractCmdLineArgs.dispatch
  rw [CmdLineArgGenerator.next_of_remaining hrem]
  simp only [hpos, Bool.false_eq_true, if_false, virtuals, handleUnnamedArg_,
    AbstractCmdLineArgs.handleUnnamedArg_, hget]
  rcases h.handleValue { g with current_ := g.current_ + 1 } g.deref s.values with ⟨r, g1, v1⟩
  cases r with
  | error e => rfl
  | ok u => rfl

end SimpleCmdLineArgs

end Pistis

namespace Pistis

/-! ## Repeated parses: claims C12 and C13 -/

namespace HandlerMapType

theorem mem_setFound {σ : Type} {m : HandlerMapType σ} {k : String} {v : Bool}
    {p : String × ArgHandler σ} (hp : p ∈ m.setFound k v) : p.1 = k ∨ p ∈ m := by
  induction m with
  | nil => simp [setFound] at hp
  | cons q rest ih =>
    obtain ⟨k1, h1⟩ := q
    unfold setFound at hp
    split at hp
    · rename_i hk
      rcases List.mem_cons.mp hp with rfl | hp
      · exact Or.inl hk
      · exact Or.inr (List.mem_cons_of_mem _ hp)
    · rcases List.mem_cons.mp hp with rfl | hp
      · exact Or.inr (List.mem_cons_self _ _)
      · rcases ih hp with h | h
        · exact Or.inl h
        · exact Or.inr (List.mem_cons_of_mem _ h)

end HandlerMapType

namespace SimpleCmdLineArgs

/-- The named table after a call of `handleNamedArg_` that returns `true`. -/
theorem handleNamedArg_true_named {σ : Type} {a a1 : SimpleCmdLineArgs σ}
    {g g1 : CmdLineArgGenerator} {t : String}
    (h : a.handleNamedArg_ g t = (.ok true, g1, a1)) :
    a1.namedArgs_ = a.namedArgs_ ∨ a1.namedArgs_ = a.namedArgs_.setFound t true := by
  unfold handleNamedArg_ at h
  split at h
  · simp only [Prod.mk.injEq, true_and] at h
    rw [← h.2]
    exact Or.inl rfl
  · split at h
    · split at h
      · simp only [Prod.mk.injEq, true_and] at h
        rw [← h.2]
        exact Or.inr rfl
      · simp at h
    · simp at h

/-- A named binding found after some iterations was found before them or has
its flag among the tokens they read. -/
theorem dispatched_found_named {σ : Type} :
    ∀ (n : Nat) (g : CmdLineArgGenerator) (s : SimpleCmdLineArgs σ) (toks : List String)
      (g1 : CmdLineArgGenerator) (s1 : SimpleCmdLineArgs σ),
      AbstractCmdLineArgs.dispatched (virtuals σ) n g s = some (toks, g1, s1) →
      ∀ p ∈ s1.namedArgs_, p.2.found_ = true →
        p.1 ∈ toks ∨ ∃ q ∈ s.namedArgs_, q.1 = p.1 ∧ q.2.found_ = true := by
  intro n
  induction n with
  | zero =>
    intro g s toks g1 s1 h p hp hf
    simp only [AbstractCmdLineArgs.dispatched, Option.some.injEq, Prod.mk.injEq] at h
    obtain ⟨_, _, hs⟩ := h
    subst hs
    exact Or.inr ⟨p, hp, rfl, hf⟩
  | succ n ih =>
    intro g s toks g1 s1 h p hp hf
    unfold AbstractCmdLineArgs.dispatched at h
    split at h
    · simp at h
    · rename_i hrem
      split at h
      · simp at h
      · rename_i g2 s2 hd
        split at h
        · simp at h
        · rename_i toks2 g3 s3 hrest
          simp only [Option.some.injEq, Prod.mk.injEq] at h
          obtain ⟨ht, _, hs⟩ := h
          subst ht hs
          rcases ih g2 s2 toks2 g3 s3 hrest p hp hf with hin | ⟨q, hq, hqk, hqf⟩
          · exact Or.inl (List.mem_cons_of_mem _ hin)
          · rcases dispatch_ok_cases hrem hd with ⟨_, hh⟩ | ⟨_, hh⟩
            · rcases handleNamedArg_true_named hh with he | he
              · rw [he] at hq
                exact Or.inr ⟨q, hq, hqk, hqf⟩
              · rw [he] at hq
                rcases HandlerMapType.mem_setFound hq with hk | hm
                · left
                  rw [← hqk, hk]
                  exact List.mem_cons_self _ _
                · exact Or.inr ⟨q, hm, hqk, hqf⟩
            · rw [(handleUnnamedArg_true hh).1] at hq
              exact Or.inr ⟨q, hq, hqk, hqf⟩

/-- The positional iterator, and the index of every positional binding that is
found, stay below the number of positional tokens read so far. -/
theorem dispatched_found_unnamed {σ : Type} :
    ∀ (n : Nat) (g : CmdLineArgGenerator) (s : SimpleCmdLineArgs σ) (toks : List String)
      (g1 : CmdLineArgGenerator) (s1 : SimpleCmdLineArgs σ) (c : Nat),
      s.currentUnnamedArg_ ≤ c →
      (∀ i h, s.unnamedArgs_.get? i = some h → h.found_ = true → i < c) →
      AbstractCmdLineArgs.dispatched (virtuals σ) n g s = some (toks, g1, s1) →
      s1.currentUnnamedArg_ ≤ c + (toks.filter (fun t => !isNamedToken t)).length ∧
      (∀ i h, s1.unnamedArgs_.get? i = some h → h.found_ = true →
        i < c + (toks.filter (fun t => !isNamedToken t)).length) := by
  intro n
  induction n with
  | zero =>
    intro g s toks g1 s1 c hc hf h
    simp only [AbstractCmdLineArgs.dispatched, Option.some.injEq, Prod.mk.injEq] at h
    obtain ⟨ht, _, hs⟩ := h
    subst ht hs
    simp only [List.filter_nil, List.length_nil, Nat.add_zero]
    exact ⟨hc, hf⟩
  | succ n ih =>
    intro g s toks g1 s1 c hc hf h
    unfold AbstractCmdLineArgs.dispatched at h
    split at h
    · simp at h
    · rename_i hrem
      split at h
      · simp at h
      · rename_i g2 s2 hd
        split at h
        · simp at h
        · rename_i toks2 g3 s3 hrest
          simp only [Option.some.injEq, Prod.mk.injEq] at h
          obtain ⟨ht, _, hs⟩ := h
          subst ht hs
          rcases dispatch_ok_cases hrem hd with ⟨hn, hh⟩ | ⟨hn, hh⟩
          · obtain ⟨_, h2, h3⟩ := handleNamedArg_true hh
            have := ih g2 s2 toks2 g3 s3 c (by rw [h3]; exact hc) (by rw [h2]; exact hf) hrest
            simpa [List.filter_cons, hn] using this
          · obtain ⟨_, _, _, x, hx, h4, h5⟩ := handleUnnamedArg_true hh
            have hlt : s.currentUnnamedArg_ < s.unnamedArgs_.length := by
              rcases Nat.lt_or_ge s.currentUnnamedArg_ s.unnamedArgs_.length with hl | hl
              · exact hl
              · rw [List.get?_eq_none.mpr hl] at hx
                simp at hx
            have hc2 : s2.currentUnnamedArg_ ≤ c + 1 := by
              rw [h5]
              split <;> omega
            have hf2 : ∀ i h, s2.unnamedArgs_.get? i = some h → h.found_ = true → i < c + 1 := by
              intro i y hy hyf
              rw [h4] at hy
              by_cases hic : i = s.currentUnnamedArg_
              · omega
              · have hne : s.currentUnnamedArg_ ≠ i := fun hh => hic hh.symm
                rw [List.get?_eq_getElem?, List.getElem?_set_ne hne,
                  ← List.get?_eq_getElem?] at hy
                have := hf i y hy hyf
                omega
            have := ih g2 s2 toks2 g3 s3 (c + 1) hc2 hf2 hrest
            simp only [List.filter_cons, hn, Bool.not_false, if_true, List.length_cons]
            constructor
            · omega
            · intro i y hy hyf
              have := this.2 i y hy hyf
              omega

/-- The completion check on an object in which every positional binding before
the iterator is found: if some required binding is not found, `check_` throws
`RequiredCmdLineArgMissingError` for such a binding and leaves the object as it
is. -/
theorem check_of_missing {σ : Type} (s : SimpleCmdLineArgs σ) (appName : String)
    (hfb : FoundBefore s)
    (hmiss : ∃ h, (h ∈ s.namedArgs_.map Prod.snd ∨ h ∈ s.unnamedArgs_) ∧
      h.required_ = true ∧ h.found_ = false) :
    ∃ h, (h ∈ s.namedArgs_.map Prod.snd ∨ h ∈ s.unnamedArgs_) ∧
      h.required_ = true ∧ h.found_ = false ∧
      s.check_ appName = (.error (Exc.RequiredCmdLineArgMissingError appName h.fullName), s) := by
  unfold check_
  simp only [AbstractCmdLineArgs.check_, eta_base]
  cases hn : firstMissing (s.namedArgs_.map Prod.snd) with
  | some h =>
    obtain ⟨h1, h2, h3⟩ := firstMissing_some hn
    exact ⟨h, Or.inl h1, h2, h3, rfl⟩
  | none =>
    cases hu : firstMissing (s.unnamedArgs_.drop s.currentUnnamedArg_) with
    | some h =>
      obtain ⟨h1, h2, h3⟩ := firstMissing_some hu
      exact ⟨h, Or.inr (List.mem_of_mem_drop h1), h2, h3, rfl⟩
    | none =>
      exfalso
      obtain ⟨h, hmem, hreq, hfound⟩ := hmiss
      rcases hmem with hmem | hmem
      · exact firstMissing_none hn h hmem ⟨hreq, hfound⟩
      · obtain ⟨i, hi⟩ := List.mem_iff_get?.mp hmem
        rcases Nat.lt_or_ge i s.currentUnnamedArg_ with hlt | hge
        · have := hfb i h hlt hi
          rw [hfound] at this
          exact Bool.noConfusion this
        · apply firstMissing_none hu h _ ⟨hreq, hfound⟩
          apply List.mem_iff_get?.mpr
          refine ⟨i - s.currentUnnamedArg_, ?_⟩
          rw [List.get?_eq_getElem?, List.getElem?_drop, ← List.get?_eq_getElem?]
          have : s.currentUnnamedArg_ + (i - s.currentUnnamedArg_) = i := by omega
          rw [this]
          exact hi

/-- A loop that has completed `n` iterations and stands at the end of the stream
has ended normally. -/
theorem parseLoop_of_dispatched_end {σ : Type} {n fuel : Nat} {g0 g : CmdLineArgGenerator}
    {a0 s : SimpleCmdLineArgs σ} {toks : List String}
    (hreach : AbstractCmdLineArgs.dispatched (virtuals σ) n g0 a0 = some (toks, g, s))
    (hend : g.remaining = 0) (hfuel : n ≤ fuel) :
    AbstractCmdLineArgs.parseLoop (virtuals σ) fuel g0 a0 = some (.ok (), g, s) := by
  obtain ⟨m, rfl⟩ : ∃ m, fuel = n + m := ⟨fuel - n, by omega⟩
  rw [AbstractCmdLineArgs.parseLoop_of_dispatched (virtuals σ) n g0 a0 toks g s m hreach]
  unfold AbstractCmdLineArgs.parseLoop
  simp only [hend, if_true]

/-- After `init_` and any number of completed iterations, every positional
binding before the iterator is found and the bindings are those of the start. -/
theorem foundBefore_of_dispatched {σ : Type} {a a0 s : SimpleCmdLineArgs σ}
    {argv : List String} {n : Nat} {g0 g : CmdLineArgGenerator} {toks : List String}
    {r : Except Exc Unit} (hinit : a.init_ argv = (r, a0))
    (hreach : AbstractCmdLineArgs.dispatched (virtuals σ) n g0 a0 = some (toks, g, s)) :
    FoundBefore s ∧ SameBindings a s := by
  obtain ⟨hsame0, hcur0, _, _, _⟩ := init_spec a a0 argv _ hinit
  have hfb0 : FoundBefore a0 := by
    intro i h hi _
    rw [hcur0] at hi
    omega
  exact ⟨AbstractCmdLineArgs.dispatched_invariant (virtuals σ) (fun _ s => FoundBefore s)
      (fun g s g1 s1 hP hrem hd => dispatch_foundBefore hrem hd hP) n g0 a0 toks g s hfb0 hreach,
    hsame0.trans (AbstractCmdLineArgs.dispatched_invariant (virtuals σ)
      (fun _ s => SameBindings a0 s)
      (fun g s g1 s1 hP hrem hd => hP.trans (dispatch_sameBindings hrem hd)) n g0 a0 toks g s
      (SameBindings.refl a0) hreach)⟩

end SimpleCmdLineArgs

end Pistis

namespace Pistis

namespace SimpleCmdLineArgs

theorem Sample.namedAfterFirst_parsed :
    parse 2 Sample.named ["some_program", "-i", "100", "-s", "foo"] =
      some (.ok (), Sample.namedAfterFirst) := rfl

theorem Sample.collections_registered :
    ((((registerNamedArgList_ ArgFormatter.formatString
        (SimpleCmdLineArgs.new Memory.zero noHook noHook) "-l" "list" false
        (Memory.stringListRef 0)).bind
      (fun a => registerNamedArgSet_ ArgFormatter.formatString a "-t" "set" false
        (Memory.stringSetRef 0))).bind
      (fun a => registerNamedArgSplitList_ sampleSplit ArgFormatter.formatString a "-L"
        "separated list" false "," false (Memory.stringListRef 1))).bind
      (fun a => registerNamedArgSplitSet_ sampleSplit ArgFormatter.formatString a "-T"
        "separated set" false "," true (Memory.stringSetRef 1))) =
      .ok Sample.collections := rfl

/-- C12.  Take an instance in any binding state (in particular the state a
previous parse left, with bindings marked found) and parse a second stream on
it.  `init_` clears every `found` flag and puts the positional iterator back on
the first positional binding.  If the loop of this parse then reads all its
tokens without error and a required binding is absent from them (a named one
whose flag is not among the tokens read at dispatch positions, or the positional
one number `i` when at most `i` positional tokens were read), the parse fails
with `RequiredCmdLineArgMissingError` for a required binding not matched in this
parse, whatever the previous parse had matched. -/
theorem C12_found_state_reset {σ : Type} (a1 a0 s : SimpleCmdLineArgs σ)
    (argv : List String) (g0 g : CmdLineArgGenerator) (n : Nat) (toks : List String)
    (fuel : Nat)
    (hinit : a1.init_ argv = (.ok (), a0))
    (hnew : CmdLineArgGenerator.new argv = .ok g0)
    (hreach : AbstractCmdLineArgs.dispatched (virtuals σ) n g0 a0 = some (toks, g, s))
    (hend : g.remaining = 0) (hfuel : n ≤ fuel)
    (habsent :
      (∃ k h, (k, h) ∈ a1.namedArgs_ ∧ h.required_ = true ∧ k ∉ toks) ∨
      (∃ i h, a1.unnamedArgs_.get? i = some h ∧ h.required_ = true ∧
        (toks.filter (fun t => !isNamedToken t)).length ≤ i)) :
    a0.currentUnnamedArg_ = 0 ∧
    (∀ p ∈ a0.namedArgs_, p.2.found_ = false) ∧
    (∀ x ∈ a0.unnamedArgs_, x.found_ = false) ∧
    ∃ h, (h ∈ s.namedArgs_.map Prod.snd ∨ h ∈ s.unnamedArgs_) ∧
      h.required_ = true ∧ h.found_ = false ∧
      parse fuel a1 argv =
        some (.error (Exc.RequiredCmdLineArgMissingError g.appName h.fullName), s) := by
  obtain ⟨hsame0, hcur0, _, hnf0, huf0⟩ := init_spec a1 a0 argv _ hinit
  obtain ⟨hfb, hsame⟩ := foundBefore_of_dispatched hinit hreach
  have hloop := parseLoop_of_dispatched_end hreach hend hfuel
  have hparse : parse fuel a1 argv = some (check_ s g.appName) := by
    have hi : (virtuals σ).init_ a1 argv = (.ok (), a0) := hinit
    simp only [parse, AbstractCmdLineArgs.parse, hi, hnew, hloop]
    rfl
  have hmiss : ∃ h, (h ∈ s.namedArgs_.map Prod.snd ∨ h ∈ s.unnamedArgs_) ∧
      h.required_ = true ∧ h.found_ = false := by
    rcases habsent with ⟨k, h, hmem, hreq, hk⟩ | ⟨i, h, hget, hreq, hcount⟩
    · -- the entry of the final table that stands for `(k, h)`
      have hm : (k, h.setFound false) ∈
          a1.namedArgs_.map (fun p => (p.1, p.2.setFound false)) :=
        List.mem_map.mpr ⟨(k, h), hmem, rfl⟩
      rw [← hsame.1] at hm
      obtain ⟨p, hp, hpe⟩ := List.mem_map.mp hm
      simp only [Prod.mk.injEq] at hpe
      refine ⟨p.2, Or.inl (List.mem_map.mpr ⟨p, hp, rfl⟩), ?_, ?_⟩
      · have := congrArg ArgHandler.required_ hpe.2
        simp only [ArgHandler.setFound] at this
        rw [this, hreq]
      · cases hpf : p.2.found_ with
        | false => rfl
        | true =>
          exfalso
          rcases dispatched_found_named n g0 a0 toks g s hreach p hp hpf with hin | ⟨q, hq, _, hqf⟩
          · rw [hpe.1] at hin
            exact hk hin
          · rw [hnf0 q hq] at hqf
            exact Bool.noConfusion hqf
    · have hm : (a1.unnamedArgs_.map (fun x => x.setFound false)).get? i =
          some (h.setFound false) := by
        simp [List.get?_eq_getElem?] at hget ⊢
        exact ⟨h, hget, rfl⟩
      rw [← hsame.2.1] at hm
      simp only [List.get?_eq_getElem?, List.getElem?_map, Option.map_eq_some'] at hm
      obtain ⟨x, hx, hxe⟩ := hm
      refine ⟨x, Or.inr (List.mem_iff_getElem?.mpr ⟨i, hx⟩), ?_, ?_⟩
      · have := congrArg ArgHandler.required_ hxe
        simp only [ArgHandler.setFound] at this
        rw [this, hreq]
      · cases hxf : x.found_ with
        | false => rfl
        | true =>
          exfalso
          have hstart : ∀ j y, a0.unnamedArgs_.get? j = some y → y.found_ = true → j < 0 := by
            intro j y hy hyf
            have := huf0 y (List.mem_iff_get?.mpr ⟨j, hy⟩)
            rw [this] at hyf
            exact Bool.noConfusion hyf
          have := (dispatched_found_unnamed n g0 a0 toks g s 0 (by omega) hstart hreach).2 i x
            (by rw [List.get?_eq_getElem?]; exact hx) hxf
          omega
  obtain ⟨h, h1, h2, h3, h4⟩ := check_of_missing s g.appName hfb hmiss
  exact ⟨hcur0, hnf0, huf0, h, h1, h2, h3, by rw [hparse, h4]⟩

/-- C12 on the test `NamedSingleValue`: the instance has parsed `-i 100 -s foo`,
so the required `-i` is marked found; a second parse of `-s bar` on that same
object fails with `RequiredCmdLineArgMissingError`. -/
theorem C12_found_state_reset_witness :
    (∀ p ∈ Sample.namedAfterFirst.namedArgs_, p.2.found_ = true) ∧
    ∃ (g : CmdLineArgGenerator) (s : SimpleCmdLineArgs Memory),
      AbstractCmdLineArgs.dispatched (virtuals Memory) 1 ⟨["some_program", "-s", "bar"], 1⟩
        (Sample.namedAfterFirst.init_ ["some_program", "-s", "bar"]).2 =
          some (["-s"], g, s) ∧
      ∃ h, (h ∈ s.namedArgs_.map Prod.snd ∨ h ∈ s.unnamedArgs_) ∧
        h.required_ = true ∧ h.found_ = false ∧
        parse 1 Sample.namedAfterFirst ["some_program", "-s", "bar"] =
          some (.error (Exc.RequiredCmdLineArgMissingError g.appName h.fullName), s) :=
  ⟨by decide, _, _, rfl,
    (C12_found_state_reset Sample.namedAfterFirst _ _ ["some_program", "-s", "bar"] _ _ 1
      ["-s"] 1 rfl rfl rfl (by decide) (by decide)
      (Or.inl ⟨"-i", _, List.mem_cons_self _ _, rfl, by decide⟩)).2.2.2⟩

/-- C13, as amended.  Let `parse` of a stream `A` on the instance `a` end,
returning or throwing, and leave the instance `a1`.  (1) A following `parse` of
any stream `B` on `a1` gives exactly what `parse` of `B` gives on `a` itself with
its destinations holding the values that `A` left: the same outcome and the same
object afterwards, so earlier parses act on later ones only through the
destinations.  (2) If the `initValues_` hook of `a` gives the destinations values
that do not depend on what they held, the `parse` of `B` on `a1` gives exactly
what `parse` of `B` gives on `a`, the instance no stream was parsed on. -/
theorem C13_reparse_depends_only_on_values {σ : Type} (a a1 : SimpleCmdLineArgs σ)
    (argvA argvB : List String) (fuelA fuelB : Nat) (r : Except Exc Unit)
    (hA : parse fuelA a argvA = some (r, a1)) :
    parse fuelB a1 argvB = parse fuelB { a with values := a1.values } argvB ∧
    ((∀ v w, a.initValues_ v = a.initValues_ w) →
      parse fuelB a1 argvB = parse fuelB a argvB) := by
  have hsame0 := parse_sameBindings hA
  constructor
  · have hsame : SameBindings { a with values := a1.values } a1 := by
      obtain ⟨h1, h2, h3, h4⟩ := hsame0
      exact ⟨h1, h2, h3, h4⟩
    have hi := init_congr hsame rfl argvB
    simp only [parse, AbstractCmdLineArgs.parse]
    have hv : (virtuals σ).init_ a1 argvB =
        (virtuals σ).init_ { a with values := a1.values } argvB := hi.symm
    rw [hv]
  · intro hc
    have hi := init_congr_reset hsame0 hc argvB
    simp only [parse, AbstractCmdLineArgs.parse]
    have hv : (virtuals σ).init_ a1 argvB = (virtuals σ).init_ a argvB := hi.symm
    rw [hv]

/-- C13 (amended) on the instance of the test `NamedSingleValue`: after a first
parse of `-i 100 -s foo`, a second parse of `-i 2` gives what a parse of `-i 2`
gives on the untouched instance whose variables hold 100 and `"foo"`; and with
an `initValues_` hook that resets the variables, it gives what a parse of `-i 2`
gives on the untouched instance. -/
theorem C13_reparse_witness :
    parse 2 Sample.named ["some_program", "-i", "100", "-s", "foo"] =
      some (.ok (), Sample.namedAfterFirst) ∧
    parse 1 Sample.namedAfterFirst ["some_program", "-i", "2"] =
      parse 1 { Sample.named with values := Sample.namedAfterFirst.values }
        ["some_program", "-i", "2"] ∧
    parse 1 { Sample.namedAfterFirst with initValues_ := Sample.resetHook }
        ["some_program", "-i", "2"] =
      parse 1 { Sample.named with initValues_ := Sample.resetHook }
        ["some_program", "-i", "2"] ∧
    (parse 1 { Sample.namedAfterFirst with initValues_ := Sample.resetHook }
        ["some_program", "-i", "2"]).map
        (fun r => (r.1, r.2.values.ints 0, r.2.values.strings 0)) =
      some (.ok (), 2, "") :=
  ⟨rfl,
   (C13_reparse_depends_only_on_values Sample.named Sample.namedAfterFirst
    ["some_program", "-i", "100", "-s", "foo"] ["some_program", "-i", "2"] 2 1 (.ok ())
    rfl).1,
   (C13_reparse_depends_only_on_values { Sample.named with initValues_ := Sample.resetHook }
    { Sample.namedAfterFirst with initValues_ := Sample.resetHook }
    ["some_program", "-i", "100", "-s", "foo"] ["some_program", "-i", "2"] 2 1 (.ok ())
    rfl).2 (fun _ _ => rfl),
   by decide⟩

/-- C13 as stated fails for each kind of destination; every stream below parses
without error.  Scalar: after `-i 100 -s foo` and then `-i 2` the string variable
holds `"foo"`, while `-i 2` alone on a fresh instance leaves it empty.  List:
after `-l a` and then `-l b` the vector holds `a, b`, while `-l b` alone gives
`b`.  Set: after `-t a` and then `-t b` the set holds `a` and `b`, while `-t b`
alone gives `b`. -/
theorem C13_counterexample :
    (((parse 2 Sample.named ["some_program", "-i", "100", "-s", "foo"]).bind
        (fun r => parse 1 r.2 ["some_program", "-i", "2"])).map
        (fun r => (r.1, r.2.values.ints 0, r.2.values.strings 0)) =
        some (.ok (), 2, "foo") ∧
      (parse 1 Sample.named ["some_program", "-i", "2"]).map
        (fun r => (r.1, r.2.values.ints 0, r.2.values.strings 0)) =
        some (.ok (), 2, "")) ∧
    (((parse 1 Sample.collections ["some_program", "-l", "a"]).bind
        (fun r => parse 1 r.2 ["some_program", "-l", "b"])).map
        (fun r => (r.1, r.2.values.stringLists 0)) = some (.ok (), ["a", "b"]) ∧
      (parse 1 Sample.collections ["some_program", "-l", "b"]).map
        (fun r => (r.1, r.2.values.stringLists 0)) = some (.ok (), ["b"])) ∧
    (((parse 1 Sample.collections ["some_program", "-t", "a"]).bind
        (fun r => parse 1 r.2 ["some_program", "-t", "b"])).map
        (fun r => (r.1, r.2.values.stringSets 0)) = some (.ok (), ["a", "b"]) ∧
      (parse 1 Sample.collections ["some_program", "-t", "b"]).map
        (fun r => (r.1, r.2.values.stringSets 0)) = some (.ok (), ["b"])) := by
  decide

end SimpleCmdLineArgs

end Pistis

namespace Pistis

/-! ## Delimiter-split registrations: claims C14 and C15 -/

namespace SimpleCmdLineArgs

theorem eta_values {σ : Type} (s : SimpleCmdLineArgs σ) : { s with values := s.values } = s := by
  cases s
  rfl

/-- Appending string pieces to a vector variable: all of them arrive, in order,
and nothing else changes. -/
theorem applyPieces_pushBack (i : Nat) (ps : List String) (m : Memory) :
    ∃ m1, applyPieces (pushBackPiece ArgFormatter.formatString (Memory.stringListRef i)) ps m =
        (.ok (), m1) ∧
      m1.stringLists i = m.stringLists i ++ ps ∧
      (∀ j, j ≠ i → m1.stringLists j = m.stringLists j) ∧
      m1.ints = m.ints ∧ m1.strings = m.strings ∧ m1.stringSets = m.stringSets := by
  induction ps generalizing m with
  | nil => exact ⟨m, rfl, by simp, fun _ _ => rfl, rfl, rfl, rfl⟩
  | cons p ps ih =>
    obtain ⟨m1, h1, h2, h3, h4, h5, h6⟩ :=
      ih ((Memory.stringListRef i).pushBack m p)
    refine ⟨m1, ?_, ?_, ?_, ?_, ?_, ?_⟩
    · simp only [applyPieces, pushBackPiece, ArgFormatter.formatString]
      exact h1
    · rw [h2]
      simp [Ref.pushBack, Memory.stringListRef]
    · intro j hj
      rw [h3 j hj]
      simp [Ref.pushBack, Memory.stringListRef, hj]
    · rw [h4]; rfl
    · rw [h5]; rfl
    · rw [h6]; rfl

/-- Inserting string pieces into a set variable: the set gains exactly the
pieces, each element stays there once, and nothing else changes. -/
theorem applyPieces_insert (i : Nat) (ps : List String) (m : Memory) :
    ∃ m1, applyPieces (insertPiece ArgFormatter.formatString (Memory.stringSetRef i)) ps m =
        (.ok (), m1) ∧
      (∀ x, x ∈ m1.stringSets i ↔ x ∈ m.stringSets i ∨ x ∈ ps) ∧
      ((m.stringSets i).Nodup → (m1.stringSets i).Nodup) ∧
      (∀ j, j ≠ i → m1.stringSets j = m.stringSets j) ∧
      m1.ints = m.ints ∧ m1.strings = m.strings ∧ m1.stringLists = m.stringLists := by
  induction ps generalizing m with
  | nil => exact ⟨m, rfl, by simp, fun h => h, fun _ _ => rfl, rfl, rfl, rfl⟩
  | cons p ps ih =>
    obtain ⟨m1, h1, h2, h3, h4, h5, h6, h7⟩ :=
      ih ((Memory.stringSetRef i).insert m p)
    have hins : ∀ x, x ∈ ((Memory.stringSetRef i).insert m p).stringSets i ↔
        x ∈ m.stringSets i ∨ x = p := by
      intro x
      by_cases hp : p ∈ m.stringSets i
      · simp only [Ref.insert, Memory.stringSetRef, hp, if_true]
        constructor
        · exact Or.inl
        · rintro (h | rfl)
          · exact h
          · exact hp
      · simp [Ref.insert, Memory.stringSetRef, hp]
    have hnd : (m.stringSets i).Nodup →
        (((Memory.stringSetRef i).insert m p).stringSets i).Nodup := by
      intro hn
      by_cases hp : p ∈ m.stringSets i
      · simpa [Ref.insert, Memory.stringSetRef, hp] using hn
      · simp only [Ref.insert, Memory.stringSetRef, hp, if_false, if_true]
        rw [List.nodup_append]
        refine ⟨hn, List.nodup_singleton p, ?_⟩
        intro x hx hy
        simp only [List.mem_singleton] at hy
        subst hy
        exact hp hx
    have hother : ∀ j, j ≠ i →
        ((Memory.stringSetRef i).insert m p).stringSets j = m.stringSets j := by
      intro j hj
      by_cases hp : p ∈ m.stringSets i
      · simp [Ref.insert, Memory.stringSetRef, hp]
      · simp [Ref.insert, Memory.stringSetRef, hp, hj]
    have hframe : ((Memory.stringSetRef i).insert m p).ints = m.ints ∧
        ((Memory.stringSetRef i).insert m p).strings = m.strings ∧
        ((Memory.stringSetRef i).insert m p).stringLists = m.stringLists := by
      by_cases hp : p ∈ m.stringSets i
      · simp [Ref.insert, Memory.stringSetRef, hp]
      · simp [Ref.insert, Memory.stringSetRef, hp]
    refine ⟨m1, ?_, ?_, ?_, ?_, ?_, ?_, ?_⟩
    · simp only [applyPieces, insertPiece, ArgFormatter.formatString]
      exact h1
    · intro x
      rw [h2 x, hins x]
      simp only [List.mem_cons]
      tauto
    · intro hn
      exact h3 (hnd hn)
    · intro j hj
      rw [h4 j hj, hother j hj]
    · rw [h5, hframe.1]
    · rw [h6, hframe.2.1]
    · rw [h7, hframe.2.2]

/-- C14.  Take a delimiter-split registration with string elements and a
non-empty token `t`; `split t separator` is the sequence of pieces the split
iterator yields.  With a vector destination the conversion succeeds and the
vector is the old vector followed by exactly those pieces, in order and with
repeats kept.  With a set destination it succeeds and an element is in the set
afterwards exactly if it was there before or is one of the pieces, each element
being there once.  No other variable changes.  The named delegate runs this on
the token after the flag and consumes that one token. -/
theorem C14_split_into_list_and_set (split : String → String → List String)
    (separator : String) (allowEmpty : Bool) (i : Nat) (m : Memory) :
    (∀ t : String, t ≠ "" →
      ∃ m1, splitAndApply split t separator allowEmpty
          (pushBackPiece ArgFormatter.formatString (Memory.stringListRef i)) m = (.ok (), m1) ∧
        m1.stringLists i = m.stringLists i ++ split t separator ∧
        (∀ j, j ≠ i → m1.stringLists j = m.stringLists j) ∧
        m1.ints = m.ints ∧ m1.strings = m.strings ∧ m1.stringSets = m.stringSets) ∧
    (∀ t : String, t ≠ "" →
      ∃ m1, splitAndApply split t separator allowEmpty
          (insertPiece ArgFormatter.formatString (Memory.stringSetRef i)) m = (.ok (), m1) ∧
        (∀ x, x ∈ m1.stringSets i ↔ x ∈ m.stringSets i ∨ x ∈ split t separator) ∧
        ((m.stringSets i).Nodup → (m1.stringSets i).Nodup) ∧
        (∀ j, j ≠ i → m1.stringSets j = m.stringSets j) ∧
        m1.ints = m.ints ∧ m1.strings = m.strings ∧ m1.stringLists = m.stringLists) ∧
    (∀ (f : String → Memory → Except Exc Unit × Memory) (g : CmdLineArgGenerator)
        (argName : String), 0 < g.remaining →
      namedSplitDelegate split separator allowEmpty f g argName m =
        ((splitAndApply split g.deref separator allowEmpty f m).1,
          { g with current_ := g.current_ + 1 },
          (splitAndApply split g.deref separator allowEmpty f m).2)) := by
  refine ⟨?_, ?_, ?_⟩
  · intro t ht
    simp only [splitAndApply, ht, ne_eq, not_false_eq_true, if_true]
    exact applyPieces_pushBack i (split t separator) m
  · intro t ht
    simp only [splitAndApply, ht, ne_eq, not_false_eq_true, if_true]
    exact applyPieces_insert i (split t separator) m
  · intro f g argName hrem
    have h : g.remaining ≠ 0 := by omega
    simp only [namedSplitDelegate, CmdLineArgGenerator.next_of_remaining h]

/-- C14 on the token of the tests `NamedSeparatedVectorArgs` and
`NamedSeparatedSetArgs`: `a,b,a,c,d` split on `,` extends the empty vector to
`a, b, a, c, d` and the empty set to the elements `a`, `b`, `c`, `d`. -/
theorem C14_split_witness :
    sampleSplit "a,b,a,c,d" "," = ["a", "b", "a", "c", "d"] ∧
    (∃ m1, splitAndApply sampleSplit "a,b,a,c,d" "," false
        (pushBackPiece ArgFormatter.formatString (Memory.stringListRef 1)) Memory.zero =
          (.ok (), m1) ∧
      m1.stringLists 1 = ["a", "b", "a", "c", "d"]) ∧
    (∃ m1, splitAndApply sampleSplit "a,b,a,c,d" "," true
        (insertPiece ArgFormatter.formatString (Memory.stringSetRef 1)) Memory.zero =
          (.ok (), m1) ∧
      (∀ x, x ∈ m1.stringSets 1 ↔ x ∈ ["a", "b", "c", "d"]) ∧
      (m1.stringSets 1).Nodup) ∧
    (parse 2 Sample.collections
        ["some_program", "-L", "a,b,a,c,d", "-T", "a,b,a,c,d"]).map
      (fun r => (r.1, r.2.values.stringLists 1, r.2.values.stringSets 1)) =
      some (.ok (), ["a", "b", "a", "c", "d"], ["a", "b", "c", "d"]) :=
  ⟨by decide,
   ((C14_split_into_list_and_set sampleSplit "," false 1 Memory.zero).1 "a,b,a,c,d"
      (by decide)).imp (fun _ h => ⟨h.1, h.2.1.trans (by decide)⟩),
   ((C14_split_into_list_and_set sampleSplit "," true 1 Memory.zero).2.1 "a,b,a,c,d"
      (by decide)).imp (fun _ h => ⟨h.1,
        fun x => (h.2.1 x).trans (by
          have hs : sampleSplit "a,b,a,c,d" "," = ["a", "b", "a", "c", "d"] := by decide
          rw [hs]
          simp only [Memory.zero, List.not_mem_nil, false_or, List.mem_cons, or_false]
          tauto),
        h.2.2.1 (List.nodup_nil)⟩),
   by decide⟩

theorem find_setFound_self {σ : Type} {m : HandlerMapType σ} {k : String} {h : ArgHandler σ}
    (v : Bool) (hf : m.find k = some h) : (m.setFound k v).find k = some (h.setFound v) := by
  induction m with
  | nil => simp [HandlerMapType.find] at hf
  | cons p rest ih =>
    obtain ⟨k1, h1⟩ := p
    by_cases hk : k1 = k
    · simp only [HandlerMapType.find, hk, if_true, Option.some.injEq] at hf
      subst hf
      simp [HandlerMapType.setFound, HandlerMapType.find, hk]
    · simp only [HandlerMapType.find, hk, if_false] at hf
      simp [HandlerMapType.setFound, HandlerMapType.find, hk, ih hf]

/-- C15.  Let the loop of `parse` stand on the flag of a named delimiter-split
registration (any destination and element type) and let the token after the
flag be the empty string.  If `allowEmpty` is false, `parse` fails with an
`IllegalValueError` for this binding with no value and the detail "Value is
empty", and the object, destinations included, is as it was when the flag was
reached.  If `allowEmpty` is true, the iteration ends normally having consumed
both tokens, the destinations are unchanged and the binding is marked found. -/
theorem C15_split_empty_value {σ : Type} (split : String → String → List String)
    (a a0 s : SimpleCmdLineArgs σ) (argv : List String) (g0 g : CmdLineArgGenerator)
    (n : Nat) (toks : List String) (fuel : Nat) (h : ArgHandler σ) (separator : String)
    (allowEmpty : Bool) (f : String → σ → Except Exc Unit × σ)
    (hinit : a.init_ argv = (.ok (), a0))
    (hnew : CmdLineArgGenerator.new argv = .ok g0)
    (hreach : AbstractCmdLineArgs.dispatched (virtuals σ) n g0 a0 = some (toks, g, s))
    (hrem : 2 ≤ g.remaining)
    (hflag : isNamedToken g.deref = true)
    (hnohelp : g.deref ≠ "-h" ∧ g.deref ≠ "--help")
    (hfind : s.namedArgs_.find g.deref = some h)
    (hdel : h.handleValue = namedSplitDelegate split separator allowEmpty f)
    (hempty : (CmdLineArgGenerator.mk g.argv (g.current_ + 1)).deref = "")
    (hfuel : n < fuel) :
    (allowEmpty = false →
      parse fuel a argv =
        some (.error (Exc.IllegalValueError g.appName h.fullName "" "Value is empty"), s)) ∧
    (allowEmpty = true →
      AbstractCmdLineArgs.dispatch (virtuals σ) g s =
        (.ok (), { g with current_ := g.current_ + 1 + 1 },
          { s with namedArgs_ := s.namedArgs_.setFound g.deref true }) ∧
      (s.namedArgs_.setFound g.deref true).find g.deref = some (h.setFound true) ∧
      (h.setFound true).found_ = true) := by
  have hrem0 : g.remaining ≠ 0 := by omega
  have hrem1 : (CmdLineArgGenerator.mk g.argv (g.current_ + 1)).remaining ≠ 0 := by
    simp only [CmdLineArgGenerator.remaining, CmdLineArgGenerator.end_] at hrem ⊢
    omega
  have hd := dispatch_named s g h hrem0 hflag hnohelp hfind
  constructor
  · intro hae
    have hd2 : AbstractCmdLineArgs.dispatch (virtuals σ) g s =
        (.error (Exc.IllegalValueError g.appName h.fullName "" "Value is empty"),
          { g with current_ := g.current_ + 1 + 1 }, s) := by
      rw [hd, hdel]
      simp only [namedSplitDelegate, CmdLineArgGenerator.next_of_remaining hrem1, hempty,
        splitAndApply, hae, ne_eq, not_true_eq_false, if_false, if_true, translateError,
        eta_values]
      rfl
    exact parse_error_at hinit hnew hreach hrem0 hd2 fuel hfuel
  · intro hae
    refine ⟨?_, find_setFound_self true hfind, rfl⟩
    rw [hd, hdel]
    simp only [namedSplitDelegate, CmdLineArgGenerator.next_of_remaining hrem1, hempty,
      splitAndApply, hae, ne_eq, not_true_eq_false, if_false, Bool.true_eq_false]

/-- C15 on the sample flags `-L` (`allowEmpty` false) and `-T` (`allowEmpty`
true) followed by an empty token: `parse` of `-L ""` fails with the detail
"Value is empty"; the iteration on `-T ""` ends normally. -/
theorem C15_split_empty_value_witness :
    parse 1 Sample.collections ["some_program", "-L", ""] =
      some (.error (Exc.IllegalValueError "some_program" "separated list (-L)" ""
        "Value is empty"), (Sample.collections.init_ ["some_program", "-L", ""]).2) ∧
    (parse 1 Sample.collections ["some_program", "-T", ""]).map
      (fun r => (r.1, r.2.values.stringSets 1,
        (r.2.namedArgs_.find "-T").map (fun b => b.found_))) = some (.ok (), [], some true) ∧
    (((Sample.collections.init_ ["some_program", "-T", ""]).2.namedArgs_.setFound "-T"
        true).find "-T").map (fun b => b.found_) = some true :=
  ⟨(C15_split_empty_value sampleSplit Sample.collections _ _ ["some_program", "-L", ""]
      _ _ 0 [] 1 _ "," false
      (pushBackPiece ArgFormatter.formatString (Memory.stringListRef 1)) rfl rfl rfl
      (by decide) (by decide) (by decide) rfl rfl (by decide) (by decide)).1 rfl,
   by decide,
   congrArg (Option.map (fun b => b.found_))
    ((C15_split_empty_value sampleSplit Sample.collections _ _ ["some_program", "-T", ""]
      _ _ 0 [] 1 _ "," true
      (insertPiece ArgFormatter.formatString (Memory.stringSetRef 1)) rfl rfl rfl
      (by decide) (by decide) (by decide) rfl rfl (by decide) (by decide)).2 rfl).2.1⟩

end SimpleCmdLineArgs

end Pistis

namespace Pistis

/-! ## Checked int bindings: claims C16, C17 and C18 -/

namespace SimpleCmdLineArgs

/-- The scalar named delegate on a cursor with a token left: the token is
consumed and, if it converts, the conversion is assigned. -/
theorem namedScalarDelegate_step {σ α : Type} (format : String → Except Exc α)
    (v : Ref σ α) (g : CmdLineArgGenerator) (argName : String) (m : σ)
    (hrem : g.remaining ≠ 0) :
    namedScalarDelegate format v g argName m =
      match format g.deref with
      | .error e => (.error e, { g with current_ := g.current_ + 1 }, m)
      | .ok x => (.ok (), { g with current_ := g.current_ + 1 }, v.set m x) := by
  simp only [namedScalarDelegate, CmdLineArgGenerator.next_of_remaining hrem]

/-- An iteration on the flag of a scalar named binding with the conversion
`format`, followed by at least one more token. -/
theorem dispatch_named_scalar {σ α : Type} (format : String → Except Exc α) (v : Ref σ α)
    (s : SimpleCmdLineArgs σ) (g : CmdLineArgGenerator) (h : ArgHandler σ)
    (hrem : 2 ≤ g.remaining) (hflag : isNamedToken g.deref = true)
    (hnohelp : g.deref ≠ "-h" ∧ g.deref ≠ "--help")
    (hfind : s.namedArgs_.find g.deref = some h)
    (hdel : h.handleValue = namedScalarDelegate format v) :
    AbstractCmdLineArgs.dispatch (virtuals σ) g s =
      match format (CmdLineArgGenerator.mk g.argv (g.current_ + 1)).deref with
      | .error e =>
          (.error (translateError g.appName h.fullName e),
            { g with current_ := g.current_ + 1 + 1 }, s)
      | .ok x =>
          (.ok (), { g with current_ := g.current_ + 1 + 1 },
            { s with
              values := v.set s.values x
              namedArgs_ := s.namedArgs_.setFound g.deref true }) := by
  have hrem0 : g.remaining ≠ 0 := by omega
  have hrem1 : (CmdLineArgGenerator.mk g.argv (g.current_ + 1)).remaining ≠ 0 := by
    simp only [CmdLineArgGenerator.remaining, CmdLineArgGenerator.end_] at hrem ⊢
    omega
  rw [dispatch_named s g h hrem0 hflag hnohelp hfind, hdel,
    namedScalarDelegate_step format v _ _ _ hrem1]
  cases format (CmdLineArgGenerator.mk g.argv (g.current_ + 1)).deref with
  | error e =>
    simp only [eta_values]
    rfl
  | ok x => rfl

/-- C16.  Let the loop of `parse` stand on the flag of an `int` binding
restricted to the legal values `legalValues`, followed by a token that the plain
`int` conversion reads as `v`.  If `v` is a legal value, the iteration ends
normally, both tokens consumed, `v` assigned to the destination and the binding
marked found; the iteration ends normally only then.  Otherwise `parse` fails
with an `IllegalValueError` for the binding that carries the raw token, the
object (destination included) is as it was when the flag was reached, and the
detail, which the message shows in parentheses, is "Legal values are" followed
by every legal value, separated by a comma and a space. -/
theorem C16_int_in_set {σ : Type} (nu : NumUtil) (a a0 s : SimpleCmdLineArgs σ)
    (argv : List String) (g0 g : CmdLineArgGenerator) (n : Nat) (toks : List String)
    (fuel : Nat) (h : ArgHandler σ) (ref : Ref σ Int) (legalValues : List Int) (v : Int)
    (hinit : a.init_ argv = (.ok (), a0))
    (hnew : CmdLineArgGenerator.new argv = .ok g0)
    (hreach : AbstractCmdLineArgs.dispatched (virtuals σ) n g0 a0 = some (toks, g, s))
    (hrem : 2 ≤ g.remaining)
    (hflag : isNamedToken g.deref = true)
    (hnohelp : g.deref ≠ "-h" ∧ g.deref ≠ "--help")
    (hfind : s.namedArgs_.find g.deref = some h)
    (hdel : h.handleValue =
      namedScalarDelegate (ArgFormatter.formatIntInSet nu legalValues) ref)
    (hv : ArgFormatter.formatInt nu (CmdLineArgGenerator.mk g.argv (g.current_ + 1)).deref =
      .ok v)
    (hfuel : n < fuel) :
    (v ∈ legalValues →
      AbstractCmdLineArgs.dispatch (virtuals σ) g s =
        (.ok (), { g with current_ := g.current_ + 1 + 1 },
          { s with
            values := ref.set s.values v
            namedArgs_ := s.namedArgs_.setFound g.deref true })) ∧
    (v ∉ legalValues →
      parse fuel a argv =
        some (.error (Exc.IllegalValueError g.appName h.fullName
          (CmdLineArgGenerator.mk g.argv (g.current_ + 1)).deref
          ("Legal values are " ++ join (legalValues.map (fun x => toString x)) ", ")), s) ∧
      (Exc.IllegalValueError g.appName h.fullName
          (CmdLineArgGenerator.mk g.argv (g.current_ + 1)).deref
          ("Legal values are " ++ join (legalValues.map (fun x => toString x)) ", ")).message =
        (if g.appName ≠ "" then g.appName ++ ": " else "") ++
          ("Illegal value" ++
            (if (CmdLineArgGenerator.mk g.argv (g.current_ + 1)).deref ≠ "" then
              " \"" ++ (CmdLineArgGenerator.mk g.argv (g.current_ + 1)).deref ++ "\""
             else "") ++
            (if h.fullName ≠ "" then " for command-line argument " ++ h.fullName
             else " on the command-line") ++
            (" (" ++ ("Legal values are " ++
              join (legalValues.map (fun x => toString x)) ", ") ++ ")"))) ∧
    ((∃ g1 s1, AbstractCmdLineArgs.dispatch (virtuals σ) g s = (.ok (), g1, s1)) ↔
      v ∈ legalValues) := by
  have hd := dispatch_named_scalar (ArgFormatter.formatIntInSet nu legalValues) ref s g h hrem
    hflag hnohelp hfind hdel
  have hin : v ∈ legalValues →
      AbstractCmdLineArgs.dispatch (virtuals σ) g s =
        (.ok (), { g with current_ := g.current_ + 1 + 1 },
          { s with
            values := ref.set s.values v
            namedArgs_ := s.namedArgs_.setFound g.deref true }) := by
    intro hmem
    rw [hd]
    simp only [ArgFormatter.formatIntInSet, hv, hmem, not_true_eq_false, if_false]
  have hout : v ∉ legalValues →
      AbstractCmdLineArgs.dispatch (virtuals σ) g s =
        (.error (Exc.IllegalValueError g.appName h.fullName
          (CmdLineArgGenerator.mk g.argv (g.current_ + 1)).deref
          ("Legal values are " ++ join (legalValues.map (fun x => toString x)) ", ")),
          { g with current_ := g.current_ + 1 + 1 }, s) := by
    intro hmem
    rw [hd]
    simp only [ArgFormatter.formatIntInSet, hv, hmem, not_false_eq_true, if_true,
      translateError]
  refine ⟨hin, ?_, ?_⟩
  · intro hmem
    refine ⟨parse_error_at hinit hnew hreach (by omega) (hout hmem) fuel hfuel, ?_⟩
    apply illegalValue_message
    apply left_append_ne_empty
    decide
  · constructor
    · rintro ⟨g1, s1, hok⟩
      by_contra hmem
      rw [hout hmem] at hok
      simp at hok
    · intro hmem
      exact ⟨_, _, hin hmem⟩

/-- C16 on the test `NamedSingleValueInSet`: against the legal values 10, 20, 30,
40, 50 the token `11` makes `parse` fail, and the message lists the five values;
the token `20` is stored. -/
theorem C16_int_in_set_witness :
    parse 1 Sample.checked ["some_program", "-j", "11"] =
      some (.error (Exc.IllegalValueError "some_program" "integer value (-j)" "11"
        "Legal values are 10, 20, 30, 40, 50"),
        (Sample.checked.init_ ["some_program", "-j", "11"]).2) ∧
    (Exc.IllegalValueError "some_program" "integer value (-j)" "11"
        "Legal values are 10, 20, 30, 40, 50").message =
      "some_program: Illegal value \"11\" for command-line argument integer value (-j) (Legal values are 10, 20, 30, 40, 50)" ∧
    (parse 1 Sample.checked ["some_program", "-j", "20"]).map
      (fun r => (r.1, r.2.values.ints 1)) = some (.ok (), 20) :=
  ⟨((C16_int_in_set decimalNumUtil Sample.checked _ _ ["some_program", "-j", "11"] _ _ 0 []
      1 _ (Memory.intRef 1) [10, 20, 30, 40, 50] 11 rfl rfl rfl (by decide) (by decide)
      (by decide) rfl rfl (by decide) (by decide)).2.1 (by decide)).1,
   by decide, by decide⟩

/-- C17.  Let the loop of `parse` stand on the flag of a range-checked `int`
binding with bounds `minValue` and `maxValue`, followed by a token that the plain
`int` conversion reads as `v`.  If `minValue <= v <= maxValue`, the iteration
ends normally, both tokens consumed, `v` assigned to the destination and the
binding marked found; the iteration ends normally only then.  Otherwise `parse`
fails with an `IllegalValueError` for the binding that carries the raw token,
and the object (destination included) is as it was when the flag was reached. -/
theorem C17_int_in_range {σ : Type} (nu : NumUtil) (a a0 s : SimpleCmdLineArgs σ)
    (argv : List String) (g0 g : CmdLineArgGenerator) (n : Nat) (toks : List String)
    (fuel : Nat) (h : ArgHandler σ) (ref : Ref σ Int) (minValue maxValue v : Int)
    (hinit : a.init_ argv = (.ok (), a0))
    (hnew : CmdLineArgGenerator.new argv = .ok g0)
    (hreach : AbstractCmdLineArgs.dispatched (virtuals σ) n g0 a0 = some (toks, g, s))
    (hrem : 2 ≤ g.remaining)
    (hflag : isNamedToken g.deref = true)
    (hnohelp : g.deref ≠ "-h" ∧ g.deref ≠ "--help")
    (hfind : s.namedArgs_.find g.deref = some h)
    (hdel : h.handleValue =
      namedScalarDelegate (ArgFormatter.formatIntInRange nu minValue maxValue) ref)
    (hv : ArgFormatter.formatInt nu (CmdLineArgGenerator.mk g.argv (g.current_ + 1)).deref =
      .ok v)
    (hfuel : n < fuel) :
    (minValue ≤ v ∧ v ≤ maxValue →
      AbstractCmdLineArgs.dispatch (virtuals σ) g s =
        (.ok (), { g with current_ := g.current_ + 1 + 1 },
          { s with
            values := ref.set s.values v
            namedArgs_ := s.namedArgs_.setFound g.deref true })) ∧
    (¬ (minValue ≤ v ∧ v ≤ maxValue) →
      parse fuel a argv =
        some (.error (Exc.IllegalValueError g.appName h.fullName
          (CmdLineArgGenerator.mk g.argv (g.current_ + 1)).deref
          (ArgFormatter.intRangeDetail minValue maxValue)), s)) ∧
    ((∃ g1 s1, AbstractCmdLineArgs.dispatch (virtuals σ) g s = (.ok (), g1, s1)) ↔
      (minValue ≤ v ∧ v ≤ maxValue)) := by
  have hd := dispatch_named_scalar (ArgFormatter.formatIntInRange nu minValue maxValue) ref s g
    h hrem hflag hnohelp hfind hdel
  have hin : minValue ≤ v ∧ v ≤ maxValue →
      AbstractCmdLineArgs.dispatch (virtuals σ) g s =
        (.ok (), { g with current_ := g.current_ + 1 + 1 },
          { s with
            values := ref.set s.values v
            namedArgs_ := s.namedArgs_.setFound g.deref true }) := by
    intro hmem
    have hnot : ¬ (v < minValue ∨ v > maxValue) := by omega
    rw [hd]
    simp only [ArgFormatter.formatIntInRange, hv, hnot, if_false]
  have hout : ¬ (minValue ≤ v ∧ v ≤ maxValue) →
      AbstractCmdLineArgs.dispatch (virtuals σ) g s =
        (.error (Exc.IllegalValueError g.appName h.fullName
          (CmdLineArgGenerator.mk g.argv (g.current_ + 1)).deref
          (ArgFormatter.intRangeDetail minValue maxValue)),
          { g with current_ := g.current_ + 1 + 1 }, s) := by
    intro hmem
    have hyes : v < minValue ∨ v > maxValue := by omega
    rw [hd]
    simp only [ArgFormatter.formatIntInRange, hv, hyes, if_true, translateError]
  refine ⟨hin, ?_, ?_⟩
  · intro hmem
    exact parse_error_at hinit hnew hreach (by omega) (hout hmem) fuel hfuel
  · constructor
    · rintro ⟨g1, s1, hok⟩
      by_contra hmem
      rw [hout hmem] at hok
      simp at hok
    · intro hmem
      exact ⟨_, _, hin hmem⟩

/-- C17 on the test `NamedSingleValueInRange`: with bounds `[-10, 10]` the token
`11` makes `parse` fail with an `IllegalValueError` carrying `11`, and the token
`10` is accepted and stored. -/
theorem C17_int_in_range_witness :
    parse 1 Sample.checked ["some_program", "-i", "11"] =
      some (.error (Exc.IllegalValueError "some_program" "integer value (-i)" "11"
        (ArgFormatter.intRangeDetail (-10) 10)),
        (Sample.checked.init_ ["some_program", "-i", "11"]).2) ∧
    (parse 1 Sample.checked ["some_program", "-i", "10"]).map
      (fun r => (r.1, r.2.values.ints 0)) = some (.ok (), 10) ∧
    (parse 1 Sample.checked ["some_program", "-i", "-10"]).map
      (fun r => (r.1, r.2.values.ints 0)) = some (.ok (), -10) :=
  ⟨(C17_int_in_range decimalNumUtil Sample.checked _ _ ["some_program", "-i", "11"] _ _ 0 []
      1 _ (Memory.intRef 0) (-10) 10 11 rfl rfl rfl (by decide) (by decide)
      (by decide) rfl rfl (by decide) (by decide)).2.1 (by decide),
   by decide, by decide⟩

/-- C18 at a failing input.  For a range-checked `int` binding with the lower
bound 0 and `INT_MAX` as upper bound, the token `-5` is refused and the detail
reads "Value must be greater than or equal to 2147483647": the branch for
an open upper bound streams `maxValue` where the lower bound 0 applies.  The
cursor operation `nextAsIntInRange` states the lower bound in the same situation.  The
two other branches state the upper bound, and both bounds. -/
theorem C18_lower_bound_detail_states_max :
    ArgFormatter.formatIntInRange decimalNumUtil 0 INT_MAX "-5" =
      .error (Exc.FormatError "-5" "Value must be greater than or equal to 2147483647") ∧
    (parse 1 Sample.checked ["some_program", "-k", "-5"]).map Prod.fst =
      some (.error (Exc.IllegalValueError "some_program" "count (-k)" "-5"
        "Value must be greater than or equal to 2147483647")) ∧
    CmdLineArgGenerator.intRangeMsg 0 INT64_MAX =
      "Must be an integer greater than or equal to 0" ∧
    ArgFormatter.intRangeDetail INT_MIN 10 = "Value must be less than or equal to 10" ∧
    ArgFormatter.intRangeDetail (-10) 10 = "Value must be between -10and 10 (inclusive)" := by
  decide

end SimpleCmdLineArgs

end Pistis

namespace Pistis

/-! ## The help flag and foreign exceptions: claims C19 and C20 -/

namespace SimpleCmdLineArgs

/-- A completed iteration sets `showUsage_` exactly when its token is a help flag,
and never clears it. -/
theorem dispatch_showUsage {σ : Type} {s s1 : SimpleCmdLineArgs σ}
    {g g1 : CmdLineArgGenerator} (hrem : g.remaining ≠ 0)
    (h : AbstractCmdLineArgs.dispatch (virtuals σ) g s = (.ok (), g1, s1)) :
    s1.showUsage_ = true ↔ (s.showUsage_ = true ∨ g.deref = "-h" ∨ g.deref = "--help") := by
  rcases dispatch_ok_cases hrem h with ⟨_, hn⟩ | ⟨hpos, hu⟩
  · unfold handleNamedArg_ at hn
    simp only [AbstractCmdLineArgs.handleNamedArg_] at hn
    by_cases hh : g.deref = "-h" ∨ g.deref = "--help"
    · simp only [hh, if_true, Prod.mk.injEq, true_and] at hn
      rw [← hn.2]
      simp [hh]
    · simp only [hh, if_false] at hn
      split at hn
      · split at hn
        · simp only [Prod.mk.injEq, true_and] at hn
          rw [← hn.2]
          simp [hh]
        · simp at hn
      · simp at hn
  · have hne : ¬ (g.deref = "-h" ∨ g.deref = "--help") := by
      rintro (hh | hh) <;> rw [hh] at hpos <;> simp [isNamedToken] at hpos
    unfold handleUnnamedArg_ at hu
    simp only [AbstractCmdLineArgs.handleUnnamedArg_] at hu
    split at hu
    · simp at hu
    · split at hu
      · simp only [Prod.mk.injEq, true_and] at hu
        rw [← hu.2]
        simp [hne]
      · simp at hu

/-- After any number of completed iterations `showUsage_` is set exactly when it
was set before or a help flag is among the tokens read at dispatch positions. -/
theorem dispatched_showUsage {σ : Type} :
    ∀ (n : Nat) (g : CmdLineArgGenerator) (s : SimpleCmdLineArgs σ) (toks : List String)
      (g1 : CmdLineArgGenerator) (s1 : SimpleCmdLineArgs σ),
      AbstractCmdLineArgs.dispatched (virtuals σ) n g s = some (toks, g1, s1) →
      (s1.showUsage_ = true ↔ (s.showUsage_ = true ∨ "-h" ∈ toks ∨ "--help" ∈ toks)) := by
  intro n
  induction n with
  | zero =>
    intro g s toks g1 s1 h
    simp only [AbstractCmdLineArgs.dispatched, Option.some.injEq, Prod.mk.injEq] at h
    obtain ⟨ht, _, hs⟩ := h
    subst ht hs
    simp
  | succ n ih =>
    intro g s toks g1 s1 h
    simp only [AbstractCmdLineArgs.dispatched] at h
    split at h
    · simp at h
    · rename_i hrem
      split at h
      · simp at h
      · rename_i g2 s2 hd
        split at h
        · simp at h
        · rename_i toks2 g3 s3 hrest
          simp only [Option.some.injEq, Prod.mk.injEq] at h
          obtain ⟨ht, hg, hs⟩ := h
          subst ht hg hs
          rw [ih g2 s2 toks2 g3 s3 hrest, dispatch_showUsage hrem hd]
          simp only [List.mem_cons]
          constructor
          · rintro ((h1 | h2 | h3) | h4 | h5)
            · exact Or.inl h1
            · exact Or.inr (Or.inl (Or.inl h2.symm))
            · exact Or.inr (Or.inr (Or.inl h3.symm))
            · exact Or.inr (Or.inl (Or.inr h4))
            · exact Or.inr (Or.inr (Or.inr h5))
          · rintro (h1 | (h2 | h4) | (h3 | h5))
            · exact Or.inl (Or.inl h1)
            · exact Or.inl (Or.inr (Or.inl h2.symm))
            · exact Or.inr (Or.inl h4)
            · exact Or.inl (Or.inr (Or.inr h3.symm))
            · exact Or.inr (Or.inr h5)

/-- C19.  For every object and token stream: (1) the state with which `parse`
enters its loop has `showUsage_` false, whatever it was before; (2) an iteration
on `-h` or `--help` ends normally, consumes that token only and changes nothing
but `showUsage_`, which it sets (bindings, their found marks and the destinations
are as they were, whether or not a binding is registered under that spelling);
(3) when `parse` returns normally, `showUsage_` is true afterwards if and only if
`-h` or `--help` is among the tokens read at dispatch positions. -/
theorem C19_show_usage {σ : Type} (a : SimpleCmdLineArgs σ) (argv : List String) :
    (a.init_ argv).2.showUsage_ = false ∧
    (∀ (g : CmdLineArgGenerator) (s : SimpleCmdLineArgs σ), g.remaining ≠ 0 →
      (g.deref = "-h" ∨ g.deref = "--help") →
      AbstractCmdLineArgs.dispatch (virtuals σ) g s =
        (.ok (), { g with current_ := g.current_ + 1 }, { s with showUsage_ := true })) ∧
    (∀ (fuel : Nat) (a1 : SimpleCmdLineArgs σ), parse fuel a argv = some (.ok (), a1) →
      ∃ g0 n toks g s, CmdLineArgGenerator.new argv = .ok g0 ∧
        AbstractCmdLineArgs.dispatched (virtuals σ) n g0 (a.init_ argv).2 = some (toks, g, s) ∧
        g.remaining = 0 ∧
        (a1.showUsage_ = true ↔ ("-h" ∈ toks ∨ "--help" ∈ toks))) := by
  refine ⟨(init_spec a _ argv _ rfl).2.2.1, ?_, ?_⟩
  · intro g s hrem hh
    have hflag : isNamedToken g.deref = true := by
      rcases hh with hh | hh <;> rw [hh] <;> decide
    unfold AbstractCmdLineArgs.dispatch
    rw [CmdLineArgGenerator.next_of_remaining hrem]
    simp only [hflag, if_true, virtuals, handleNamedArg_, AbstractCmdLineArgs.handleNamedArg_, hh]
  · intro fuel a1 hp
    obtain ⟨a0, g0, g, s, hinit, hnew, hloop, hcheck⟩ := parse_ok_inv hp
    obtain ⟨hend, n, toks, _, hreach⟩ :=
      AbstractCmdLineArgs.dispatched_of_parseLoop (virtuals σ) fuel g0 a0 g s hloop
    have h0 : a0.showUsage_ = false := (init_spec a a0 argv _ hinit).2.2.1
    refine ⟨g0, n, toks, g, s, hnew, ?_, hend, ?_⟩
    · rw [hinit]
      exact hreach
    · rw [(check_sameBindings hcheck).2, dispatched_showUsage n g0 a0 toks g s hreach, h0]
      simp

/-- C19 on three streams: `-h` at a dispatch position sets the flag and the
parse goes on with the next token; `-h` read as the value of `-l` does not set
it; a parse of an object whose flag is set starts by clearing it; and for the
stream `--help -l x` the flag after `parse` agrees with the tokens read at
dispatch positions. -/
theorem C19_show_usage_witness :
    (parse 2 Sample.collections ["some_program", "-h", "-l", "x"]).map
      (fun r => (r.1, r.2.showUsage_, r.2.values.stringLists 0)) =
        some (.ok (), true, ["x"]) ∧
    (parse 1 Sample.collections ["some_program", "-l", "-h"]).map
      (fun r => (r.1, r.2.showUsage_, r.2.values.stringLists 0)) =
        some (.ok (), false, ["-h"]) ∧
    (({ Sample.collections with showUsage_ := true } : SimpleCmdLineArgs Memory).init_
      ["some_program", "-l", "x"]).2.showUsage_ = false ∧
    (∃ g0 n toks g s,
      CmdLineArgGenerator.new ["some_program", "--help", "-l", "x"] = .ok g0 ∧
      AbstractCmdLineArgs.dispatched (virtuals Memory) n g0
        (Sample.collections.init_ ["some_program", "--help", "-l", "x"]).2 =
          some (toks, g, s) ∧
      g.remaining = 0 ∧
      (((parse 2 Sample.collections ["some_program", "--help", "-l", "x"]).getD
          (.ok (), Sample.collections)).2.showUsage_ = true ↔
        ("-h" ∈ toks ∨ "--help" ∈ toks))) :=
  ⟨by decide, by decide,
   (C19_show_usage { Sample.collections with showUsage_ := true }
      ["some_program", "-l", "x"]).1,
   (C19_show_usage Sample.collections ["some_program", "--help", "-l", "x"]).2.2 2 _ rfl⟩

/-- An exception that is none of the typed errors leaves the `catch` clauses of
the dispatcher as an `IllegalValueError` without a value whose detail is the
message of the exception, whether or not it first went through the `catch`
clauses around a custom handler. -/
theorem translateError_untyped (appName fullName : String) (e : Exc)
    (h : e.isTyped = false) :
    translateError appName fullName e = Exc.IllegalValueError appName fullName "" e.message ∧
    translateError appName fullName (wrapHandlerError e) =
      Exc.IllegalValueError appName fullName "" e.message := by
  cases e <;> simp [Exc.isTyped, Exc.isCmdLineArgError] at h <;>
    exact ⟨rfl, rfl⟩

/-- The message of an `IllegalValueError` without a value, spelled out. -/
theorem illegalValue_message_noValue (appName argName details : String) :
    (Exc.IllegalValueError appName argName "" details).message =
      (if appName ≠ "" then appName ++ ": " else "") ++
        ("Illegal value" ++
          (if argName ≠ "" then " for command-line argument " ++ argName
           else " on the command-line") ++
          (if details ≠ "" then " (" ++ details ++ ")" else "")) := by
  have hne : IllegalValueError.createMessage_ argName "" details ≠ "" := by
    unfold IllegalValueError.createMessage_
    apply left_append_ne_empty
    apply left_append_ne_empty
    apply left_append_ne_empty
    decide
  simp only [Exc.message, CmdLineArgError.createMessage_, hne, ne_eq, not_false_eq_true,
    if_true]
  simp only [IllegalValueError.createMessage_, ne_eq, not_true_eq_false, if_false,
    String.append_empty]

/-- C20.  Let the loop of `parse` stand on a token that selects the binding `h`
(a registered flag that is not a help flag, or a positional token with `h` under
the positional iterator), and let the conversion step of `h` throw an exception
`e` that is neither a `CmdLineArgError` nor a `FormatError`, either directly or
inside a custom handler.  Then `parse` fails with an `IllegalValueError` that
carries the full name of `h`, no value, and the message of `e` itself as detail
(not a message built around it); the bindings and their found marks are those
from before the iteration, so `h` is not marked found by it; and the message
reads: the program name, "Illegal value", the full name, and the message of `e`
in parentheses when it is not empty. -/
theorem C20_untyped_exception_wrapped {σ : Type} (a a0 s : SimpleCmdLineArgs σ)
    (argv : List String) (g0 g g1 : CmdLineArgGenerator) (n : Nat) (toks : List String)
    (fuel : Nat) (h : ArgHandler σ) (e : Exc) (v1 : σ)
    (hinit : a.init_ argv = (.ok (), a0))
    (hnew : CmdLineArgGenerator.new argv = .ok g0)
    (hreach : AbstractCmdLineArgs.dispatched (virtuals σ) n g0 a0 = some (toks, g, s))
    (hrem : g.remaining ≠ 0)
    (hsel : (isNamedToken g.deref = true ∧ (g.deref ≠ "-h" ∧ g.deref ≠ "--help") ∧
        s.namedArgs_.find g.deref = some h) ∨
      (isNamedToken g.deref = false ∧ s.unnamedArgs_.get? s.currentUnnamedArg_ = some h))
    (hthrow : h.handleValue { g with current_ := g.current_ + 1 } g.deref s.values =
        (.error e, g1, v1) ∨
      ∃ handler, h.handleValue = customDelegate handler ∧
        handler { g with current_ := g.current_ + 1 } g.deref s.values = (.error e, g1, v1))
    (huntyped : e.isTyped = false)
    (hfuel : n < fuel) :
    parse fuel a argv =
      some (.error (Exc.IllegalValueError g1.appName h.fullName "" e.message),
        { s with values := v1 }) ∧
    ({ s with values := v1 } : SimpleCmdLineArgs σ).namedArgs_ = s.namedArgs_ ∧
    ({ s with values := v1 } : SimpleCmdLineArgs σ).unnamedArgs_ = s.unnamedArgs_ ∧
    (Exc.IllegalValueError g1.appName h.fullName "" e.message).message =
      (if g1.appName ≠ "" then g1.appName ++ ": " else "") ++
        ("Illegal value" ++
          (if h.fullName ≠ "" then " for command-line argument " ++ h.fullName
           else " on the command-line") ++
          (if e.message ≠ "" then " (" ++ e.message ++ ")" else "")) := by
  obtain ⟨ht1, ht2⟩ := translateError_untyped g1.appName h.fullName e huntyped
  have hstep : ∃ e1, h.handleValue { g with current_ := g.current_ + 1 } g.deref s.values =
      (.error e1, g1, v1) ∧
      translateError g1.appName h.fullName e1 =
        Exc.IllegalValueError g1.appName h.fullName "" e.message := by
    rcases hthrow with hdirect | ⟨handler, hdel, hh⟩
    · exact ⟨e, hdirect, ht1⟩
    · refine ⟨wrapHandlerError e, ?_, ht2⟩
      rw [hdel]
      simp only [customDelegate, hh]
  obtain ⟨e1, hval, htr⟩ := hstep
  have hd : AbstractCmdLineArgs.dispatch (virtuals σ) g s =
      (.error (Exc.IllegalValueError g1.appName h.fullName "" e.message), g1,
        { s with values := v1 }) := by
    rcases hsel with ⟨hflag, hnohelp, hfind⟩ | ⟨hpos, hget⟩
    · rw [dispatch_named s g h hrem hflag hnohelp hfind, hval]
      simp only [htr]
    · rw [dispatch_unnamed s g h hrem hpos hget, hval]
      simp only [htr]
  exact ⟨parse_error_at hinit hnew hreach hrem hd fuel hfuel, rfl, rfl,
    illegalValue_message_noValue _ _ _⟩

/-- C20 on a binding `-x` whose custom handler consumes one token and throws a
`std::runtime_error` with the message `boom`: `parse` fails with an
`IllegalValueError` for `data (-x)` without a value and with the detail `boom`,
and `-x` is not marked found. -/
theorem C20_untyped_exception_witness :
    parse 1 Sample.checked ["some_program", "-x", "7"] =
      some (.error (Exc.IllegalValueError "some_program" "data (-x)" "" "boom"),
        { (Sample.checked.init_ ["some_program", "-x", "7"]).2 with values := Memory.zero }) ∧
    (Exc.IllegalValueError "some_program" "data (-x)" "" "boom").message =
      "some_program: Illegal value for command-line argument data (-x) (boom)" ∧
    (parse 1 Sample.checked ["some_program", "-x", "7"]).map
      (fun r => (r.2.namedArgs_.find "-x").map (fun b => b.found_)) = some (some false) :=
  ⟨(C20_untyped_exception_wrapped Sample.checked _ _ ["some_program", "-x", "7"] _ _
      (CmdLineArgGenerator.mk ["some_program", "-x", "7"] 3) 0 [] 1 _
      (Exc.StdException "boom") Memory.zero rfl rfl rfl (by decide)
      (Or.inl ⟨by decide, by decide, rfl⟩) (Or.inr ⟨Sample.throwingHandler, rfl, rfl⟩) rfl (by decide)).1,
   by decide, by decide⟩

end SimpleCmdLineArgs

end Pistis

namespace Pistis

/-! ## Registration: claims C22 to C25 -/

namespace HandlerMapType

/-- An entry found in a table is found in every extension of the table. -/
theorem find_append_of_isSome {σ : Type} (m m2 : HandlerMapType σ) (k : String)
    (h : (m.find k).isSome) : (m ++ m2).find k = m.find k := by
  induction m with
  | nil => simp [find] at h
  | cons p rest ih =>
    obtain ⟨k1, h1⟩ := p
    by_cases hk : k1 = k
    · simp [find, hk]
    · simp only [find, hk, if_false] at h
      simp only [List.cons_append, find, hk, if_false]
      exact ih h

end HandlerMapType

namespace SimpleCmdLineArgs

/-- What a call of `registerHandler_` does to the object: nothing (when it
throws), or it appends the handler to the positional list, whose last entry was
not final, or it appends the handler to the named table, which had no entry
under its spelling. -/
theorem afterRegisterHandler_cases {σ : Type} (a : SimpleCmdLineArgs σ) (h : ArgHandler σ) :
    ((∃ e, a.registerHandler_ h = .error e) ∧ afterRegisterHandler_ a h = a) ∨
    (h.argName_ = "" ∧ (a.unnamedArgs_.getLast?.map (fun l => l.final_)) ≠ some true ∧
      a.registerHandler_ h = .ok { a with unnamedArgs_ := a.unnamedArgs_ ++ [h] } ∧
      afterRegisterHandler_ a h = { a with unnamedArgs_ := a.unnamedArgs_ ++ [h] }) ∨
    (h.argName_ ≠ "" ∧ h.argName_.data.head? = some '-' ∧
      a.namedArgs_.find h.argName_ = none ∧
      a.registerHandler_ h = .ok { a with namedArgs_ := a.namedArgs_ ++ [(h.argName_, h)] } ∧
      afterRegisterHandler_ a h =
        { a with namedArgs_ := a.namedArgs_ ++ [(h.argName_, h)] }) := by
  by_cases hn : h.argName_ = ""
  · by_cases hl : (a.unnamedArgs_.getLast?.map (fun l => l.final_)) = some true
    · left
      have hreg : a.registerHandler_ h = .error (Exc.StdException
          ("Previous handler for unnamed arguments can accept any number of " ++
           "unnamed arguments, so no further handlers for unnamed arguments " ++
           "are allowed")) := by
        unfold registerHandler_
        simp only [hn, hl, if_true]
      exact ⟨⟨_, hreg⟩, by simp only [afterRegisterHandler_, hreg]⟩
    · right; left
      have hreg : a.registerHandler_ h =
          .ok { a with unnamedArgs_ := a.unnamedArgs_ ++ [h] } := by
        unfold registerHandler_
        simp only [hn, hl, if_true, if_false]
      exact ⟨hn, hl, hreg, by simp only [afterRegisterHandler_, hreg]⟩
  · by_cases hd : h.argName_.data.head? = some '-'
    · cases hf : a.namedArgs_.find h.argName_ with
      | none =>
        right; right
        have hreg : a.registerHandler_ h =
            .ok { a with namedArgs_ := a.namedArgs_ ++ [(h.argName_, h)] } := by
          unfold registerHandler_
          simp only [hn, hd, hf, if_false, ne_eq, not_true_eq_false, Option.isSome_none,
            Bool.false_eq_true]
        exact ⟨hn, hd, rfl, hreg, by simp only [afterRegisterHandler_, hreg]⟩
      | some x =>
        left
        have hreg : a.registerHandler_ h = .error (Exc.StdException
            ("Argument \"" ++ h.argName_ ++ "\" already has a handler registered for it")) := by
          unfold registerHandler_
          simp only [hn, hd, hf, if_false, ne_eq, not_true_eq_false, Option.isSome_some,
            if_true]
        exact ⟨⟨_, hreg⟩, by simp only [afterRegisterHandler_, hreg]⟩
    · left
      have hreg : a.registerHandler_ h =
          .error (Exc.UtilIllegalValueError "Named arguments must begin with a '-'") := by
        unfold registerHandler_
        simp only [hn, hd, if_false, ne_eq, not_false_eq_true, if_true]
      exact ⟨⟨_, hreg⟩, by simp only [afterRegisterHandler_, hreg]⟩

/-- A call of `registerHandler_` keeps the spellings of the named table distinct. -/
theorem afterRegisterHandler_nodup {σ : Type} (a : SimpleCmdLineArgs σ) (h : ArgHandler σ)
    (hnd : (a.namedArgs_.map Prod.fst).Nodup) :
    ((afterRegisterHandler_ a h).namedArgs_.map Prod.fst).Nodup := by
  rcases afterRegisterHandler_cases a h with ⟨_, he⟩ | ⟨_, _, _, he⟩ | ⟨_, _, hf, _, he⟩
  · rw [he]; exact hnd
  · rw [he]; exact hnd
  · rw [he]
    simp only [List.map_append, List.map_cons, List.map_nil]
    rw [List.nodup_append]
    refine ⟨hnd, List.nodup_singleton _, ?_⟩
    intro x hx hy
    simp only [List.mem_singleton] at hy
    subst hy
    exact (HandlerMapType.find_eq_none_iff _ _).mp hf hx

theorem registerAll_nodup {σ : Type} (hs : List (ArgHandler σ)) :
    ∀ (a : SimpleCmdLineArgs σ), (a.namedArgs_.map Prod.fst).Nodup →
      ((registerAll a hs).namedArgs_.map Prod.fst).Nodup := by
  induction hs with
  | nil => intro a h; exact h
  | cons h rest ih =>
    intro a hnd
    exact ih _ (afterRegisterHandler_nodup a h hnd)

/-- A call of `registerHandler_` keeps every entry that the named table holds. -/
theorem afterRegisterHandler_find {σ : Type} (a : SimpleCmdLineArgs σ) (h : ArgHandler σ)
    (k : String) (hk : (a.namedArgs_.find k).isSome) :
    (afterRegisterHandler_ a h).namedArgs_.find k = a.namedArgs_.find k := by
  rcases afterRegisterHandler_cases a h with ⟨_, he⟩ | ⟨_, _, _, he⟩ | ⟨_, _, _, _, he⟩
  · rw [he]
  · rw [he]
  · rw [he]
    exact HandlerMapType.find_append_of_isSome _ _ _ hk

theorem registerAll_find {σ : Type} (hs : List (ArgHandler σ)) :
    ∀ (a : SimpleCmdLineArgs σ) (k : String), (a.namedArgs_.find k).isSome →
      (registerAll a hs).namedArgs_.find k = a.namedArgs_.find k := by
  induction hs with
  | nil => intro a k _; rfl
  | cons h rest ih =>
    intro a k hk
    have h1 := afterRegisterHandler_find a h k hk
    have h2 := ih (afterRegisterHandler_ a h) k (by rw [h1]; exact hk)
    exact h2.trans h1

/-- A call of `registerHandler_` keeps the invariant that only the last
positional binding may be final. -/
theorem afterRegisterHandler_final {σ : Type} (a : SimpleCmdLineArgs σ) (h : ArgHandler σ)
    (hinv : ∀ i x, a.unnamedArgs_.get? i = some x → x.final_ = true →
      i + 1 = a.unnamedArgs_.length) :
    ∀ i x, (afterRegisterHandler_ a h).unnamedArgs_.get? i = some x → x.final_ = true →
      i + 1 = (afterRegisterHandler_ a h).unnamedArgs_.length := by
  rcases afterRegisterHandler_cases a h with ⟨_, he⟩ | ⟨_, hl, _, he⟩ | ⟨_, _, _, _, he⟩
  · rw [he]; exact hinv
  · rw [he]
    intro i x hx hfin
    simp only [List.length_append, List.length_singleton]
    simp only [List.get?_eq_getElem?] at hx hinv
    by_cases hi : i < a.unnamedArgs_.length
    · exfalso
      rw [List.getElem?_append_left hi] at hx
      have hlast := hinv i x hx hfin
      have : a.unnamedArgs_.getLast? = some x := by
        rw [List.getLast?_eq_getElem?]
        have : a.unnamedArgs_.length - 1 = i := by omega
        rw [this]
        exact hx
      apply hl
      rw [this]
      simp [hfin]
    · have hle : a.unnamedArgs_.length ≤ i := by omega
      rw [List.getElem?_append_right hle] at hx
      have : i - a.unnamedArgs_.length = 0 := by
        by_contra hne
        have : ([h] : List (ArgHandler σ))[i - a.unnamedArgs_.length]? = none := by
          apply List.getElem?_eq_none
          simp only [List.length_singleton]
          omega
        rw [this] at hx
        exact Option.noConfusion hx
      omega
  · rw [he]; exact hinv

theorem registerAll_final {σ : Type} (hs : List (ArgHandler σ)) :
    ∀ (a : SimpleCmdLineArgs σ),
      (∀ i x, a.unnamedArgs_.get? i = some x → x.final_ = true →
        i + 1 = a.unnamedArgs_.length) →
      ∀ i x, (registerAll a hs).unnamedArgs_.get? i = some x → x.final_ = true →
        i + 1 = (registerAll a hs).unnamedArgs_.length := by
  induction hs with
  | nil => intro a h; exact h
  | cons h rest ih =>
    intro a hinv
    exact ih _ (afterRegisterHandler_final a h hinv)

/-- C22.  Let a handler with a non-empty flag spelling be registered on an
object whose named table already holds an entry under that spelling.  The call
of `registerHandler_` (to which every registration function hands its handler)
throws, an `IllegalStateError` naming the spelling when the spelling begins with
`-`; the object, both binding collections included, is as it was.  The entry
stays what it was through any further sequence of registrations, and such a
sequence keeps the spellings of a table distinct, so that the table of an object
built from the constructor by registrations never holds a spelling twice. -/
theorem C22_duplicate_flag_rejected {σ : Type} (a : SimpleCmdLineArgs σ) (h : ArgHandler σ)
    (hnamed : h.argName_ ≠ "") (hdup : (a.namedArgs_.find h.argName_).isSome) :
    (∃ e, a.registerHandler_ h = .error e) ∧
    (h.argName_.data.head? = some '-' →
      a.registerHandler_ h = .error (Exc.StdException
        ("Argument \"" ++ h.argName_ ++ "\" already has a handler registered for it"))) ∧
    afterRegisterHandler_ a h = a ∧
    (∀ hs, (registerAll a (h :: hs)).namedArgs_.find h.argName_ =
      a.namedArgs_.find h.argName_) ∧
    (∀ hs, (a.namedArgs_.map Prod.fst).Nodup →
      ((registerAll a (h :: hs)).namedArgs_.map Prod.fst).Nodup) ∧
    (∀ (values : σ) (initValues_ checkValues_ : σ → Except Exc Unit × σ) hs,
      ((registerAll (SimpleCmdLineArgs.new values initValues_ checkValues_) hs).namedArgs_.map
        Prod.fst).Nodup) := by
  have hfail : (∃ e, a.registerHandler_ h = .error e) ∧ afterRegisterHandler_ a h = a := by
    rcases afterRegisterHandler_cases a h with hc | ⟨hc, _⟩ | ⟨_, _, hc, _⟩
    · exact hc
    · exact absurd hc hnamed
    · rw [hc] at hdup
      simp at hdup
  refine ⟨hfail.1, ?_, hfail.2, ?_, ?_, ?_⟩
  · intro hd
    unfold registerHandler_
    simp only [hnamed, hd, hdup, if_false, ne_eq, not_true_eq_false, if_true]
  · intro hs
    exact registerAll_find (h :: hs) a _ hdup
  · intro hs hnd
    exact registerAll_nodup (h :: hs) a hnd
  · intro values iv cv hs
    exact registerAll_nodup hs _ (by simp [SimpleCmdLineArgs.new])

/-- C22 on the definition `named`, which has `-i`: registering a second `-i` fails
and a later lookup of `-i` still finds the first binding. -/
theorem C22_duplicate_flag_witness :
    registerNamedArg_ ArgFormatter.formatString Sample.named "-i" "other" false
        (Memory.stringRef 3) =
      .error (Exc.StdException "Argument \"-i\" already has a handler registered for it") ∧
    afterRegisterHandler_ Sample.named
        (createDelegate_ "-i" "other" false true
          (namedScalarDelegate ArgFormatter.formatString (Memory.stringRef 3))) =
      Sample.named ∧
    ((registerAll Sample.named
        [createDelegate_ "-i" "other" false true
          (namedScalarDelegate ArgFormatter.formatString (Memory.stringRef 3))]).namedArgs_.find
        "-i").map (fun b => b.description_) = some "int value" :=
  ⟨(C22_duplicate_flag_rejected Sample.named
      (createDelegate_ "-i" "other" false true
        (namedScalarDelegate ArgFormatter.formatString (Memory.stringRef 3)))
      (by decide) (by decide)).2.1 (by decide),
   (C22_duplicate_flag_rejected Sample.named
      (createDelegate_ "-i" "other" false true
        (namedScalarDelegate ArgFormatter.formatString (Memory.stringRef 3)))
      (by decide) (by decide)).2.2.1,
   by decide⟩

/-- C23 at a failing input.  A non-empty spelling that does not begin with `-` is
refused by `registerHandler_` with the object unchanged.  The empty spelling is
not refused: `registerNamedArg_("", "count", false, v)` on a fresh object returns
normally and appends a binding to the positional list, final and with the
conversion step of a named binding, which reads its value with `args.next`.  In
a parse that binding passes over the positional token that selected it and
converts the token after it: `x 7` stores 7, and `5` alone fails with
`ValueMissingError`. -/
theorem C23_empty_spelling_registers_positional :
    (∀ (a : SimpleCmdLineArgs Memory) (h : ArgHandler Memory), h.argName_ ≠ "" →
      h.argName_.data.head? ≠ some '-' →
      a.registerHandler_ h =
        .error (Exc.UtilIllegalValueError "Named arguments must begin with a '-'") ∧
      afterRegisterHandler_ a h = a) ∧
    (registerNamedArg_ (ArgFormatter.formatInt decimalNumUtil)
        (SimpleCmdLineArgs.new Memory.zero noHook noHook) "" "count" false
        (Memory.intRef 0)).toOption.map
      (fun a => (a.namedArgs_.length,
        a.unnamedArgs_.map (fun b => (b.argName_, b.description_, b.final_)))) =
      some (0, [("", "count", true)]) ∧
    ((afterRegisterHandler_ (SimpleCmdLineArgs.new Memory.zero noHook noHook)
        (createDelegate_ "" "count" false true
          (namedScalarDelegate (ArgFormatter.formatInt decimalNumUtil)
            (Memory.intRef 0)))).unnamedArgs_.length = 1) ∧
    (parse 2 (afterRegisterHandler_ (SimpleCmdLineArgs.new Memory.zero noHook noHook)
        (createDelegate_ "" "count" false true
          (namedScalarDelegate (ArgFormatter.formatInt decimalNumUtil) (Memory.intRef 0))))
        ["some_program", "x", "7"]).map (fun r => (r.1, r.2.values.ints 0)) =
      some (.ok (), 7) ∧
    (parse 2 (afterRegisterHandler_ (SimpleCmdLineArgs.new Memory.zero noHook noHook)
        (createDelegate_ "" "count" false true
          (namedScalarDelegate (ArgFormatter.formatInt decimalNumUtil) (Memory.intRef 0))))
        ["some_program", "5"]).map Prod.fst =
      some (.error (Exc.ValueMissingError "some_program" "5")) := by
  refine ⟨?_, by decide, by decide, by decide, by decide⟩
  intro a h hn hd
  constructor
  · unfold registerHandler_
    simp only [hn, hd, if_false, ne_eq, not_false_eq_true, if_true]
  · unfold afterRegisterHandler_ registerHandler_
    simp only [hn, hd, if_false, ne_eq, not_false_eq_true, if_true]

/-- C24.  Take the object that any sequence of calls of `registerHandler_`,
those that throw included, builds from the constructor.  In its positional list
only the last entry can be final.  If the last entry is final, a further
positional registration throws an `IllegalStateError` and leaves the object,
the positional list included, as it was. -/
theorem C24_only_last_positional_final {σ : Type} (values : σ)
    (initValues_ checkValues_ : σ → Except Exc Unit × σ) (hs : List (ArgHandler σ)) :
    (∀ i x, (registerAll (SimpleCmdLineArgs.new values initValues_ checkValues_)
        hs).unnamedArgs_.get? i = some x → x.final_ = true →
      i + 1 = (registerAll (SimpleCmdLineArgs.new values initValues_ checkValues_)
        hs).unnamedArgs_.length) ∧
    (∀ h : ArgHandler σ, h.argName_ = "" →
      ((registerAll (SimpleCmdLineArgs.new values initValues_ checkValues_)
        hs).unnamedArgs_.getLast?.map (fun l => l.final_)) = some true →
      (registerAll (SimpleCmdLineArgs.new values initValues_ checkValues_) hs).registerHandler_ h =
        .error (Exc.StdException
          ("Previous handler for unnamed arguments can accept any number of " ++
           "unnamed arguments, so no further handlers for unnamed arguments " ++
           "are allowed")) ∧
      registerAll (SimpleCmdLineArgs.new values initValues_ checkValues_) (hs ++ [h]) =
        registerAll (SimpleCmdLineArgs.new values initValues_ checkValues_) hs) := by
  constructor
  · apply registerAll_final
    intro i x hx
    simp [SimpleCmdLineArgs.new] at hx
  · intro h hn hl
    have herr : (registerAll (SimpleCmdLineArgs.new values initValues_ checkValues_)
        hs).registerHandler_ h =
        .error (Exc.StdException
          ("Previous handler for unnamed arguments can accept any number of " ++
           "unnamed arguments, so no further handlers for unnamed arguments " ++
           "are allowed")) := by
      unfold registerHandler_
      simp only [hn, hl, if_true]
    refine ⟨herr, ?_⟩
    have happ : registerAll (SimpleCmdLineArgs.new values initValues_ checkValues_) (hs ++ [h]) =
        afterRegisterHandler_
          (registerAll (SimpleCmdLineArgs.new values initValues_ checkValues_) hs) h := by
      simp only [registerAll, List.foldl_append, List.foldl_cons, List.foldl_nil]
    rw [happ]
    simp only [afterRegisterHandler_, herr]

/-- C24 on a sequence of three registrations: a scalar positional binding, a
vector positional binding (final) and one more scalar positional binding.  The
third call throws and the list keeps its two entries, the last of them final. -/
theorem C24_only_last_positional_final_witness :
    ((registerAll (SimpleCmdLineArgs.new Memory.zero noHook noHook)
        [createDelegate_ "" "count" false false
           (unnamedScalarDelegate (ArgFormatter.formatInt decimalNumUtil) (Memory.intRef 0)),
         createDelegate_ "" "names" false true
           (unnamedListDelegate ArgFormatter.formatString (Memory.stringListRef 0)),
         createDelegate_ "" "extra" false false
           (unnamedScalarDelegate ArgFormatter.formatString
             (Memory.stringRef 0))]).unnamedArgs_.map
        (fun b => (b.description_, b.final_))) = [("count", false), ("names", true)] ∧
    registerAll (SimpleCmdLineArgs.new Memory.zero noHook noHook)
        ([createDelegate_ "" "count" false false
           (unnamedScalarDelegate (ArgFormatter.formatInt decimalNumUtil) (Memory.intRef 0)),
         createDelegate_ "" "names" false true
           (unnamedListDelegate ArgFormatter.formatString (Memory.stringListRef 0))] ++
         [createDelegate_ "" "extra" false false
           (unnamedScalarDelegate ArgFormatter.formatString (Memory.stringRef 0))]) =
      registerAll (SimpleCmdLineArgs.new Memory.zero noHook noHook)
        [createDelegate_ "" "count" false false
           (unnamedScalarDelegate (ArgFormatter.formatInt decimalNumUtil) (Memory.intRef 0)),
         createDelegate_ "" "names" false true
           (unnamedListDelegate ArgFormatter.formatString (Memory.stringListRef 0))] :=
  ⟨by decide,
   ((C24_only_last_positional_final Memory.zero noHook noHook
      [createDelegate_ "" "count" false false
         (unnamedScalarDelegate (ArgFormatter.formatInt decimalNumUtil) (Memory.intRef 0)),
       createDelegate_ "" "names" false true
         (unnamedListDelegate ArgFormatter.formatString (Memory.stringListRef 0))]).2
      (createDelegate_ "" "extra" false false
         (unnamedScalarDelegate ArgFormatter.formatString (Memory.stringRef 0)))
      rfl (by decide)).2⟩

end SimpleCmdLineArgs

end Pistis

namespace Pistis

/-! ## Positional registrations and value maps: claims C25 and C29 -/

namespace SimpleCmdLineArgs

/-- A registration of a handler with the empty spelling that returns has put
the handler at the end of the positional list and left the named table alone. -/
theorem registerHandler_unnamed_ok {σ : Type} {a a1 : SimpleCmdLineArgs σ} {h : ArgHandler σ}
    (hn : h.argName_ = "") (hok : a.registerHandler_ h = .ok a1) :
    a1.unnamedArgs_ = a.unnamedArgs_ ++ [h] ∧ a1.namedArgs_ = a.namedArgs_ := by
  rcases afterRegisterHandler_cases a h with ⟨⟨e, he⟩, _⟩ | ⟨_, _, hreg, _⟩ | ⟨hc, _⟩
  · rw [he] at hok
    exact Except.noConfusion hok
  · rw [hreg] at hok
    have := Except.ok.inj hok
    rw [← this]
    exact ⟨rfl, rfl⟩
  · exact absurd hn hc

/-- C25, as amended.  A positional registration that returns puts one binding
at the end of the positional list.  That binding is not final for a scalar
destination, final for a vector or a set destination registered without a
separator, and not final for a vector or a set destination registered with a
separator (the delimiter-split forms) and for a custom handler.  This holds for
every conversion `format`, hence for the plain, range-checked, set-checked,
value-map and formatter-function overloads alike. -/
theorem C25_positional_final_flags {σ α : Type} [DecidableEq α]
    (split : String → String → List String) (format : String → Except Exc α)
    (a a1 : SimpleCmdLineArgs σ) (description separator : String) (required : Bool)
    (handler : Handler σ) (s : Ref σ α) (v : Ref σ (List α)) :
    (registerUnnamedArg_ format a description required s = .ok a1 →
      ∃ b, a1.unnamedArgs_ = a.unnamedArgs_ ++ [b] ∧ b.final_ = false ∧
        b.handleValue = unnamedScalarDelegate format s) ∧
    (registerUnnamedArgList_ format a description required v = .ok a1 →
      ∃ b, a1.unnamedArgs_ = a.unnamedArgs_ ++ [b] ∧ b.final_ = true ∧
        b.handleValue = unnamedListDelegate format v) ∧
    (registerUnnamedArgSet_ format a description required v = .ok a1 →
      ∃ b, a1.unnamedArgs_ = a.unnamedArgs_ ++ [b] ∧ b.final_ = true ∧
        b.handleValue = unnamedSetDelegate format v) ∧
    (registerUnnamedArgSplitList_ split format a description required separator v = .ok a1 →
      ∃ b, a1.unnamedArgs_ = a.unnamedArgs_ ++ [b] ∧ b.final_ = false ∧
        b.handleValue = unnamedSplitDelegate split separator (pushBackPiece format v)) ∧
    (registerUnnamedArgSplitSet_ split format a description required separator v = .ok a1 →
      ∃ b, a1.unnamedArgs_ = a.unnamedArgs_ ++ [b] ∧ b.final_ = false ∧
        b.handleValue = unnamedSplitDelegate split separator (insertPiece format v)) ∧
    (registerUnnamedArgHandler_ a description required handler = .ok a1 →
      ∃ b, a1.unnamedArgs_ = a.unnamedArgs_ ++ [b] ∧ b.final_ = false ∧
        b.handleValue = customDelegate handler) := by
  refine ⟨?_, ?_, ?_, ?_, ?_, ?_⟩ <;> intro hok
  · exact ⟨_, (registerHandler_unnamed_ok rfl hok).1, rfl, rfl⟩
  · exact ⟨_, (registerHandler_unnamed_ok rfl hok).1, rfl, rfl⟩
  · exact ⟨_, (registerHandler_unnamed_ok rfl hok).1, rfl, rfl⟩
  · exact ⟨_, (registerHandler_unnamed_ok rfl hok).1, rfl, rfl⟩
  · exact ⟨_, (registerHandler_unnamed_ok rfl hok).1, rfl, rfl⟩
  · exact ⟨_, (registerHandler_unnamed_ok rfl hok).1, rfl, rfl⟩

/-- C25 (amended) on a fresh object: the registration of a string vector with
the separator `,` returns and the binding it adds is not final, the one without
a separator adds a final binding. -/
theorem C25_positional_final_flags_witness :
    (∃ b, (afterRegisterHandler_ (SimpleCmdLineArgs.new Memory.zero noHook noHook)
        (createDelegate_ "" "string values" false false
          (unnamedSplitDelegate sampleSplit ","
            (pushBackPiece ArgFormatter.formatString (Memory.stringListRef 0))))).unnamedArgs_ =
        (SimpleCmdLineArgs.new Memory.zero noHook noHook).unnamedArgs_ ++ [b] ∧
      b.final_ = false ∧
      b.handleValue = unnamedSplitDelegate sampleSplit ","
        (pushBackPiece ArgFormatter.formatString (Memory.stringListRef 0))) ∧
    (∃ b, (afterRegisterHandler_ (SimpleCmdLineArgs.new Memory.zero noHook noHook)
        (createDelegate_ "" "string value" false true
          (unnamedListDelegate ArgFormatter.formatString
            (Memory.stringListRef 0)))).unnamedArgs_ =
        (SimpleCmdLineArgs.new Memory.zero noHook noHook).unnamedArgs_ ++ [b] ∧
      b.final_ = true ∧
      b.handleValue = unnamedListDelegate ArgFormatter.formatString (Memory.stringListRef 0)) :=
  ⟨(C25_positional_final_flags sampleSplit ArgFormatter.formatString
      (SimpleCmdLineArgs.new Memory.zero noHook noHook) _ "string values" "," false
      Sample.arbitraryHandler (Memory.stringRef 0) (Memory.stringListRef 0)).2.2.2.1 rfl,
   (C25_positional_final_flags sampleSplit ArgFormatter.formatString
      (SimpleCmdLineArgs.new Memory.zero noHook noHook) _ "string value" "," false
      Sample.arbitraryHandler (Memory.stringRef 0) (Memory.stringListRef 0)).2.1 rfl⟩

/-- C25 as stated fails for the delimiter-split forms: the positional
registration of a string vector with the separator `,` creates a binding that
is not final.  In a parse it takes one token: with two such bindings the stream
`a,b c` fills the first vector with `a, b` and the second with `c`, and a third
positional token fails with `TooManyCmdLineArgsError`. -/
theorem C25_counterexample :
    (registerUnnamedArgSplitList_ sampleSplit ArgFormatter.formatString
        (SimpleCmdLineArgs.new Memory.zero noHook noHook) "string values" false ","
        (Memory.stringListRef 0)).toOption.map
      (fun a => a.unnamedArgs_.map (fun b => b.final_)) = some [false] ∧
    (registerUnnamedArgSplitSet_ sampleSplit ArgFormatter.formatString
        (SimpleCmdLineArgs.new Memory.zero noHook noHook) "string values" false ","
        (Memory.stringSetRef 0)).toOption.map
      (fun a => a.unnamedArgs_.map (fun b => b.final_)) = some [false] ∧
    (parse 2 Sample.separated ["some_program", "a,b", "c"]).map
      (fun r => (r.1, r.2.values.stringLists 0, r.2.values.stringLists 1)) =
      some (.ok (), ["a", "b"], ["c"]) ∧
    (parse 3 Sample.separated ["some_program", "a,b", "c", "d"]).map Prod.fst =
      some (.error (Exc.TooManyCmdLineArgsError "some_program")) := by
  decide

end SimpleCmdLineArgs

namespace ValueMap

/-- Looking a key up in an extended sequence of entries: the first sequence
decides when it has the key. -/
theorem find_append {α : Type} (l l2 : List (String × α)) (k : String) :
    find (l ++ l2) k = (match find l k with
      | some v => some v
      | none => find l2 k) := by
  induction l with
  | nil => simp [find]
  | cons p rest ih =>
    obtain ⟨k1, v1⟩ := p
    by_cases hk : k1 = k
    · simp [find, hk]
    · simp only [List.cons_append, find, hk, if_false]
      exact ih

theorem find_none_iff_not_key {α : Type} (l : List (String × α)) (k : String) :
    find l k = none ↔ k ∉ l.map Prod.fst := by
  induction l with
  | nil => simp [find]
  | cons p rest ih =>
    obtain ⟨k1, v1⟩ := p
    by_cases hk : k1 = k
    · simp [find, hk]
    · have hk2 : ¬ k = k1 := fun h => hk h.symm
      simp [find, hk, hk2, ih]

theorem find_of_mem {α : Type} (l : List (String × α)) (k : String) (v : α)
    (hmem : (k, v) ∈ l) (hnd : (l.map Prod.fst).Nodup) : find l k = some v := by
  induction l with
  | nil => simp at hmem
  | cons p rest ih =>
    obtain ⟨k1, v1⟩ := p
    simp only [List.map_cons, List.nodup_cons] at hnd
    rcases List.mem_cons.mp hmem with heq | hin
    · simp only [Prod.mk.injEq] at heq
      simp [find, heq.1, heq.2]
    · have hne : k1 ≠ k := by
        intro hk
        apply hnd.1
        rw [hk]
        exact List.mem_map.mpr ⟨(k, v), hin, rfl⟩
      simp only [find, hne, if_false]
      exact ih hin hnd.2

/-- The two outcomes of `setValue`: on a key that is present it throws
`ItemExistsError` for the key and the map is as it was; on a key that is absent
it returns normally and the map has the new entry. -/
theorem setValue_outcome {α : Type} (m : ValueMap α) (key : String) (value : α) :
    (m.hasValue key = true → m.setValue key value = (.error (Exc.StdException key), m)) ∧
    (m.hasValue key = false →
      m.setValue key value = (.ok (), ⟨m.values_ ++ [(key, value)]⟩)) := by
  constructor
  · intro h
    simp only [setValue, h, if_true]
  · intro h
    simp only [setValue, h, Bool.false_eq_true, if_false]

end ValueMap

end Pistis

namespace Pistis

namespace SimpleCmdLineArgs

/-- C29.  For a value map `m`: a key registered with the value `v` (an entry of
a map with distinct keys, or a key just added by `setValue`) is answered with
`v` itself, whatever the type of `v`; a key that is not registered is refused
with a `FormatError` whose value is the key and whose detail is "Legal values
are" followed by every registered key, each in double quotes and separated by a
comma and a space.  When the loop of `parse` stands on the flag of a binding
that converts with `m`, followed by a token: if the token is answered with `v`,
the iteration ends normally with `v` assigned and the binding marked found; if
the token is not a registered key, `parse` fails with an `IllegalValueError`
for the binding that carries the token and that detail, and the object is as it
was when the flag was reached. -/
theorem C29_value_map_lookup {σ α : Type} (m : ValueMap α) (a a0 s : SimpleCmdLineArgs σ)
    (argv : List String) (g0 g : CmdLineArgGenerator) (n : Nat) (toks : List String)
    (fuel : Nat) (h : ArgHandler σ) (ref : Ref σ α)
    (hinit : a.init_ argv = (.ok (), a0))
    (hnew : CmdLineArgGenerator.new argv = .ok g0)
    (hreach : AbstractCmdLineArgs.dispatched (virtuals σ) n g0 a0 = some (toks, g, s))
    (hrem : 2 ≤ g.remaining)
    (hflag : isNamedToken g.deref = true)
    (hnohelp : g.deref ≠ "-h" ∧ g.deref ≠ "--help")
    (hfind : s.namedArgs_.find g.deref = some h)
    (hdel : h.handleValue = namedScalarDelegate m.lookup ref)
    (hfuel : n < fuel) :
    (∀ k v, (k, v) ∈ m.values_ → m.allKeys.Nodup → m.lookup k = .ok v) ∧
    (∀ k v, m.hasValue k = false → (m.setValue k v).2.lookup k = .ok v) ∧
    (∀ k, k ∉ m.allKeys →
      m.lookup k =
        .error (Exc.FormatError k ("Legal values are \"" ++ join m.allKeys "\", \"" ++ "\"")) ∧
      (m.allKeys ≠ [] →
        "Legal values are \"" ++ join m.allKeys "\", \"" ++ "\"" =
          "Legal values are " ++
            ", ".intercalate (m.allKeys.map (fun x => "\"" ++ x ++ "\"")))) ∧
    (∀ v, m.lookup (CmdLineArgGenerator.mk g.argv (g.current_ + 1)).deref = .ok v →
      AbstractCmdLineArgs.dispatch (virtuals σ) g s =
        (.ok (), { g with current_ := g.current_ + 1 + 1 },
          { s with
            values := ref.set s.values v
            namedArgs_ := s.namedArgs_.setFound g.deref true })) ∧
    ((CmdLineArgGenerator.mk g.argv (g.current_ + 1)).deref ∉ m.allKeys →
      parse fuel a argv =
        some (.error (Exc.IllegalValueError g.appName h.fullName
          (CmdLineArgGenerator.mk g.argv (g.current_ + 1)).deref
          ("Legal values are \"" ++ join m.allKeys "\", \"" ++ "\"")), s)) := by
  have hmiss : ∀ k, k ∉ m.allKeys →
      m.lookup k =
        .error (Exc.FormatError k
          ("Legal values are \"" ++ join m.allKeys "\", \"" ++ "\"")) := by
    intro k hk
    have hf : ValueMap.find m.values_ k = none := (ValueMap.find_none_iff_not_key _ _).mpr hk
    simp only [ValueMap.lookup, hf]
  have hd := dispatch_named_scalar m.lookup ref s g h hrem hflag hnohelp hfind hdel
  refine ⟨?_, ?_, ?_, ?_, ?_⟩
  · intro k v hmem hnd
    simp only [ValueMap.lookup, ValueMap.find_of_mem _ k v hmem hnd]
  · intro k v hk
    have hnone : ValueMap.find m.values_ k = none := by
      simp only [ValueMap.hasValue] at hk
      cases hf : ValueMap.find m.values_ k with
      | none => rfl
      | some x =>
        rw [hf] at hk
        simp at hk
    simp only [ValueMap.setValue, hk, Bool.false_eq_true, if_false, ValueMap.lookup,
      ValueMap.find_append, hnone, ValueMap.find, if_true]
  · intro k hk
    refine ⟨hmiss k hk, ?_⟩
    intro hne
    have hq := quoted_join m.allKeys hne
    have hsplit : ("Legal values are \"" : String) = "Legal values are " ++ "\"" := by decide
    rw [hsplit, String.append_assoc, String.append_assoc, ← String.append_assoc "\"", hq]
  · intro v hv
    rw [hd, hv]
  · intro hk
    have hdisp : AbstractCmdLineArgs.dispatch (virtuals σ) g s =
        (.error (Exc.IllegalValueError g.appName h.fullName
          (CmdLineArgGenerator.mk g.argv (g.current_ + 1)).deref
          ("Legal values are \"" ++ join m.allKeys "\", \"" ++ "\"")),
          { g with current_ := g.current_ + 1 + 1 }, s) := by
      rw [hd, hmiss _ hk]
      rfl
    exact parse_error_at hinit hnew hreach (by omega) hdisp fuel hfuel

/-- C29 on the test `NamedSingleValue`: against the keys `one`, `two`, `three`
the stream `-e four` fails with an `IllegalValueError` that lists the three keys,
and `-e two` stores `TWO`. -/
theorem C29_value_map_lookup_witness :
    parse 1 Sample.enumArgs ["some_program", "-e", "four"] =
      some (.error (Exc.IllegalValueError "some_program" "enum value (-e)" "four"
        ("Legal values are \"" ++ join Sample.testEnumValueMap_.allKeys "\", \"" ++ "\"")),
        (Sample.enumArgs.init_ ["some_program", "-e", "four"]).2) ∧
    "Legal values are \"" ++ join Sample.testEnumValueMap_.allKeys "\", \"" ++ "\"" =
      "Legal values are \"one\", \"two\", \"three\"" ∧
    (parse 1 Sample.enumArgs ["some_program", "-e", "two"]).map
      (fun r => (r.1, r.2.values)) = some (.ok (), Sample.TestEnum.TWO) ∧
    Sample.testEnumValueMap_.lookup "two" = .ok Sample.TestEnum.TWO :=
  ⟨(C29_value_map_lookup Sample.testEnumValueMap_ Sample.enumArgs _ _
      ["some_program", "-e", "four"] _ _ 0 [] 1 _ ⟨fun e => e, fun _ x => x⟩
      rfl rfl rfl (by decide) (by decide) (by decide) rfl rfl (by decide)).2.2.2.2 (by decide),
   by decide, by decide, by decide⟩

end SimpleCmdLineArgs

end Pistis

namespace Pistis

/-! ## Failures inside and between conversion steps: claims C21 and C30 -/

namespace SimpleCmdLineArgs

/-- The `catch` clauses around a custom handler change nothing for the `catch`
clauses of the dispatcher. -/
theorem translateError_wrapHandlerError (appName fullName : String) (e : Exc) :
    translateError appName fullName (wrapHandlerError e) = translateError appName fullName e := by
  cases e <;> rfl

/-- A `CmdLineArgError` leaves the `catch` clauses of the dispatcher as it came. -/
theorem translateError_cmdLineArgError (appName fullName : String) (e : Exc)
    (h : e.isCmdLineArgError = true) : translateError appName fullName e = e := by
  cases e <;> first | rfl | exact Bool.noConfusion h

/-- An iteration of the loop that throws: the token was a flag without a
binding, or a positional token without a binding, or the conversion step of the
selected binding threw; only the conversion step can have changed the object,
and only its destinations. -/
theorem dispatch_error_cases {σ : Type} {s s1 : SimpleCmdLineArgs σ}
    {g g1 : CmdLineArgGenerator} {e : Exc} (hrem : g.remaining ≠ 0)
    (hd : AbstractCmdLineArgs.dispatch (virtuals σ) g s = (.error e, g1, s1)) :
    (s1 = s ∧ isNamedToken g.deref = true ∧ s.namedArgs_.find g.deref = none ∧
      e = Exc.UnknownCmdLineArgError g1.appName g.deref) ∨
    (s1 = s ∧ isNamedToken g.deref = false ∧
      s.unnamedArgs_.get? s.currentUnnamedArg_ = none ∧
      e = Exc.TooManyCmdLineArgsError g1.appName) ∨
    (∃ h e1 v1,
      ((isNamedToken g.deref = true ∧ s.namedArgs_.find g.deref = some h) ∨
        (isNamedToken g.deref = false ∧
          s.unnamedArgs_.get? s.currentUnnamedArg_ = some h)) ∧
      h.handleValue { g with current_ := g.current_ + 1 } g.deref s.values =
        (.error e1, g1, v1) ∧
      e = translateError g1.appName h.fullName e1 ∧ s1 = { s with values := v1 }) := by
  unfold AbstractCmdLineArgs.dispatch at hd
  rw [CmdLineArgGenerator.next_of_remaining hrem] at hd
  simp only [virtuals] at hd
  by_cases hflag : isNamedToken g.deref = true
  · simp only [hflag, if_true, handleNamedArg_, AbstractCmdLineArgs.handleNamedArg_] at hd
    by_cases hh : g.deref = "-h" ∨ g.deref = "--help"
    · simp only [hh, if_true] at hd
      simp at hd
    · simp only [hh, if_false] at hd
      cases hf : s.namedArgs_.find g.deref with
      | none =>
        simp only [hf, Prod.mk.injEq, Except.error.injEq] at hd
        left
        exact ⟨hd.2.2.symm, hflag, rfl, by rw [← hd.2.1]; exact hd.1.symm⟩
      | some h =>
        simp only [hf] at hd
        right; right
        rcases hv : h.handleValue { g with current_ := g.current_ + 1 } g.deref s.values with
          ⟨r, g2, v2⟩
        rw [hv] at hd
        cases r with
        | ok u => simp at hd
        | error e1 =>
          simp only [Prod.mk.injEq, Except.error.injEq] at hd
          refine ⟨h, e1, v2, Or.inl ⟨hflag, rfl⟩, ?_, ?_, hd.2.2.symm⟩
          · rw [← hd.2.1]
            exact hv
          · rw [← hd.2.1]
            exact hd.1.symm
  · have hpos : isNamedToken g.deref = false := by simpa using hflag
    simp only [hpos, Bool.false_eq_true, if_false, handleUnnamedArg_,
      AbstractCmdLineArgs.handleUnnamedArg_] at hd
    cases hf : s.unnamedArgs_.get? s.currentUnnamedArg_ with
    | none =>
      simp only [hf, Prod.mk.injEq, Except.error.injEq] at hd
      right; left
      exact ⟨hd.2.2.symm, hpos, rfl, by rw [← hd.2.1]; exact hd.1.symm⟩
    | some h =>
      simp only [hf] at hd
      right; right
      rcases hv : h.handleValue { g with current_ := g.current_ + 1 } g.deref s.values with
        ⟨r, g2, v2⟩
      rw [hv] at hd
      cases r with
      | ok u => simp at hd
      | error e1 =>
        simp only [Prod.mk.injEq, Except.error.injEq] at hd
        refine ⟨h, e1, v2, Or.inr ⟨hpos, rfl⟩, ?_, ?_, hd.2.2.symm⟩
        · rw [← hd.2.1]
          exact hv
        · rw [← hd.2.1]
          exact hd.1.symm

/-- C21, as amended.  Let the loop of `parse` stand on a token that selects the
binding `h`, and let the conversion step of `h` throw `e`, directly or inside a
custom handler.  Then `parse` fails with what the `catch` clauses of the
dispatcher make of `e`.  A `FormatError` becomes an `IllegalValueError` with the
full name of `h`, the value and the detail of the `FormatError`; an exception
that is no typed error becomes an `IllegalValueError` with the full name of `h`
and the message of the exception as detail.  A `CmdLineArgError`, such as the
`IllegalValueError` and the `ValueMissingError` that the token cursor throws,
escapes as it was thrown: it carries the label that was handed to the cursor
operation, not the full name of `h`. -/
theorem C21_conversion_failures {σ : Type} (a a0 s : SimpleCmdLineArgs σ)
    (argv : List String) (g0 g g1 : CmdLineArgGenerator) (n : Nat) (toks : List String)
    (fuel : Nat) (h : ArgHandler σ) (e : Exc) (v1 : σ)
    (hinit : a.init_ argv = (.ok (), a0))
    (hnew : CmdLineArgGenerator.new argv = .ok g0)
    (hreach : AbstractCmdLineArgs.dispatched (virtuals σ) n g0 a0 = some (toks, g, s))
    (hrem : g.remaining ≠ 0)
    (hsel : (isNamedToken g.deref = true ∧ (g.deref ≠ "-h" ∧ g.deref ≠ "--help") ∧
        s.namedArgs_.find g.deref = some h) ∨
      (isNamedToken g.deref = false ∧ s.unnamedArgs_.get? s.currentUnnamedArg_ = some h))
    (hthrow : h.handleValue { g with current_ := g.current_ + 1 } g.deref s.values =
        (.error e, g1, v1) ∨
      ∃ handler, h.handleValue = customDelegate handler ∧
        handler { g with current_ := g.current_ + 1 } g.deref s.values = (.error e, g1, v1))
    (hfuel : n < fuel) :
    parse fuel a argv =
      some (.error (translateError g1.appName h.fullName e), { s with values := v1 }) ∧
    (∀ value details, e = Exc.FormatError value details →
      translateError g1.appName h.fullName e =
        Exc.IllegalValueError g1.appName h.fullName value details) ∧
    (e.isTyped = false →
      translateError g1.appName h.fullName e =
        Exc.IllegalValueError g1.appName h.fullName "" e.message) ∧
    (e.isCmdLineArgError = true → translateError g1.appName h.fullName e = e) := by
  have hstep : ∃ e1, h.handleValue { g with current_ := g.current_ + 1 } g.deref s.values =
      (.error e1, g1, v1) ∧
      translateError g1.appName h.fullName e1 = translateError g1.appName h.fullName e := by
    rcases hthrow with hdirect | ⟨handler, hdel, hh⟩
    · exact ⟨e, hdirect, rfl⟩
    · refine ⟨wrapHandlerError e, ?_, translateError_wrapHandlerError _ _ _⟩
      rw [hdel]
      simp only [customDelegate, hh]
  obtain ⟨e1, hval, htr⟩ := hstep
  have hd : AbstractCmdLineArgs.dispatch (virtuals σ) g s =
      (.error (translateError g1.appName h.fullName e), g1, { s with values := v1 }) := by
    rcases hsel with ⟨hflag, hnohelp, hfind⟩ | ⟨hpos, hget⟩
    · rw [dispatch_named s g h hrem hflag hnohelp hfind, hval]
      simp only [htr]
    · rw [dispatch_unnamed s g h hrem hpos hget, hval]
      simp only [htr]
  refine ⟨parse_error_at hinit hnew hreach hrem hd fuel hfuel, ?_, ?_, ?_⟩
  · intro value details he
    rw [he]
    rfl
  · intro hu
    exact (translateError_untyped _ _ _ hu).1
  · intro hc
    exact translateError_cmdLineArgError _ _ _ hc

/-- C21 (amended) on the test class `UnnamedArbitraryCmdLineArgs`: on the stream
`999 bad plugh` the handler of the positional binding `data` reads `bad` with
`nextAsInt()`; the `IllegalValueError` of the cursor, whose label is empty,
ends `parse` unchanged. -/
theorem C21_conversion_failures_witness :
    parse 1 Sample.unnamedArbitrary ["some_program", "999", "bad", "plugh"] =
      some (.error (translateError "some_program" "data"
          (Exc.IllegalValueError "some_program" "" "bad" "Must be an integer")),
        { (Sample.unnamedArbitrary.init_ ["some_program", "999", "bad", "plugh"]).2 with
          values := (Memory.intRef 0).set Memory.zero 999 }) ∧
    translateError "some_program" "data"
        (Exc.IllegalValueError "some_program" "" "bad" "Must be an integer") =
      Exc.IllegalValueError "some_program" "" "bad" "Must be an integer" :=
  ⟨(C21_conversion_failures Sample.unnamedArbitrary _ _
      ["some_program", "999", "bad", "plugh"] _ _
      (CmdLineArgGenerator.mk ["some_program", "999", "bad", "plugh"] 2) 0 [] 1 _
      (Exc.IllegalValueError "some_program" "" "bad" "Must be an integer")
      ((Memory.intRef 0).set Memory.zero 999) rfl rfl rfl (by decide)
      (Or.inr ⟨by decide, rfl⟩) (Or.inr ⟨Sample.arbitraryHandler, rfl, rfl⟩) (by decide)).1,
   by decide⟩

/-- C21 as stated fails.  The positional binding `data` of the test class
`UnnamedArbitraryCmdLineArgs` has the full name `data`; its handler calls
`nextAsInt()` without a label.  On `999 bad plugh` the error that leaves `parse`
is the cursor's `IllegalValueError` with an empty name, whose message speaks of
a value "on the command-line", and on `999` alone it is a `ValueMissingError`
with an empty name.  The built-in named binding `-i`, whose full name is
`int value (-i)`, ends a stream that stops after `-i` with a `ValueMissingError`
that carries the spelling `-i` only. -/
theorem C21_counterexample :
    (Sample.unnamedArbitrary.unnamedArgs_.map (fun b => b.fullName)) = ["data"] ∧
    (parse 1 Sample.unnamedArbitrary ["some_program", "999", "bad", "plugh"]).map Prod.fst =
      some (.error (Exc.IllegalValueError "some_program" "" "bad" "Must be an integer")) ∧
    (Exc.IllegalValueError "some_program" "" "bad" "Must be an integer").message =
      "some_program: Illegal value \"bad\" on the command-line (Must be an integer)" ∧
    (parse 1 Sample.unnamedArbitrary ["some_program", "999"]).map Prod.fst =
      some (.error (Exc.ValueMissingError "some_program" "")) ∧
    (Sample.named.namedArgs_.find "-i").map (fun b => b.fullName) = some "int value (-i)" ∧
    (parse 2 Sample.named ["some_program", "-s", "x", "-i"]).map Prod.fst =
      some (.error (Exc.ValueMissingError "some_program" "-i")) ∧
    (Exc.ValueMissingError "some_program" "-i").message =
      "some_program: Value missing for -i" := by
  decide

end SimpleCmdLineArgs

end Pistis

namespace Pistis

/-! ## Scalar positional delegates and the default hook -/

namespace Dest

/-- The scalar positional delegate on a token that converts: it succeeds, leaves
the cursor alone and assigns its own variable only. -/
theorem unnamedDelegate_ok (nu : NumUtil) (d : Dest) (g : CmdLineArgGenerator)
    (tok : String) (m : Memory) (x : Value) (hf : d.format nu tok = .ok x) :
    ∃ m1, d.unnamedDelegate nu g tok m = (.ok (), g, m1) ∧
      d.read m1 = x ∧ ∀ d1, d1 ≠ d → d1.read m1 = d1.read m := by
  cases d with
  | int i =>
    simp only [format] at hf
    cases hfi : ArgFormatter.formatInt nu tok with
    | error e => rw [hfi] at hf; simp [Except.map] at hf
    | ok v =>
      rw [hfi] at hf
      simp only [Except.map, Except.ok.injEq] at hf
      subst hf
      refine ⟨(Memory.intRef i).set m v, ?_, ?_, ?_⟩
      · simp only [unnamedDelegate, SimpleCmdLineArgs.unnamedScalarDelegate, hfi]
      · simp [read, Memory.intRef]
      · intro d1 hd1
        cases d1 with
        | int j =>
          have hji : j ≠ i := fun h => hd1 (by rw [h])
          simp [read, Memory.intRef, hji]
        | string j => simp [read, Memory.intRef]
  | string i =>
    simp only [format, ArgFormatter.formatString, Except.map, Except.ok.injEq] at hf
    subst hf
    refine ⟨(Memory.stringRef i).set m tok, ?_, ?_, ?_⟩
    · simp only [unnamedDelegate, SimpleCmdLineArgs.unnamedScalarDelegate,
        ArgFormatter.formatString]
    · simp [read, Memory.stringRef]
    · intro d1 hd1
      cases d1 with
      | int j => simp [read, Memory.stringRef]
      | string j =>
        have hji : j ≠ i := fun h => hd1 (by rw [h])
        simp [read, Memory.stringRef, hji]

end Dest

namespace SimpleCmdLineArgs

/-- With the default `checkValues_`, `check_` leaves the object as it is; it
returns normally when no required binding is unmatched. -/
theorem check_noHook {σ : Type} (s : SimpleCmdLineArgs σ) (appName : String)
    (hhook : s.checkValues_ = noHook) :
    (∃ r, s.check_ appName = (r, s)) ∧
    ((∀ x ∈ s.namedArgs_.map Prod.snd, x.required_ = true → x.found_ = true) →
      (∀ x ∈ s.unnamedArgs_.drop s.currentUnnamedArg_, x.required_ = true → x.found_ = true) →
      s.check_ appName = (.ok (), s)) := by
  obtain ⟨⟨u⟩, na, un, c, iv, cv, v⟩ := s
  simp only at hhook
  subst hhook
  constructor
  · unfold check_
    simp only [AbstractCmdLineArgs.check_]
    cases firstMissing (na.map Prod.snd) with
    | some h => exact ⟨_, rfl⟩
    | none =>
      cases firstMissing (un.drop c) with
      | some h => exact ⟨_, rfl⟩
      | none => exact ⟨_, rfl⟩
  · intro h1 h2
    simp only at h1 h2
    unfold check_
    simp only [AbstractCmdLineArgs.check_, firstMissing_eq_none h1, firstMissing_eq_none h2]
    rfl

end SimpleCmdLineArgs

end Pistis

namespace Pistis

/-! ## A final positional binding: claim C26 -/

namespace HandlerMapType

end HandlerMapType

namespace SimpleCmdLineArgs

end SimpleCmdLineArgs

end Pistis

namespace Pistis

/-! ## The dispatcher of the base class: claim C32 -/

namespace AbstractCmdLineArgs

/-- The loop of `parse` over hooks that accept every token and leave the cursor
alone: the tokens are read one by one, each is handed to the named hook or to
the unnamed hook, and all of them are read at dispatch positions. -/
theorem parseLoop_accepting {S : Type} (vt : Virtuals S) (fN fU : S → String → S)
    (hN : ∀ s g arg, vt.handleNamedArg_ s g arg = (.ok true, g, fN s arg))
    (hU : ∀ s g arg, vt.handleUnnamedArg_ s g arg = (.ok true, g, fU s arg)) :
    ∀ (toks pre : List String) (s : S),
      (∀ fuel, toks.length ≤ fuel →
        parseLoop vt fuel ⟨pre ++ toks, (pre.length : Int)⟩ s =
          some (.ok (), ⟨pre ++ toks, ((pre ++ toks).length : Int)⟩,
            toks.foldl (fun st t => if isNamedToken t then fN st t else fU st t) s)) ∧
      dispatched vt toks.length ⟨pre ++ toks, (pre.length : Int)⟩ s =
        some (toks, ⟨pre ++ toks, ((pre ++ toks).length : Int)⟩,
          toks.foldl (fun st t => if isNamedToken t then fN st t else fU st t) s) := by
  intro toks
  induction toks with
  | nil =>
    intro pre s
    have hrem : (CmdLineArgGenerator.mk (pre ++ []) (pre.length : Int)).remaining = 0 := by
      simp [CmdLineArgGenerator.remaining, CmdLineArgGenerator.end_]
    constructor
    · intro fuel _
      unfold parseLoop
      simp only [hrem, if_true]
      simp
    · simp [dispatched]
  | cons t rest ih =>
    intro pre s
    have hrem0 : (CmdLineArgGenerator.mk (pre ++ t :: rest) (pre.length : Int)).remaining ≠ 0 := by
      simp only [CmdLineArgGenerator.remaining, CmdLineArgGenerator.end_, List.length_append,
        List.length_cons]
      push_cast
      omega
    have hderef : (CmdLineArgGenerator.mk (pre ++ t :: rest) (pre.length : Int)).deref = t :=
      CmdLineArgGenerator.deref_at_length pre t rest
    have hd : dispatch vt ⟨pre ++ t :: rest, (pre.length : Int)⟩ s =
        (.ok (), ⟨pre ++ t :: rest, (pre.length : Int) + 1⟩,
          if isNamedToken t then fN s t else fU s t) := by
      unfold dispatch
      rw [CmdLineArgGenerator.next_of_remaining hrem0, hderef]
      by_cases hn : isNamedToken t = true
      · simp only [hn, if_true, hN]
      · simp only [hn, Bool.false_eq_true, if_false, hU]
    have hargv2 : pre ++ [t] ++ rest = pre ++ t :: rest := by simp
    have hlen2 : ((pre ++ [t]).length : Int) = (pre.length : Int) + 1 := by simp
    obtain ⟨ihl, ihd⟩ := ih (pre ++ [t]) (if isNamedToken t then fN s t else fU s t)
    rw [hargv2, hlen2] at ihd
    constructor
    · intro fuel hfuel
      obtain ⟨f, rfl⟩ : ∃ f, fuel = f + 1 :=
        ⟨fuel - 1, by simp only [List.length_cons] at hfuel; omega⟩
      have ihf := ihl f (by simp only [List.length_cons] at hfuel; omega)
      rw [hargv2, hlen2] at ihf
      unfold parseLoop
      simp only [hrem0, if_false, hd, ihf, List.foldl_cons]
    · simp only [List.length_cons, dispatched, hrem0, if_false, hd, ihd, hderef,
        List.foldl_cons]

/-- C32.  Take a dispatcher whose named and unnamed hooks return `true` on every
token and leave the cursor where it is (`fN` and `fU` are what they do to the
object), and whose `init_` returns normally.  Then on the stream `toks` the
loop of `parse` runs one iteration per token (so that many iterations are
enough for `parse` to end): the tokens read at dispatch positions are the
tokens of the stream, in order; a token goes to the named hook exactly if it is
not empty and begins with `-`, and to the unnamed hook otherwise; and `parse`
ends with what `check_` gives on the object that `init_` left, changed by these
calls in the order of the stream. -/
theorem C32_tokens_delivered_in_order {S : Type} (vt : Virtuals S) (fN fU : S → String → S)
    (s s0 : S) (app : String) (toks : List String) (fuel : Nat)
    (hN : ∀ s g arg, vt.handleNamedArg_ s g arg = (.ok true, g, fN s arg))
    (hU : ∀ s g arg, vt.handleUnnamedArg_ s g arg = (.ok true, g, fU s arg))
    (hI : vt.init_ s (app :: toks) = (.ok (), s0))
    (hfuel : toks.length ≤ fuel) :
    parse vt fuel s (app :: toks) =
      some (vt.check_
        (toks.foldl (fun st t => if isNamedToken t then fN st t else fU st t) s0) app) ∧
    dispatched vt toks.length ⟨app :: toks, 1⟩ s0 =
      some (toks, ⟨app :: toks, ((app :: toks).length : Int)⟩,
        toks.foldl (fun st t => if isNamedToken t then fN st t else fU st t) s0) ∧
    (∀ t : String, isNamedToken t = true ↔ (t ≠ "" ∧ t.data.head? = some '-')) := by
  obtain ⟨hl, hdisp⟩ := parseLoop_accepting vt fN fU hN hU toks [app] s0
  have hloop := hl fuel hfuel
  simp only [List.singleton_append, List.length_singleton, Nat.cast_one] at hloop hdisp
  refine ⟨?_, hdisp, ?_⟩
  · have hnew : CmdLineArgGenerator.new (app :: toks) = .ok ⟨app :: toks, 1⟩ := by
      simp [CmdLineArgGenerator.new]
    simp only [parse, hI, hnew, hloop]
    rfl
  · intro t
    obtain ⟨cs⟩ := t
    cases cs with
    | nil => simp [isNamedToken]
    | cons c cs =>
      have hne : (String.mk (c :: cs)) ≠ "" := by
        intro h
        have := congrArg String.data h
        simp at this
      simp [isNamedToken, hne]

/-- C32 on the stream of the test `ParseSuccessfully` with an empty token and a
lone `-` added: the log of the recording dispatcher is the call of `init_`, one
call per token in stream order (the empty token to the unnamed hook, `-` to the
named hook), and the call of `check_`. -/
theorem C32_tokens_delivered_witness :
    parse Sample.recorder 9 []
        ["MyApplication", "-a", "someValue", "-c", "anotherValue", "", "-", "-b",
          "thirdValue", "filename.txt"] =
      some (.ok (),
        [Sample.Event.init ["MyApplication", "-a", "someValue", "-c", "anotherValue", "", "-",
            "-b", "thirdValue", "filename.txt"],
          .named "-a", .unnamed "someValue", .named "-c", .unnamed "anotherValue",
          .unnamed "", .named "-", .named "-b", .unnamed "thirdValue",
          .unnamed "filename.txt", .check "MyApplication"]) :=
  (C32_tokens_delivered_in_order Sample.recorder
    (fun s arg => s ++ [Sample.Event.named arg]) (fun s v => s ++ [Sample.Event.unnamed v])
    [] _ "MyApplication"
    ["-a", "someValue", "-c", "anotherValue", "", "-", "-b", "thirdValue", "filename.txt"] 9
    (fun _ _ _ => rfl) (fun _ _ _ => rfl) rfl (by decide)).1

end AbstractCmdLineArgs

/-! ## Names, values after a flag, and the `int` conversion: claims C34, C35, C39 -/

namespace ArgHandler

/-- C34.  The full name of a binding is its description followed by its flag
spelling in parentheses when both are non-empty, the description when only the
description is non-empty, and the flag spelling otherwise, which is the empty
string when both are empty. -/
theorem C34_full_name {σ : Type} (h : ArgHandler σ) :
    (h.argName_ ≠ "" ∧ h.description_ ≠ "" →
      h.fullName = h.description_ ++ " (" ++ h.argName_ ++ ")") ∧
    (h.argName_ = "" ∧ h.description_ ≠ "" → h.fullName = h.description_) ∧
    (h.description_ = "" → h.fullName = h.argName_) ∧
    (h.argName_ = "" ∧ h.description_ = "" → h.fullName = "") := by
  refine ⟨?_, ?_, ?_, ?_⟩
  · intro hb
    simp only [fullName, hb, ne_eq, not_false_eq_true, and_self, if_true]
  · rintro ⟨ha, hd⟩
    simp only [fullName, ha, hd, ne_eq, not_true_eq_false, false_and, if_false,
      not_false_eq_true, if_true]
  · intro hd
    simp only [fullName, hd, ne_eq, not_true_eq_false, and_false, if_false]
  · rintro ⟨ha, hd⟩
    simp only [fullName, ha, hd, ne_eq, not_true_eq_false, and_false, if_false]

/-- C34 on the four cases. -/
theorem C34_full_name_witness :
    (SimpleCmdLineArgs.createDelegate_ "-i" "int value" true true
      (Dest.namedDelegate decimalNumUtil (.int 0))).fullName = "int value (-i)" ∧
    (SimpleCmdLineArgs.createDelegate_ "" "count" true false
      (Dest.unnamedDelegate decimalNumUtil (.int 0))).fullName = "count" ∧
    (SimpleCmdLineArgs.createDelegate_ "-i" "" true true
      (Dest.namedDelegate decimalNumUtil (.int 0))).fullName = "-i" ∧
    (SimpleCmdLineArgs.createDelegate_ "" "" true false
      (Dest.unnamedDelegate decimalNumUtil (.int 0))).fullName = "" :=
  ⟨(C34_full_name _).1 (by decide), (C34_full_name _).2.1 (by decide),
   (C34_full_name _).2.2.1 rfl, (C34_full_name _).2.2.2 (by decide)⟩

end ArgHandler

namespace ArgFormatter

/-- The conversion to `int` gives the value of the 32-bit range that differs from
its argument by a multiple of `2^32`. -/
theorem toInt32_spec (v : Int) :
    (toInt32 v - v) % 2 ^ 32 = 0 ∧ INT_MIN ≤ toInt32 v ∧ toInt32 v ≤ INT_MAX ∧
    (INT_MIN ≤ v ∧ v ≤ INT_MAX → toInt32 v = v) := by
  simp only [toInt32, INT_MIN, INT_MAX]
  refine ⟨?_, ?_, ?_, ?_⟩ <;> omega

/-- C39.  Let the quiet 64-bit conversion of the utility library read the token
as `v`.  The plain `int` conversion then accepts the token and returns `v`
reduced to 32 bits: the value in `[INT_MIN, INT_MAX]` that differs from `v` by a
multiple of `2^32`, which is `v` itself when `v` is in that range; no branch
refuses a `v` outside it.  The range-checked and the set-checked conversion
test the reduced value, not `v`. -/
theorem C39_int_reduced_modulo_2_32 (nu : NumUtil) (tok : String) (v : Int)
    (hv : nu.toInt64Quietly tok = (v, NumConversionResult.OK)) :
    formatInt nu tok = .ok (toInt32 v) ∧
    (toInt32 v - v) % 2 ^ 32 = 0 ∧ INT_MIN ≤ toInt32 v ∧ toInt32 v ≤ INT_MAX ∧
    (INT_MIN ≤ v ∧ v ≤ INT_MAX → toInt32 v = v) ∧
    (∀ minValue maxValue,
      formatIntInRange nu minValue maxValue tok =
        if toInt32 v < minValue ∨ toInt32 v > maxValue then
          .error (Exc.FormatError tok (intRangeDetail minValue maxValue))
        else .ok (toInt32 v)) ∧
    (∀ legalValues,
      formatIntInSet nu legalValues tok =
        if toInt32 v ∉ legalValues then
          .error (Exc.FormatError tok
            ("Legal values are " ++ join (legalValues.map (fun x => toString x)) ", "))
        else .ok (toInt32 v)) := by
  have hf : formatInt nu tok = .ok (toInt32 v) := by
    simp only [formatInt, hv]
  obtain ⟨h1, h2, h3, h4⟩ := toInt32_spec v
  refine ⟨hf, h1, h2, h3, h4, ?_, ?_⟩
  · intro lo hi
    simp only [formatIntInRange, hf]
  · intro L
    simp only [formatIntInSet, hf]

/-- C39 on the token `4294967296`, which is `2^32`: the plain conversion yields 0,
the conversion with the range `[-10, 10]` accepts it as 0, and `4294967306`
passes the membership check against 10 and 20 as 10. -/
theorem C39_int_reduced_witness :
    formatInt decimalNumUtil "4294967296" = .ok 0 ∧
    formatIntInRange decimalNumUtil (-10) 10 "4294967296" = .ok 0 ∧
    formatIntInSet decimalNumUtil [10, 20] "4294967306" = .ok 10 ∧
    formatInt decimalNumUtil "2147483648" = .ok (-2147483648) :=
  ⟨(C39_int_reduced_modulo_2_32 decimalNumUtil "4294967296" 4294967296 (by decide)).1,
   by decide, by decide,
   (C39_int_reduced_modulo_2_32 decimalNumUtil "2147483648" 2147483648 (by decide)).1⟩

end ArgFormatter

namespace SimpleCmdLineArgs

/-- C35.  Let the loop stand on the flag of a scalar named binding, followed by
a token that converts under the binding's type, whatever its first character.
The iteration consumes both tokens, assigns the conversion and marks the
binding found; `showUsage_` and everything else are as before, no error is
raised, and of the two tokens only the flag was read at a dispatch position. -/
theorem C35_value_after_flag_not_classified {σ α : Type} (format : String → Except Exc α)
    (ref : Ref σ α) (s : SimpleCmdLineArgs σ) (g : CmdLineArgGenerator) (h : ArgHandler σ)
    (x : α)
    (hrem : 2 ≤ g.remaining) (hflag : isNamedToken g.deref = true)
    (hnohelp : g.deref ≠ "-h" ∧ g.deref ≠ "--help")
    (hfind : s.namedArgs_.find g.deref = some h)
    (hdel : h.handleValue = namedScalarDelegate format ref)
    (hconv : format (CmdLineArgGenerator.mk g.argv (g.current_ + 1)).deref = .ok x) :
    AbstractCmdLineArgs.dispatch (virtuals σ) g s =
      (.ok (), { g with current_ := g.current_ + 1 + 1 },
        { s with
          values := ref.set s.values x
          namedArgs_ := s.namedArgs_.setFound g.deref true }) ∧
    AbstractCmdLineArgs.dispatched (virtuals σ) 1 g s =
      some ([g.deref], { g with current_ := g.current_ + 1 + 1 },
        { s with
          values := ref.set s.values x
          namedArgs_ := s.namedArgs_.setFound g.deref true }) ∧
    ({ s with
        values := ref.set s.values x
        namedArgs_ := s.namedArgs_.setFound g.deref true } : SimpleCmdLineArgs σ).showUsage_ =
      s.showUsage_ := by
  have hd : AbstractCmdLineArgs.dispatch (virtuals σ) g s =
      (.ok (), { g with current_ := g.current_ + 1 + 1 },
        { s with
          values := ref.set s.values x
          namedArgs_ := s.namedArgs_.setFound g.deref true }) := by
    rw [dispatch_named_scalar format ref s g h hrem hflag hnohelp hfind hdel, hconv]
  have hrem0 : g.remaining ≠ 0 := by omega
  refine ⟨hd, ?_, rfl⟩
  simp only [AbstractCmdLineArgs.dispatched, hrem0, if_false, hd]

/-- C35 on the stream `-i -3 -s -h`: the `int` variable holds -3, the string
variable holds `-h`, `parse` returns normally and `showUsage_` is false. -/
theorem C35_value_after_flag_witness :
    (parse 2 Sample.named ["some_program", "-i", "-3", "-s", "-h"]).map
      (fun r => (r.1, r.2.values.ints 0, r.2.values.strings 0, r.2.showUsage_)) =
      some (.ok (), -3, "-h", false) ∧
    AbstractCmdLineArgs.dispatched (virtuals Memory) 1
        ⟨["some_program", "-i", "-3", "-s", "-h"], 1⟩
        (Sample.named.init_ ["some_program", "-i", "-3", "-s", "-h"]).2 =
      some (["-i"], ⟨["some_program", "-i", "-3", "-s", "-h"], 1 + 1 + 1⟩,
        { (Sample.named.init_ ["some_program", "-i", "-3", "-s", "-h"]).2 with
          values := (Memory.intRef 0).set Memory.zero (-3)
          namedArgs_ := (Sample.named.init_
            ["some_program", "-i", "-3", "-s", "-h"]).2.namedArgs_.setFound "-i" true }) :=
  ⟨by decide,
   (C35_value_after_flag_not_classified (ArgFormatter.formatInt decimalNumUtil)
      (Memory.intRef 0) (Sample.named.init_ ["some_program", "-i", "-3", "-s", "-h"]).2
      ⟨["some_program", "-i", "-3", "-s", "-h"], 1⟩ _ (-3) (by decide) (by decide)
      (by decide) rfl rfl (by decide)).2.1⟩

end SimpleCmdLineArgs

end Pistis

namespace Pistis

/-! ## Custom handlers and the help flag: claims C33, C36 -/

namespace SimpleCmdLineArgs

/-- An iteration of the loop on `-h` or `--help`: the base class accepts the
token and sets `showUsage_`; no binding is consulted. -/
theorem dispatch_help {σ : Type} (s : SimpleCmdLineArgs σ) (g : CmdLineArgGenerator)
    (hrem : g.remaining ≠ 0) (hh : g.deref = "-h" ∨ g.deref = "--help") :
    AbstractCmdLineArgs.dispatch (virtuals σ) g s =
      (.ok (), { g with current_ := g.current_ + 1 }, { s with showUsage_ := true }) := by
  have hflag : isNamedToken g.deref = true := by
    rcases hh with hh | hh <;> rw [hh] <;> decide
  unfold AbstractCmdLineArgs.dispatch
  rw [CmdLineArgGenerator.next_of_remaining hrem]
  simp only [hflag, if_true, virtuals, handleNamedArg_, AbstractCmdLineArgs.handleNamedArg_, hh]

/-- Once the loop of a parse has read all its tokens without error, a required
binding that is absent from them makes `check_` fail: the parse ends with
`RequiredCmdLineArgMissingError` for a required binding that was not found. -/
theorem parse_required_absent {σ : Type} (a1 a0 s : SimpleCmdLineArgs σ)
    (argv : List String) (g0 g : CmdLineArgGenerator) (n : Nat) (toks : List String)
    (fuel : Nat)
    (hinit : a1.init_ argv = (.ok (), a0))
    (hnew : CmdLineArgGenerator.new argv = .ok g0)
    (hreach : AbstractCmdLineArgs.dispatched (virtuals σ) n g0 a0 = some (toks, g, s))
    (hend : g.remaining = 0) (hfuel : n ≤ fuel)
    (habsent :
      (∃ k h, (k, h) ∈ a1.namedArgs_ ∧ h.required_ = true ∧ k ∉ toks) ∨
      (∃ i h, a1.unnamedArgs_.get? i = some h ∧ h.required_ = true ∧
        (toks.filter (fun t => !isNamedToken t)).length ≤ i)) :
    ∃ h, (h ∈ s.namedArgs_.map Prod.snd ∨ h ∈ s.unnamedArgs_) ∧
      h.required_ = true ∧ h.found_ = false ∧
      parse fuel a1 argv =
        some (.error (Exc.RequiredCmdLineArgMissingError g.appName h.fullName), s) := by
  obtain ⟨hsame0, hcur0, _, hnf0, huf0⟩ := init_spec a1 a0 argv _ hinit
  obtain ⟨hfb, hsame⟩ := foundBefore_of_dispatched hinit hreach
  have hloop := parseLoop_of_dispatched_end hreach hend hfuel
  have hparse : parse fuel a1 argv = some (check_ s g.appName) := by
    have hi : (virtuals σ).init_ a1 argv = (.ok (), a0) := hinit
    simp only [parse, AbstractCmdLineArgs.parse, hi, hnew, hloop]
    rfl
  have hmiss : ∃ h, (h ∈ s.namedArgs_.map Prod.snd ∨ h ∈ s.unnamedArgs_) ∧
      h.required_ = true ∧ h.found_ = false := by
    rcases habsent with ⟨k, h, hmem, hreq, hk⟩ | ⟨i, h, hget, hreq, hcount⟩
    · have hm : (k, h.setFound false) ∈
          a1.namedArgs_.map (fun p => (p.1, p.2.setFound false)) :=
        List.mem_map.mpr ⟨(k, h), hmem, rfl⟩
      rw [← hsame.1] at hm
      obtain ⟨p, hp, hpe⟩ := List.mem_map.mp hm
      simp only [Prod.mk.injEq] at hpe
      refine ⟨p.2, Or.inl (List.mem_map.mpr ⟨p, hp, rfl⟩), ?_, ?_⟩
      · have := congrArg ArgHandler.required_ hpe.2
        simp only [ArgHandler.setFound] at this
        rw [this, hreq]
      · cases hpf : p.2.found_ with
        | false => rfl
        | true =>
          exfalso
          rcases dispatched_found_named n g0 a0 toks g s hreach p hp hpf with hin | ⟨q, hq, _, hqf⟩
          · rw [hpe.1] at hin
            exact hk hin
          · rw [hnf0 q hq] at hqf
            exact Bool.noConfusion hqf
    · have hm : (a1.unnamedArgs_.map (fun x => x.setFound false)).get? i =
          some (h.setFound false) := by
        simp [List.get?_eq_getElem?] at hget ⊢
        exact ⟨h, hget, rfl⟩
      rw [← hsame.2.1] at hm
      simp only [List.get?_eq_getElem?, List.getElem?_map, Option.map_eq_some'] at hm
      obtain ⟨x, hx, hxe⟩ := hm
      refine ⟨x, Or.inr (List.mem_iff_getElem?.mpr ⟨i, hx⟩), ?_, ?_⟩
      · have := congrArg ArgHandler.required_ hxe
        simp only [ArgHandler.setFound] at this
        rw [this, hreq]
      · cases hxf : x.found_ with
        | false => rfl
        | true =>
          exfalso
          have hstart : ∀ j y, a0.unnamedArgs_.get? j = some y → y.found_ = true → j < 0 := by
            intro j y hy hyf
            have := huf0 y (List.mem_iff_get?.mpr ⟨j, hy⟩)
            rw [this] at hyf
            exact Bool.noConfusion hyf
          have := (dispatched_found_unnamed n g0 a0 toks g s 0 (by omega) hstart hreach).2 i x
            (by rw [List.get?_eq_getElem?]; exact hx) hxf
          omega
  obtain ⟨h, h1, h2, h3, h4⟩ := check_of_missing s g.appName hfb hmiss
  exact ⟨h, h1, h2, h3, by rw [hparse, h4]⟩

/-- C33.  Let the token at a dispatch position be a flag other than `-h` and
`--help`, bound to a caller-supplied handler (the delegate of the custom-handler
registration), and let the handler, started on the cursor just after the flag,
return normally after extracting `N` further tokens.  Then the iteration ends
normally with the cursor `N + 1` tokens further, the destinations as the
handler left them and the binding marked found; the `N + 1` tokens are gone from
what remains; and the tokens that the loop goes on to read at dispatch positions
are the flag followed by what it reads from the position after those `N` tokens,
so none of the `N` tokens is classified as a flag or as a positional value. -/
theorem C33_custom_handler_consumes_tokens {σ : Type} (s : SimpleCmdLineArgs σ)
    (g : CmdLineArgGenerator) (h : ArgHandler σ) (handler : Handler σ) (N : Nat) (v1 : σ)
    (hrem : g.remaining ≠ 0) (hflag : isNamedToken g.deref = true)
    (hnohelp : g.deref ≠ "-h" ∧ g.deref ≠ "--help")
    (hfind : s.namedArgs_.find g.deref = some h)
    (hdel : h.handleValue = customDelegate handler)
    (hrun : handler { g with current_ := g.current_ + 1 } g.deref s.values =
      (.ok (), { g with current_ := g.current_ + 1 + N }, v1)) :
    AbstractCmdLineArgs.dispatch (virtuals σ) g s =
      (.ok (), { g with current_ := g.current_ + 1 + N },
        { s with values := v1, namedArgs_ := s.namedArgs_.setFound g.deref true }) ∧
    ({ g with current_ := g.current_ + 1 + N } : CmdLineArgGenerator).remaining =
      g.remaining - (N + 1) ∧
    ∀ k, AbstractCmdLineArgs.dispatched (virtuals σ) (k + 1) g s =
      (AbstractCmdLineArgs.dispatched (virtuals σ) k { g with current_ := g.current_ + 1 + N }
        { s with values := v1, namedArgs_ := s.namedArgs_.setFound g.deref true }).map
        (fun r => (g.deref :: r.1, r.2)) := by
  have hd : AbstractCmdLineArgs.dispatch (virtuals σ) g s =
      (.ok (), { g with current_ := g.current_ + 1 + N },
        { s with values := v1, namedArgs_ := s.namedArgs_.setFound g.deref true }) := by
    rw [dispatch_named s g h hrem hflag hnohelp hfind, hdel]
    simp only [customDelegate, hrun]
  refine ⟨hd, ?_, ?_⟩
  · simp only [CmdLineArgGenerator.remaining, CmdLineArgGenerator.end_]
    omega
  · intro k
    simp only [AbstractCmdLineArgs.dispatched, hrem, if_false, hd]
    cases AbstractCmdLineArgs.dispatched (virtuals σ) k
        { g with current_ := g.current_ + 1 + N }
        { s with values := v1, namedArgs_ := s.namedArgs_.setFound g.deref true } with
    | none => rfl
    | some r => rfl

/-- C33 on the instance of the test `NamedArbitrary` and the stream
`-x 999 -7 -h -s -x`: the handler of `-x` extracts the three tokens `999`, `-7`
and `-h`; the parse returns normally with them in the destinations of `-x` and
`-x` as the value of `-s`, `showUsage_` stays false, and the tokens read at
dispatch positions are `-x` and `-s` only. -/
theorem C33_custom_handler_witness :
    (parse 2 Sample.namedArbitrary
        ["some_program", "-x", "999", "-7", "-h", "-s", "-x"]).map
      (fun r => (r.1, r.2.values.ints 0, r.2.values.ints 1, r.2.values.strings 0,
        r.2.values.strings 1, r.2.showUsage_)) =
      some (.ok (), 999, -7, "-h", "-x", false) ∧
    (AbstractCmdLineArgs.dispatched (virtuals Memory) 2
        ⟨["some_program", "-x", "999", "-7", "-h", "-s", "-x"], 1⟩
        (Sample.namedArbitrary.init_
          ["some_program", "-x", "999", "-7", "-h", "-s", "-x"]).2).map
      (fun r => (r.1, r.2.1.current_)) = some (["-x", "-s"], 7) ∧
    (AbstractCmdLineArgs.dispatch (virtuals Memory)
        ⟨["some_program", "-x", "999", "-7", "-h", "-s", "-x"], 1⟩
        (Sample.namedArbitrary.init_
          ["some_program", "-x", "999", "-7", "-h", "-s", "-x"]).2).2.1.current_ = 5 :=
  ⟨by decide, by decide,
    congrArg (fun r => r.2.1.current_)
      (C33_custom_handler_consumes_tokens
        (Sample.namedArbitrary.init_
          ["some_program", "-x", "999", "-7", "-h", "-s", "-x"]).2
        ⟨["some_program", "-x", "999", "-7", "-h", "-s", "-x"], 1⟩ _
        Sample.namedArbitraryHandler 3 _ (by decide) (by decide) (by decide) rfl rfl rfl).1⟩

/-- C36.  Let the loop of a parse read all its tokens without error, `-h` or
`--help` among those read at dispatch positions, and let a required binding be
absent from them (a named one whose flag is not among the tokens read at
dispatch positions, or the positional one number `i` when at most `i`
positional tokens were read).  Then `showUsage_` is true when the loop ends, and
the parse still fails with `RequiredCmdLineArgMissingError` for a required
binding that was not matched; the object is left with `showUsage_` true. -/
theorem C36_help_does_not_suppress_required {σ : Type} (a a0 s : SimpleCmdLineArgs σ)
    (argv : List String) (g0 g : CmdLineArgGenerator) (n : Nat) (toks : List String)
    (fuel : Nat)
    (hinit : a.init_ argv = (.ok (), a0))
    (hnew : CmdLineArgGenerator.new argv = .ok g0)
    (hreach : AbstractCmdLineArgs.dispatched (virtuals σ) n g0 a0 = some (toks, g, s))
    (hend : g.remaining = 0) (hfuel : n ≤ fuel)
    (hhelp : "-h" ∈ toks ∨ "--help" ∈ toks)
    (habsent :
      (∃ k h, (k, h) ∈ a.namedArgs_ ∧ h.required_ = true ∧ k ∉ toks) ∨
      (∃ i h, a.unnamedArgs_.get? i = some h ∧ h.required_ = true ∧
        (toks.filter (fun t => !isNamedToken t)).length ≤ i)) :
    s.showUsage_ = true ∧
    ∃ h, (h ∈ s.namedArgs_.map Prod.snd ∨ h ∈ s.unnamedArgs_) ∧
      h.required_ = true ∧ h.found_ = false ∧
      parse fuel a argv =
        some (.error (Exc.RequiredCmdLineArgMissingError g.appName h.fullName), s) :=
  ⟨(dispatched_showUsage n g0 a0 toks g s hreach).mpr (Or.inr hhelp),
    parse_required_absent a a0 s argv g0 g n toks fuel hinit hnew hreach hend hfuel habsent⟩

/-- C36 on the instance of the test `NamedSingleValue` and the stream `-h -s x`:
the required `-i` is absent, the parse fails with
`RequiredCmdLineArgMissingError` and leaves `showUsage_` true. -/
theorem C36_help_does_not_suppress_witness :
    ∃ (g : CmdLineArgGenerator) (s : SimpleCmdLineArgs Memory),
      AbstractCmdLineArgs.dispatched (virtuals Memory) 2 ⟨["some_program", "-h", "-s", "x"], 1⟩
        (Sample.named.init_ ["some_program", "-h", "-s", "x"]).2 =
          some (["-h", "-s"], g, s) ∧
      s.showUsage_ = true ∧
      ∃ h, (h ∈ s.namedArgs_.map Prod.snd ∨ h ∈ s.unnamedArgs_) ∧
        h.required_ = true ∧ h.found_ = false ∧
        parse 2 Sample.named ["some_program", "-h", "-s", "x"] =
          some (.error (Exc.RequiredCmdLineArgMissingError g.appName h.fullName), s) :=
  ⟨_, _, rfl,
    C36_help_does_not_suppress_required Sample.named _ _ ["some_program", "-h", "-s", "x"]
      _ _ 2 ["-h", "-s"] 2 rfl rfl rfl (by decide) (by decide)
      (Or.inl (List.mem_cons_self _ _))
      (Or.inl ⟨"-i", _, List.mem_cons_self _ _, rfl, by decide⟩)⟩

end SimpleCmdLineArgs

end Pistis

namespace Pistis

/-! ## Bindings under a help spelling, the positional invariant: claims C37, C38 -/

namespace HandlerMapType

/-- The entry that `find` returns is stored under the key it was asked for. -/
theorem find_some_mem {σ : Type} {m : HandlerMapType σ} {k : String} {h : ArgHandler σ}
    (hf : m.find k = some h) : (k, h) ∈ m := by
  induction m with
  | nil => simp [find] at hf
  | cons p rest ih =>
    obtain ⟨k1, h1⟩ := p
    simp only [find] at hf
    by_cases hk : k1 = k
    · simp only [hk, if_true, Option.some.injEq] at hf
      rw [hk, hf]
      exact List.mem_cons_self _ _
    · simp only [hk, if_false] at hf
      exact List.mem_cons_of_mem _ (ih hf)

end HandlerMapType

namespace SimpleCmdLineArgs

/-- What one iteration of the loop can do to the destinations and to the cursor,
whether it ends normally or not: it reads the token and nothing else, or it
reads the token and runs the conversion step of one binding, and that binding is
the entry of the named table stored under the token, the token being neither
`-h` nor `--help`, or the positional binding under the positional iterator. -/
theorem dispatch_step_cases {σ : Type} {s s1 : SimpleCmdLineArgs σ}
    {g g1 : CmdLineArgGenerator} {r : Except Exc Unit} (hrem : g.remaining ≠ 0)
    (hd : AbstractCmdLineArgs.dispatch (virtuals σ) g s = (r, g1, s1)) :
    (s1.values = s.values ∧ g1 = { g with current_ := g.current_ + 1 }) ∨
    ∃ hsel, (((g.deref, hsel) ∈ s.namedArgs_ ∧ g.deref ≠ "-h" ∧ g.deref ≠ "--help") ∨
        (isNamedToken g.deref = false ∧
          s.unnamedArgs_.get? s.currentUnnamedArg_ = some hsel)) ∧
      s1.values =
        (hsel.handleValue { g with current_ := g.current_ + 1 } g.deref s.values).2.2 ∧
      g1 = (hsel.handleValue { g with current_ := g.current_ + 1 } g.deref s.values).2.1 := by
  by_cases hh : g.deref = "-h" ∨ g.deref = "--help"
  · rw [dispatch_help s g hrem hh] at hd
    simp only [Prod.mk.injEq] at hd
    left
    exact ⟨by rw [← hd.2.2], hd.2.1.symm⟩
  · have hnh : g.deref ≠ "-h" ∧ g.deref ≠ "--help" := by
      constructor
      · intro h1
        exact hh (Or.inl h1)
      · intro h2
        exact hh (Or.inr h2)
    by_cases hflag : isNamedToken g.deref = true
    · cases hfind : s.namedArgs_.find g.deref with
      | none =>
        left
        unfold AbstractCmdLineArgs.dispatch at hd
        rw [CmdLineArgGenerator.next_of_remaining hrem] at hd
        simp only [hflag, if_true, virtuals, handleNamedArg_,
          AbstractCmdLineArgs.handleNamedArg_, hh, if_false, hfind, Prod.mk.injEq] at hd
        exact ⟨by rw [← hd.2.2], hd.2.1.symm⟩
      | some h =>
        right
        refine ⟨h, Or.inl ⟨HandlerMapType.find_some_mem hfind, hnh⟩, ?_⟩
        rw [dispatch_named s g h hrem hflag hnh hfind] at hd
        rcases hv : h.handleValue { g with current_ := g.current_ + 1 } g.deref s.values with
          ⟨r2, g2, v2⟩
        rw [hv] at hd
        cases r2 with
        | ok u =>
          simp only [Prod.mk.injEq] at hd
          exact ⟨by rw [← hd.2.2], hd.2.1.symm⟩
        | error e =>
          simp only [Prod.mk.injEq] at hd
          exact ⟨by rw [← hd.2.2], hd.2.1.symm⟩
    · have hpos : isNamedToken g.deref = false := by
        cases hb : isNamedToken g.deref with
        | false => rfl
        | true => exact absurd hb hflag
      cases hget : s.unnamedArgs_.get? s.currentUnnamedArg_ with
      | none =>
        left
        unfold AbstractCmdLineArgs.dispatch at hd
        rw [CmdLineArgGenerator.next_of_remaining hrem] at hd
        simp only [hpos, Bool.false_eq_true, if_false, virtuals, handleUnnamedArg_,
          AbstractCmdLineArgs.handleUnnamedArg_, hget, Prod.mk.injEq] at hd
        exact ⟨by rw [← hd.2.2], hd.2.1.symm⟩
      | some h =>
        right
        refine ⟨h, Or.inr ⟨hpos, rfl⟩, ?_⟩
        rw [dispatch_unnamed s g h hrem hpos hget] at hd
        rcases hv : h.handleValue { g with current_ := g.current_ + 1 } g.deref s.values with
          ⟨r2, g2, v2⟩
        rw [hv] at hd
        cases r2 with
        | ok u =>
          simp only [Prod.mk.injEq] at hd
          exact ⟨by rw [← hd.2.2], hd.2.1.symm⟩
        | error e =>
          simp only [Prod.mk.injEq] at hd
          exact ⟨by rw [← hd.2.2], hd.2.1.symm⟩

/-- A completed iteration of the loop leaves the entries of the named table that
are stored under `-h` or `--help` unfound. -/
theorem dispatch_help_unfound {σ : Type} {s s1 : SimpleCmdLineArgs σ}
    {g g1 : CmdLineArgGenerator} (hrem : g.remaining ≠ 0)
    (hP : ∀ p ∈ s.namedArgs_, (p.1 = "-h" ∨ p.1 = "--help") → p.2.found_ = false)
    (hd : AbstractCmdLineArgs.dispatch (virtuals σ) g s = (.ok (), g1, s1)) :
    ∀ p ∈ s1.namedArgs_, (p.1 = "-h" ∨ p.1 = "--help") → p.2.found_ = false := by
  by_cases hh : g.deref = "-h" ∨ g.deref = "--help"
  · rw [dispatch_help s g hrem hh] at hd
    simp only [Prod.mk.injEq, true_and] at hd
    rw [← hd.2]
    exact hP
  · rcases dispatch_ok_cases hrem hd with ⟨_, hn⟩ | ⟨_, hu⟩
    · rcases handleNamedArg_true_named hn with he | he
      · rw [he]
        exact hP
      · rw [he]
        intro p hp hk
        rcases HandlerMapType.mem_setFound hp with h1 | h1
        · rw [h1] at hk
          exact absurd hk hh
        · exact hP p h1 hk
    · rw [(handleUnnamedArg_true hu).1]
      exact hP

/-- After `init_` and any number of completed iterations, every entry stored
under `-h` or `--help` is unfound. -/
theorem dispatched_help_unfound {σ : Type} {a a0 s : SimpleCmdLineArgs σ}
    {argv : List String} {n : Nat} {g0 g : CmdLineArgGenerator} {toks : List String}
    {r : Except Exc Unit} (hinit : a.init_ argv = (r, a0))
    (hreach : AbstractCmdLineArgs.dispatched (virtuals σ) n g0 a0 = some (toks, g, s)) :
    ∀ p ∈ s.namedArgs_, (p.1 = "-h" ∨ p.1 = "--help") → p.2.found_ = false := by
  have h0 := (init_spec a a0 argv r hinit).2.2.2.1
  exact AbstractCmdLineArgs.dispatched_invariant (virtuals σ)
    (fun _ st => ∀ p ∈ st.namedArgs_, (p.1 = "-h" ∨ p.1 = "--help") → p.2.found_ = false)
    (fun g s g1 s1 hP hrem hd => dispatch_help_unfound hrem hP hd)
    n g0 a0 toks g s (fun p hp _ => h0 p hp) hreach

/-- C37.  (1) `registerHandler_` accepts a binding whose name is `-h` or `--help`
as it accepts any other flag: on a table without that key it returns normally
and the table has the entry.  Let then `(k, h)` be an entry of the named table
of `a` under such a spelling, and `s` the object after `init_` and any number of
completed iterations of the loop of a parse on `a`.  (2) The entry is still
unfound in `s`.  (3) An iteration on the token `-h` or `--help` ends normally
and changes only `showUsage_`: no conversion step runs.  (4) Whatever an
iteration does to the destinations and to the cursor, beyond reading its token,
is done by the conversion step of a binding stored under the token itself, which
is then neither `-h` nor `--help`, or of the positional binding under the
iterator; so the conversion step of `h` is not called through the entry
`(k, h)`.  (5) If `h` is required and the loop ends
with all tokens read, the parse fails with `RequiredCmdLineArgMissingError`. -/
theorem C37_help_spelling_binding_unreachable {σ : Type} (a a0 s : SimpleCmdLineArgs σ)
    (argv : List String) (g0 g : CmdLineArgGenerator) (n : Nat) (toks : List String)
    (k : String) (h : ArgHandler σ)
    (hk : k = "-h" ∨ k = "--help")
    (hmem : (k, h) ∈ a.namedArgs_)
    (hinit : a.init_ argv = (.ok (), a0))
    (hnew : CmdLineArgGenerator.new argv = .ok g0)
    (hreach : AbstractCmdLineArgs.dispatched (virtuals σ) n g0 a0 = some (toks, g, s)) :
    (∀ (b : SimpleCmdLineArgs σ) (hb : ArgHandler σ), hb.argName_ = k →
      b.namedArgs_.find k = none →
      b.registerHandler_ hb = .ok { b with namedArgs_ := b.namedArgs_ ++ [(k, hb)] }) ∧
    (∀ p ∈ s.namedArgs_, (p.1 = "-h" ∨ p.1 = "--help") → p.2.found_ = false) ∧
    (g.remaining ≠ 0 → (g.deref = "-h" ∨ g.deref = "--help") →
      AbstractCmdLineArgs.dispatch (virtuals σ) g s =
        (.ok (), { g with current_ := g.current_ + 1 }, { s with showUsage_ := true })) ∧
    (∀ r g1 s1, g.remaining ≠ 0 →
      AbstractCmdLineArgs.dispatch (virtuals σ) g s = (r, g1, s1) →
      (s1.values = s.values ∧ g1 = { g with current_ := g.current_ + 1 }) ∨
      ∃ hsel, (((g.deref, hsel) ∈ s.namedArgs_ ∧ g.deref ≠ "-h" ∧ g.deref ≠ "--help") ∨
          (isNamedToken g.deref = false ∧
            s.unnamedArgs_.get? s.currentUnnamedArg_ = some hsel)) ∧
        s1.values =
          (hsel.handleValue { g with current_ := g.current_ + 1 } g.deref s.values).2.2 ∧
        g1 = (hsel.handleValue { g with current_ := g.current_ + 1 } g.deref s.values).2.1) ∧
    (h.required_ = true → g.remaining = 0 → ∀ fuel, n ≤ fuel →
      ∃ h1, (h1 ∈ s.namedArgs_.map Prod.snd ∨ h1 ∈ s.unnamedArgs_) ∧
        h1.required_ = true ∧ h1.found_ = false ∧
        parse fuel a argv =
          some (.error (Exc.RequiredCmdLineArgMissingError g.appName h1.fullName), s)) := by
  have hunf := dispatched_help_unfound hinit hreach
  refine ⟨?_, hunf, fun hrem hh => dispatch_help s g hrem hh,
    fun r g1 s1 hrem hd => dispatch_step_cases hrem hd, ?_⟩
  · intro b hb hname hnone
    have hne : hb.argName_ ≠ "" := by
      rw [hname]
      rcases hk with hk | hk <;> rw [hk] <;> decide
    rcases afterRegisterHandler_cases b hb with ⟨⟨e, he⟩, _⟩ | ⟨h1, _⟩ | ⟨_, _, _, hreg, _⟩
    · exfalso
      have hhead : hb.argName_.data.head? = some '-' := by
        rw [hname]
        rcases hk with hk | hk <;> rw [hk] <;> rfl
      unfold registerHandler_ at he
      rw [hname] at hhead he
      simp only [hnone] at he
      rcases hk with hk | hk <;> subst hk <;> simp at he
    · exact absurd h1 hne
    · rw [hreg, hname]
  · intro hreq hend fuel hfuel
    obtain ⟨hfb, hsame⟩ := foundBefore_of_dispatched hinit hreach
    have hloop := parseLoop_of_dispatched_end hreach hend hfuel
    have hparse : parse fuel a argv = some (check_ s g.appName) := by
      have hi : (virtuals σ).init_ a argv = (.ok (), a0) := hinit
      simp only [parse, AbstractCmdLineArgs.parse, hi, hnew, hloop]
      rfl
    have hm : (k, h.setFound false) ∈
        a.namedArgs_.map (fun p => (p.1, p.2.setFound false)) :=
      List.mem_map.mpr ⟨(k, h), hmem, rfl⟩
    rw [← hsame.1] at hm
    obtain ⟨p, hp, hpe⟩ := List.mem_map.mp hm
    simp only [Prod.mk.injEq] at hpe
    have hpreq : p.2.required_ = true := by
      have := congrArg ArgHandler.required_ hpe.2
      simp only [ArgHandler.setFound] at this
      rw [this, hreq]
    have hpf : p.2.found_ = false := hunf p hp (by rw [hpe.1]; exact hk)
    obtain ⟨h1, m1, m2, m3, m4⟩ := check_of_missing s g.appName hfb
      ⟨p.2, Or.inl (List.mem_map.mpr ⟨p, hp, rfl⟩), hpreq, hpf⟩
    exact ⟨h1, m1, m2, m3, by rw [hparse, m4]⟩

/-- C37 on a definition whose required `int` binding is registered under `-h`,
and the stream `-h -s x`: both tokens are dispatched, the variable of the
binding keeps its value 0, `showUsage_` is set, and the parse fails with
`RequiredCmdLineArgMissingError` for `height (-h)`. -/
theorem C37_help_spelling_witness :
    (parse 2 Sample.requiredHelp ["some_program", "-h", "-s", "x"]).map
      (fun r => (r.1, r.2.values.ints 0, r.2.values.strings 0, r.2.showUsage_)) =
      some (.error (Exc.RequiredCmdLineArgMissingError "some_program" "height (-h)"),
        0, "x", true) ∧
    ∃ (g : CmdLineArgGenerator) (s : SimpleCmdLineArgs Memory),
      AbstractCmdLineArgs.dispatched (virtuals Memory) 2 ⟨["some_program", "-h", "-s", "x"], 1⟩
        (Sample.requiredHelp.init_ ["some_program", "-h", "-s", "x"]).2 =
          some (["-h", "-s"], g, s) ∧
      ∃ h1, (h1 ∈ s.namedArgs_.map Prod.snd ∨ h1 ∈ s.unnamedArgs_) ∧
        h1.required_ = true ∧ h1.found_ = false ∧
        parse 2 Sample.requiredHelp ["some_program", "-h", "-s", "x"] =
          some (.error (Exc.RequiredCmdLineArgMissingError g.appName h1.fullName), s) :=
  ⟨by decide, _, _, rfl,
    (C37_help_spelling_binding_unreachable Sample.requiredHelp _ _
      ["some_program", "-h", "-s", "x"] _ _ 2 ["-h", "-s"] "-h" _ (Or.inl rfl)
      (List.mem_cons_self _ _) rfl rfl rfl).2.2.2.2 rfl (by decide) 2 (by decide)⟩

/-- When every binding before position `c` is found, the scan for a required
unfound binding from position `c` finds what the scan of the whole list finds. -/
theorem firstMissing_drop {σ : Type} :
    ∀ (l : List (ArgHandler σ)) (c : Nat),
      (∀ i h, i < c → l.get? i = some h → h.found_ = true) →
      firstMissing (l.drop c) = firstMissing l := by
  intro l
  induction l with
  | nil =>
    intro c _
    simp
  | cons x rest ih =>
    intro c hc
    cases c with
    | zero => rfl
    | succ c =>
      have hx : x.found_ = true := hc 0 x (by omega) rfl
      have hrest : firstMissing (rest.drop c) = firstMissing rest :=
        ih c (fun i h hi hget => hc (i + 1) h (by omega) hget)
      simp only [List.drop_succ_cons, hrest, firstMissing, hx, not_true_eq_false, and_false,
        if_false]

/-- The binding that `firstMissing` returns is the first of the list, in order,
that is required and unfound. -/
theorem firstMissing_first {σ : Type} :
    ∀ (l : List (ArgHandler σ)) (h : ArgHandler σ), firstMissing l = some h →
      ∃ i, l.get? i = some h ∧ h.required_ = true ∧ h.found_ = false ∧
        ∀ j x, j < i → l.get? j = some x → ¬ (x.required_ = true ∧ x.found_ = false) := by
  intro l
  induction l with
  | nil =>
    intro h hf
    simp [firstMissing] at hf
  | cons y rest ih =>
    intro h hf
    simp only [firstMissing] at hf
    by_cases hy : y.required_ = true ∧ ¬ y.found_ = true
    · rw [if_pos hy] at hf
      simp only [Option.some.injEq] at hf
      subst hf
      refine ⟨0, rfl, hy.1, ?_, ?_⟩
      · cases hb : y.found_ with
        | false => rfl
        | true => exact absurd hb hy.2
      · intro j x hj _
        omega
    · rw [if_neg hy] at hf
      obtain ⟨i, hi, hreq, hfound, hbefore⟩ := ih h hf
      refine ⟨i + 1, hi, hreq, hfound, ?_⟩
      intro j x hj hget
      cases j with
      | zero =>
        simp only [List.get?_cons_zero, Option.some.injEq] at hget
        subst hget
        intro hx
        apply hy
        refine ⟨hx.1, ?_⟩
        rw [hx.2]
        exact Bool.false_ne_true
      | succ j => exact hbefore j x (by omega) hget

/-- A completed iteration of the loop leaves every non-final positional binding
at or after the positional iterator unfound. -/
theorem dispatch_nonfinal_unfound {σ : Type} {s s1 : SimpleCmdLineArgs σ}
    {g g1 : CmdLineArgGenerator} (hrem : g.remaining ≠ 0)
    (hP : ∀ i h, s.currentUnnamedArg_ ≤ i → s.unnamedArgs_.get? i = some h →
      h.final_ = false → h.found_ = false)
    (hd : AbstractCmdLineArgs.dispatch (virtuals σ) g s = (.ok (), g1, s1)) :
    ∀ i h, s1.currentUnnamedArg_ ≤ i → s1.unnamedArgs_.get? i = some h →
      h.final_ = false → h.found_ = false := by
  rcases dispatch_ok_cases hrem hd with ⟨_, hn⟩ | ⟨_, hu⟩
  · obtain ⟨_, hl, hc⟩ := handleNamedArg_true hn
    rw [hl, hc]
    exact hP
  · obtain ⟨_, _, _, x, hx, hl, hc⟩ := handleUnnamedArg_true hu
    intro i h hi hget hfin
    rw [hl] at hget
    rw [hc] at hi
    by_cases hic : i = s.currentUnnamedArg_
    · subst hic
      rw [List.get?_eq_getElem?, List.getElem?_set] at hget
      have hlt : s.currentUnnamedArg_ < s.unnamedArgs_.length := by
        rcases Nat.lt_or_ge s.currentUnnamedArg_ s.unnamedArgs_.length with h1 | h1
        · exact h1
        · rw [List.get?_eq_none.mpr h1] at hx
          exact Option.noConfusion hx
      simp only [if_true, hlt] at hget
      simp only [Option.some.injEq] at hget
      subst hget
      have hxf : x.final_ = false := hfin
      rw [hxf] at hi
      simp at hi
    · have hne : s.currentUnnamedArg_ ≠ i := fun h1 => hic h1.symm
      rw [List.get?_eq_getElem?, List.getElem?_set_ne hne, ← List.get?_eq_getElem?] at hget
      apply hP i h _ hget hfin
      split at hi <;> omega

/-- C38.  Let `s` be the object after `init_` and any number of completed
iterations of the loop of a parse.  (1) Every positional binding before the
positional iterator is found.  (2) Every non-final positional binding at or
after the iterator is unfound.  (3) An iteration that throws leaves the
positional list and the iterator as they were, so (1) and (2) hold there too.
(4) The scan of `check_`, which starts at the iterator, finds what a scan of the
whole positional list finds.  Hence, when no named binding is missing: (5) if
some required positional binding of the whole list is unfound, `check_` fails
with `RequiredCmdLineArgMissingError` for the first of them in registration
order; (6) if none is, `check_` goes on to the `checkValues_` hook and ends as
the hook does.  (7) The scan of the whole list finds nothing exactly if every
required positional binding is found. -/
theorem C38_positional_found_invariant {σ : Type} (a a0 s : SimpleCmdLineArgs σ)
    (argv : List String) (g0 g : CmdLineArgGenerator) (n : Nat) (toks : List String)
    (r : Except Exc Unit)
    (hinit : a.init_ argv = (r, a0))
    (hreach : AbstractCmdLineArgs.dispatched (virtuals σ) n g0 a0 = some (toks, g, s)) :
    (∀ i h, i < s.currentUnnamedArg_ → s.unnamedArgs_.get? i = some h → h.found_ = true) ∧
    (∀ i h, s.currentUnnamedArg_ ≤ i → s.unnamedArgs_.get? i = some h →
      h.final_ = false → h.found_ = false) ∧
    (∀ e g1 s1, g.remaining ≠ 0 →
      AbstractCmdLineArgs.dispatch (virtuals σ) g s = (.error e, g1, s1) →
      s1.unnamedArgs_ = s.unnamedArgs_ ∧ s1.currentUnnamedArg_ = s.currentUnnamedArg_) ∧
    firstMissing (s.unnamedArgs_.drop s.currentUnnamedArg_) = firstMissing s.unnamedArgs_ ∧
    (∀ app h, firstMissing (s.namedArgs_.map Prod.snd) = none →
      firstMissing s.unnamedArgs_ = some h →
      s.check_ app = (.error (Exc.RequiredCmdLineArgMissingError app h.fullName), s) ∧
      ∃ i, s.unnamedArgs_.get? i = some h ∧ h.required_ = true ∧ h.found_ = false ∧
        ∀ j x, j < i → s.unnamedArgs_.get? j = some x →
          ¬ (x.required_ = true ∧ x.found_ = false)) ∧
    (∀ app, firstMissing (s.namedArgs_.map Prod.snd) = none →
      firstMissing s.unnamedArgs_ = none →
      s.check_ app =
        ((s.checkValues_ s.values).1, { s with values := (s.checkValues_ s.values).2 })) ∧
    (firstMissing s.unnamedArgs_ = none ↔
      ∀ x ∈ s.unnamedArgs_, x.required_ = true → x.found_ = true) := by
  obtain ⟨hfb, _⟩ := foundBefore_of_dispatched hinit hreach
  obtain ⟨_, hcur0, _, _, huf0⟩ := init_spec a a0 argv r hinit
  have hnf : ∀ i h, s.currentUnnamedArg_ ≤ i → s.unnamedArgs_.get? i = some h →
      h.final_ = false → h.found_ = false :=
    AbstractCmdLineArgs.dispatched_invariant (virtuals σ)
      (fun _ st => ∀ i h, st.currentUnnamedArg_ ≤ i → st.unnamedArgs_.get? i = some h →
        h.final_ = false → h.found_ = false)
      (fun g s g1 s1 hP hrem hd => dispatch_nonfinal_unfound hrem hP hd)
      n g0 a0 toks g s (fun i h _ hget _ => huf0 h (List.mem_iff_get?.mpr ⟨i, hget⟩)) hreach
  have hdrop := firstMissing_drop s.unnamedArgs_ s.currentUnnamedArg_ hfb
  refine ⟨hfb, hnf, ?_, hdrop, ?_, ?_, ?_⟩
  · intro e g1 s1 hrem hd
    rcases dispatch_error_cases hrem hd with ⟨h1, _⟩ | ⟨h1, _⟩ | ⟨_, _, _, _, _, _, h1⟩
    · rw [h1]
      exact ⟨rfl, rfl⟩
    · rw [h1]
      exact ⟨rfl, rfl⟩
    · rw [h1]
      exact ⟨rfl, rfl⟩
  · intro app h hn hu
    refine ⟨?_, firstMissing_first s.unnamedArgs_ h hu⟩
    unfold check_
    simp only [AbstractCmdLineArgs.check_, eta_base, hn, hdrop, hu]
  · intro app hn hu
    unfold check_
    simp only [AbstractCmdLineArgs.check_, eta_base, hn, hdrop, hu]
  · constructor
    · intro hu x hx hreq
      cases hf : x.found_ with
      | true => rfl
      | false => exact absurd ⟨hreq, hf⟩ (firstMissing_none hu x hx)
    · exact firstMissing_eq_none

/-- C38 on two definitions.  On `repeated` (a non-final `int` binding, then a
final string binding) after the tokens `5` and `a`: the iterator stands on the
final binding, which is found, binding 0 before it is found, and the scan from
the iterator finds what the scan of the whole list finds.  On `positional` (a
required `int` binding, then an optional string binding) after no token:
`check_` fails with `RequiredCmdLineArgMissingError` for the first binding. -/
theorem C38_positional_found_witness :
    (∃ (g : CmdLineArgGenerator) (s : SimpleCmdLineArgs Memory),
      AbstractCmdLineArgs.dispatched (virtuals Memory) 2 ⟨["some_program", "5", "a"], 1⟩
        (Sample.repeated.init_ ["some_program", "5", "a"]).2 = some (["5", "a"], g, s) ∧
      s.currentUnnamedArg_ = 1 ∧
      s.unnamedArgs_.map (fun h => (h.final_, h.found_)) = [(false, true), (true, true)] ∧
      firstMissing (s.unnamedArgs_.drop s.currentUnnamedArg_) =
        firstMissing s.unnamedArgs_) ∧
    ((Sample.positional.init_ ["some_program"]).2.check_ "some_program").1 =
      .error (Exc.RequiredCmdLineArgMissingError "some_program" "int value") :=
  ⟨⟨_, _, rfl, rfl, rfl,
    (C38_positional_found_invariant Sample.repeated _ _ ["some_program", "5", "a"]
      ⟨["some_program", "5", "a"], 1⟩ _ 2 ["5", "a"] (.ok ()) rfl rfl).2.2.2.1⟩,
    by decide⟩

end SimpleCmdLineArgs

end Pistis

namespace Pistis

/-! ## The hooks of the subclass and termination: claims C31, C40 -/

namespace SimpleCmdLineArgs

/-- A property of the conversion steps that holds for every binding of `a` holds
for every binding of an object that carries the bindings of `a`. -/
theorem sameBindings_handlers {σ : Type} (P : Handler σ → Prop) {a s : SimpleCmdLineArgs σ}
    (hs : SameBindings a s)
    (hN : ∀ p ∈ a.namedArgs_, P p.2.handleValue)
    (hU : ∀ h ∈ a.unnamedArgs_, P h.handleValue) :
    (∀ p ∈ s.namedArgs_, P p.2.handleValue) ∧ (∀ h ∈ s.unnamedArgs_, P h.handleValue) := by
  constructor
  · intro p hp
    have hm : (p.1, p.2.setFound false) ∈
        s.namedArgs_.map (fun p => (p.1, p.2.setFound false)) :=
      List.mem_map.mpr ⟨p, hp, rfl⟩
    rw [hs.1] at hm
    obtain ⟨q, hq, hqe⟩ := List.mem_map.mp hm
    simp only [Prod.mk.injEq] at hqe
    have he : q.2.handleValue = p.2.handleValue := by
      have := congrArg ArgHandler.handleValue hqe.2
      simpa only [ArgHandler.setFound] using this
    rw [← he]
    exact hN q hq
  · intro h hh
    have hm : h.setFound false ∈ s.unnamedArgs_.map (fun h => h.setFound false) :=
      List.mem_map.mpr ⟨h, hh, rfl⟩
    rw [hs.2.1] at hm
    obtain ⟨q, hq, hqe⟩ := List.mem_map.mp hm
    have he : q.handleValue = h.handleValue := by
      have := congrArg ArgHandler.handleValue hqe
      simpa only [ArgHandler.setFound] using this
    rw [← he]
    exact hU q hq

/-- An iteration of the loop keeps every observation of the destinations that
the conversion steps of the bindings keep. -/
theorem dispatch_obs {σ α : Type} (obs : σ → α) {s s1 : SimpleCmdLineArgs σ}
    {g g1 : CmdLineArgGenerator} {r : Except Exc Unit} (hrem : g.remaining ≠ 0)
    (hN : ∀ p ∈ s.namedArgs_, ∀ g n v, obs (p.2.handleValue g n v).2.2 = obs v)
    (hU : ∀ h ∈ s.unnamedArgs_, ∀ g n v, obs (h.handleValue g n v).2.2 = obs v)
    (hd : AbstractCmdLineArgs.dispatch (virtuals σ) g s = (r, g1, s1)) :
    obs s1.values = obs s.values := by
  rcases dispatch_step_cases hrem hd with ⟨h, _⟩ | ⟨hsel, hwhere, hv, _⟩
  · rw [h]
  · rw [hv]
    rcases hwhere with ⟨hmem, _⟩ | ⟨_, hget⟩
    · exact hN (g.deref, hsel) hmem _ _ _
    · exact hU hsel (List.mem_iff_get?.mpr ⟨_, hget⟩) _ _ _

/-- The loop keeps every observation of the destinations that the conversion
steps of the bindings keep. -/
theorem parseLoop_obs {σ α : Type} (obs : σ → α) :
    ∀ (fuel : Nat) (g : CmdLineArgGenerator) (s : SimpleCmdLineArgs σ)
      (r : Except Exc Unit) (g1 : CmdLineArgGenerator) (s1 : SimpleCmdLineArgs σ),
      (∀ p ∈ s.namedArgs_, ∀ g n v, obs (p.2.handleValue g n v).2.2 = obs v) →
      (∀ h ∈ s.unnamedArgs_, ∀ g n v, obs (h.handleValue g n v).2.2 = obs v) →
      AbstractCmdLineArgs.parseLoop (virtuals σ) fuel g s = some (r, g1, s1) →
      obs s1.values = obs s.values := by
  intro fuel
  induction fuel with
  | zero =>
    intro g s r g1 s1 _ _ h
    unfold AbstractCmdLineArgs.parseLoop at h
    split at h
    · simp only [Option.some.injEq, Prod.mk.injEq] at h
      rw [← h.2.2]
    · simp at h
  | succ fuel ih =>
    intro g s r g1 s1 hN hU h
    unfold AbstractCmdLineArgs.parseLoop at h
    split at h
    · simp only [Option.some.injEq, Prod.mk.injEq] at h
      rw [← h.2.2]
    · rename_i hrem
      simp only at h
      split at h
      · rename_i e g2 s2 hd
        simp only [Option.some.injEq, Prod.mk.injEq] at h
        rw [← h.2.2]
        exact dispatch_obs obs hrem hN hU hd
      · rename_i g2 s2 hd
        obtain ⟨hN2, hU2⟩ := sameBindings_handlers
          (fun hv => ∀ g n v, obs (hv g n v).2.2 = obs v) (dispatch_sameBindings_any hd) hN hU
        rw [ih g2 s2 r g1 s1 hN2 hU2 h]
        exact dispatch_obs obs hrem hN hU hd

/-- The scalar delegate of a named binding keeps every observation of the
destinations that a write to its variable keeps. -/
theorem namedScalarDelegate_obs {σ α β : Type} (obs : σ → β)
    (format : String → Except Exc α) (ref : Ref σ α)
    (href : ∀ m x, obs (ref.set m x) = obs m)
    (g : CmdLineArgGenerator) (n : String) (v : σ) :
    obs (namedScalarDelegate format ref g n v).2.2 = obs v := by
  unfold namedScalarDelegate
  rcases g.next n with ⟨r, g1⟩
  cases r with
  | error e => rfl
  | ok tok =>
    simp only
    cases format tok with
    | error e => rfl
    | ok x => exact href v x

/-- The outcome of `init_` is the outcome of the `initValues_` hook, run on the
destinations as they are when `parse` starts. -/
theorem init_hook {σ : Type} (a : SimpleCmdLineArgs σ) (argv : List String) :
    (a.init_ argv).1 = (a.initValues_ a.values).1 ∧
    (a.init_ argv).2.values = (a.initValues_ a.values).2 :=
  ⟨rfl, rfl⟩

/-- C31.  Let `countI` and `countC` observe the destinations such that the
`initValues_` hook adds one to `countI` and the `checkValues_` hook adds one to
`countC`, and nothing else changes them (each hook keeps the other's count, and
the conversion steps of the bindings keep both): they count the runs of the two
hooks.  Let `parse` end, returning or throwing, with the object `a1`.  Then
(1) `init_`, the first step of `parse`, ends as the `initValues_` hook does, run
on the destinations as they were; (2) `initValues_` has run exactly once;
(3) `checkValues_` has run at most once; (4) it has run once if `parse` returned
normally; (5) if it has run, then `init_` returned normally, the loop read all
tokens without error, the presence checks found no required binding missing,
and the hook ran on the destinations that the loop left, its outcome being the
outcome of `parse`; so it has not run in a parse that failed in an iteration of
the loop or in the presence checks. -/
theorem C31_hooks_run_once {σ : Type} (a a1 : SimpleCmdLineArgs σ) (argv : List String)
    (fuel : Nat) (r : Except Exc Unit) (countI countC : σ → Int)
    (hII : ∀ v, countI (a.initValues_ v).2 = countI v + 1)
    (hIC : ∀ v, countI (a.checkValues_ v).2 = countI v)
    (hIN : ∀ p ∈ a.namedArgs_, ∀ g n v, countI (p.2.handleValue g n v).2.2 = countI v)
    (hIU : ∀ h ∈ a.unnamedArgs_, ∀ g n v, countI (h.handleValue g n v).2.2 = countI v)
    (hCI : ∀ v, countC (a.initValues_ v).2 = countC v)
    (hCC : ∀ v, countC (a.checkValues_ v).2 = countC v + 1)
    (hCN : ∀ p ∈ a.namedArgs_, ∀ g n v, countC (p.2.handleValue g n v).2.2 = countC v)
    (hCU : ∀ h ∈ a.unnamedArgs_, ∀ g n v, countC (h.handleValue g n v).2.2 = countC v)
    (hparse : parse fuel a argv = some (r, a1)) :
    ((a.init_ argv).1 = (a.initValues_ a.values).1 ∧
      (a.init_ argv).2.values = (a.initValues_ a.values).2) ∧
    countI a1.values = countI a.values + 1 ∧
    (countC a1.values = countC a.values ∨ countC a1.values = countC a.values + 1) ∧
    (r = .ok () → countC a1.values = countC a.values + 1) ∧
    (countC a1.values = countC a.values + 1 →
      ∃ a0 g0 g s, a.init_ argv = (.ok (), a0) ∧ CmdLineArgGenerator.new argv = .ok g0 ∧
        AbstractCmdLineArgs.parseLoop (virtuals σ) fuel g0 a0 = some (.ok (), g, s) ∧
        firstMissing (s.namedArgs_.map Prod.snd) = none ∧
        firstMissing (s.unnamedArgs_.drop s.currentUnnamedArg_) = none ∧
        r = (s.checkValues_ s.values).1 ∧
        a1 = { s with values := (s.checkValues_ s.values).2 }) := by
  refine ⟨init_hook a argv, ?_⟩
  -- the object that `init_` leaves
  rcases hi : a.init_ argv with ⟨ri, a0⟩
  have hsame0 : SameBindings a a0 := (init_spec a a0 argv ri hi).1
  have hv0 : a0.values = (a.initValues_ a.values).2 := by
    rw [← (init_hook a argv).2, hi]
  have hI0 : countI a0.values = countI a.values + 1 := by rw [hv0, hII]
  have hC0 : countC a0.values = countC a.values := by rw [hv0, hCI]
  -- a parse that ends before the hook of `check_` keeps both counts
  have hearly : ∀ (Q : Prop) (s : SimpleCmdLineArgs σ) (e : Exc),
      countI s.values = countI a0.values → countC s.values = countC a0.values →
      r = .error e → a1 = s →
      countI a1.values = countI a.values + 1 ∧
      (countC a1.values = countC a.values ∨ countC a1.values = countC a.values + 1) ∧
      (r = .ok () → countC a1.values = countC a.values + 1) ∧
      (countC a1.values = countC a.values + 1 → Q) := by
    intro Q s e h1 h2 hr ha
    subst ha
    refine ⟨by rw [h1, hI0], Or.inl (by rw [h2, hC0]), ?_, ?_⟩
    · intro hok
      rw [hr] at hok
      exact Except.noConfusion hok
    · intro hc
      rw [h2, hC0] at hc
      omega
  have hi2 : (virtuals σ).init_ a argv = (ri, a0) := hi
  simp only [parse, AbstractCmdLineArgs.parse, hi2] at hparse
  cases ri with
  | error e =>
    simp only [Option.some.injEq, Prod.mk.injEq] at hparse
    exact hearly _ a0 e rfl rfl hparse.1.symm hparse.2.symm
  | ok u =>
    cases hnew : CmdLineArgGenerator.new argv with
    | error e =>
      simp only [hnew, Option.some.injEq, Prod.mk.injEq] at hparse
      exact hearly _ a0 e rfl rfl hparse.1.symm hparse.2.symm
    | ok g0 =>
      simp only [hnew] at hparse
      obtain ⟨hIN0, hIU0⟩ := sameBindings_handlers
        (fun hv => ∀ g n v, countI (hv g n v).2.2 = countI v) hsame0 hIN hIU
      obtain ⟨hCN0, hCU0⟩ := sameBindings_handlers
        (fun hv => ∀ g n v, countC (hv g n v).2.2 = countC v) hsame0 hCN hCU
      cases hloop : AbstractCmdLineArgs.parseLoop (virtuals σ) fuel g0 a0 with
      | none =>
        simp only [hloop] at hparse
        exact Option.noConfusion hparse
      | some res =>
        obtain ⟨rl, g, s⟩ := res
        have hIs := parseLoop_obs countI fuel g0 a0 rl g s hIN0 hIU0 hloop
        have hCs := parseLoop_obs countC fuel g0 a0 rl g s hCN0 hCU0 hloop
        have hsame : SameBindings a s :=
          hsame0.trans (parseLoop_sameBindings fuel g0 a0 rl g s hloop)
        simp only [hloop] at hparse
        cases rl with
        | error e =>
          simp only [Option.some.injEq, Prod.mk.injEq] at hparse
          exact hearly _ s e hIs hCs hparse.1.symm hparse.2.symm
        | ok u2 =>
          simp only [Option.some.injEq, virtuals] at hparse
          unfold check_ at hparse
          simp only [AbstractCmdLineArgs.check_, eta_base] at hparse
          cases hn : firstMissing (s.namedArgs_.map Prod.snd) with
          | some h =>
            simp only [hn, Prod.mk.injEq] at hparse
            exact hearly _ s _ hIs hCs hparse.1.symm hparse.2.symm
          | none =>
            cases hu : firstMissing (s.unnamedArgs_.drop s.currentUnnamedArg_) with
            | some h =>
              simp only [hn, hu, Prod.mk.injEq] at hparse
              exact hearly _ s _ hIs hCs hparse.1.symm hparse.2.symm
            | none =>
              simp only [hn, hu, Prod.mk.injEq] at hparse
              obtain ⟨hr, ha⟩ := hparse
              have hcv : s.checkValues_ = a.checkValues_ := hsame.2.2.2
              have hI1 : countI a1.values = countI a.values + 1 := by
                rw [← ha]
                simp only [hcv, hIC, hIs, hI0]
              have hC1 : countC a1.values = countC a.values + 1 := by
                rw [← ha]
                simp only [hcv, hCC, hCs, hC0]
              exact ⟨hI1, Or.inr hC1, fun _ => hC1,
                fun _ => ⟨a0, g0, g, s, rfl, rfl, hloop, hn, hu, hr.symm, ha.symm⟩⟩

/-- The conversion steps of the definition `counted` leave the `int` variables
from number 8 on as they are. -/
theorem counted_handlers_obs (k : Nat) (hk : 8 ≤ k) :
    ∀ p ∈ Sample.counted.namedArgs_, ∀ (g : CmdLineArgGenerator) (n : String) (v : Memory),
      ((p.2.handleValue g n v).2.2).ints k = v.ints k := by
  intro p hp g n v
  simp only [Sample.counted, Sample.named, List.mem_cons, List.mem_singleton,
    List.not_mem_nil, or_false] at hp
  rcases hp with rfl | rfl
  · exact namedScalarDelegate_obs (fun (m : Memory) => m.ints k)
      (ArgFormatter.formatInt decimalNumUtil) (Memory.intRef 0)
      (fun m x => by
        show (if k = 0 then x else m.ints k) = m.ints k
        rw [if_neg (by omega)]) g n v
  · exact namedScalarDelegate_obs (fun (m : Memory) => m.ints k)
      ArgFormatter.formatString (Memory.stringRef 0) (fun m x => rfl) g n v

/-- C31 on the definition `counted`, whose hooks count their runs in the `int`
variables 8 and 9, on three streams: `-i 3` returns with both counts at 1;
`-s 3`, where the required `-i` is missing, and `-i 3 -q`, which fails in the
loop, end with `initValues_` run once and `checkValues_` not run. -/
theorem C31_hooks_run_once_witness :
    (parse 2 Sample.counted ["some_program", "-s", "3"]).map
      (fun r => (r.1, r.2.values.ints 8, r.2.values.ints 9)) =
      some (.error (Exc.RequiredCmdLineArgMissingError "some_program" "int value (-i)"),
        1, 0) ∧
    (parse 2 Sample.counted ["some_program", "-i", "3", "-q"]).map
      (fun r => (r.1, r.2.values.ints 8, r.2.values.ints 9)) =
      some (.error (Exc.UnknownCmdLineArgError "some_program" "-q"), 1, 0) ∧
    ∃ a1, parse 2 Sample.counted ["some_program", "-i", "3"] = some (.ok (), a1) ∧
      a1.values.ints 8 = Sample.counted.values.ints 8 + 1 ∧
      a1.values.ints 9 = Sample.counted.values.ints 9 + 1 ∧
      a1.values.ints 8 = 1 ∧ a1.values.ints 9 = 1 := by
  refine ⟨by decide, by decide, _, rfl, ?_⟩
  have hall := C31_hooks_run_once Sample.counted _ ["some_program", "-i", "3"] 2 (.ok ())
    (fun m => m.ints 8) (fun m => m.ints 9)
    (fun v => by simp [Sample.counted, Memory.intRef])
    (fun v => by simp [Sample.counted, Memory.intRef])
    (counted_handlers_obs 8 (by omega))
    (fun h hh => by simp [Sample.counted, Sample.named] at hh)
    (fun v => by simp [Sample.counted, Memory.intRef])
    (fun v => by simp [Sample.counted, Memory.intRef])
    (counted_handlers_obs 9 (by omega))
    (fun h hh => by simp [Sample.counted, Sample.named] at hh)
    rfl
  exact ⟨hall.2.1, hall.2.2.2.1 rfl, by decide, by decide⟩

end SimpleCmdLineArgs

end Pistis

namespace Pistis

/-! ## Termination of `parse`: claim C40 -/

namespace CmdLineArgGenerator

/-- The call `next` keeps the stream, does not move the cursor back and does not
move it past the end. -/
theorem next_cursor (g : CmdLineArgGenerator) (n : String) (hle : g.current_ ≤ g.end_) :
    (g.next n).2.argv = g.argv ∧ g.current_ ≤ (g.next n).2.current_ ∧
    (g.next n).2.current_ ≤ g.end_ := by
  unfold next
  split
  · exact ⟨rfl, le_refl _, hle⟩
  · rename_i hne
    refine ⟨rfl, ?_, ?_⟩
    · show g.current_ ≤ g.current_ + 1
      omega
    · show g.current_ + 1 ≤ g.end_
      omega

end CmdLineArgGenerator

namespace AbstractCmdLineArgs

/-- A loop that has ended within `fuel` iterations ends in the same way when it
is given more of them. -/
theorem parseLoop_fuel_mono {S : Type} (vt : Virtuals S) :
    ∀ (fuel : Nat) (g : CmdLineArgGenerator) (s : S)
      (res : Except Exc Unit × CmdLineArgGenerator × S) (k : Nat),
      parseLoop vt fuel g s = some res → parseLoop vt (fuel + k) g s = some res := by
  intro fuel
  induction fuel with
  | zero =>
    intro g s res k h
    unfold parseLoop at h
    split at h
    · rename_i hrem
      unfold parseLoop
      simp only [hrem, if_true]
      exact h
    · simp at h
  | succ fuel ih =>
    intro g s res k h
    have hfuel : fuel + 1 + k = (fuel + k) + 1 := by omega
    rw [hfuel]
    unfold parseLoop at h ⊢
    split at h
    · rename_i hrem
      simp only [hrem, if_true]
      exact h
    · rename_i hrem
      simp only [hrem, if_false]
      simp only at h
      split at h
      · exact h
      · rename_i g2 s2 hd
        exact ih g2 s2 res k h

end AbstractCmdLineArgs

namespace SimpleCmdLineArgs

/-- A named delegate of the library leaves the cursor where its one call of
`next` left it. -/
theorem namedScalarDelegate_cursor {σ α : Type} (format : String → Except Exc α)
    (v : Ref σ α) (g : CmdLineArgGenerator) (n : String) (s : σ) :
    (namedScalarDelegate format v g n s).2.1 = (g.next n).2 := by
  unfold namedScalarDelegate
  rcases g.next n with ⟨r, g1⟩
  cases r with
  | error e => rfl
  | ok tok =>
    simp only
    cases format tok with
    | error e => rfl
    | ok x => rfl

/-- The named list delegate leaves the cursor where its call of `next` left it. -/
theorem namedListDelegate_cursor {σ α : Type} (format : String → Except Exc α)
    (v : Ref σ (List α)) (g : CmdLineArgGenerator) (n : String) (s : σ) :
    (namedListDelegate format v g n s).2.1 = (g.next n).2 := by
  unfold namedListDelegate
  rcases g.next n with ⟨r, g1⟩
  cases r with
  | error e => rfl
  | ok tok => rfl

/-- The named set delegate leaves the cursor where its call of `next` left it. -/
theorem namedSetDelegate_cursor {σ α : Type} [DecidableEq α] (format : String → Except Exc α)
    (v : Ref σ (List α)) (g : CmdLineArgGenerator) (n : String) (s : σ) :
    (namedSetDelegate format v g n s).2.1 = (g.next n).2 := by
  unfold namedSetDelegate
  rcases g.next n with ⟨r, g1⟩
  cases r with
  | error e => rfl
  | ok tok => rfl

/-- The named splitting delegate leaves the cursor where its call of `next` left
it. -/
theorem namedSplitDelegate_cursor {σ : Type} (split : String → String → List String)
    (separator : String) (allowEmpty : Bool) (f : String → σ → Except Exc Unit × σ)
    (g : CmdLineArgGenerator) (n : String) (s : σ) :
    (namedSplitDelegate split separator allowEmpty f g n s).2.1 = (g.next n).2 := by
  unfold namedSplitDelegate
  rcases g.next n with ⟨r, g1⟩
  cases r with
  | error e => rfl
  | ok tok => rfl

/-- A positional delegate of the library leaves the cursor where it is. -/
theorem unnamedScalarDelegate_cursor {σ α : Type} (format : String → Except Exc α)
    (v : Ref σ α) (g : CmdLineArgGenerator) (n : String) (s : σ) :
    (unnamedScalarDelegate format v g n s).2.1 = g := by
  unfold unnamedScalarDelegate
  cases format n with
  | error e => rfl
  | ok x => rfl

/-- Every conversion step that a registration of the library creates keeps the
stream, does not move the cursor back and does not move it past the end. -/
theorem cursorSafe_of_builtIn {σ : Type} {h : Handler σ} (hb : BuiltIn h) : CursorSafe h := by
  have hsame : ∀ (g : CmdLineArgGenerator), g.current_ ≤ g.end_ →
      g.argv = g.argv ∧ g.current_ ≤ g.current_ ∧ g.current_ ≤ g.end_ :=
    fun g hle => ⟨rfl, le_refl _, hle⟩
  rcases hb with ⟨α, format, v, rfl | rfl⟩ | ⟨α, format, v, rfl | rfl⟩ |
    ⟨α, inst, format, v, rfl | rfl⟩ | ⟨split, sep, ae, f, rfl | rfl⟩
  · intro g n s hle
    rw [namedScalarDelegate_cursor]
    exact CmdLineArgGenerator.next_cursor g n hle
  · intro g n s hle
    rw [unnamedScalarDelegate_cursor]
    exact hsame g hle
  · intro g n s hle
    rw [namedListDelegate_cursor]
    exact CmdLineArgGenerator.next_cursor g n hle
  · intro g n s hle
    exact hsame g hle
  · intro g n s hle
    rw [namedSetDelegate_cursor]
    exact CmdLineArgGenerator.next_cursor g n hle
  · intro g n s hle
    exact hsame g hle
  · intro g n s hle
    rw [namedSplitDelegate_cursor]
    exact CmdLineArgGenerator.next_cursor g n hle
  · intro g n s hle
    exact hsame g hle

/-- An iteration of the loop over bindings whose conversion steps are safe for
the cursor, whether it ends normally or not, keeps the stream, moves the cursor
at least one token forward and does not move it past the end. -/
theorem dispatch_cursor {σ : Type} {s s1 : SimpleCmdLineArgs σ}
    {g g1 : CmdLineArgGenerator} {r : Except Exc Unit} (hrem : g.remaining ≠ 0)
    (hle : g.current_ ≤ g.end_)
    (hN : ∀ p ∈ s.namedArgs_, CursorSafe p.2.handleValue)
    (hU : ∀ h ∈ s.unnamedArgs_, CursorSafe h.handleValue)
    (hd : AbstractCmdLineArgs.dispatch (virtuals σ) g s = (r, g1, s1)) :
    g1.argv = g.argv ∧ g.current_ + 1 ≤ g1.current_ ∧ g1.current_ ≤ g.end_ := by
  have hlt : g.current_ + 1 ≤ g.end_ := by
    simp only [CmdLineArgGenerator.remaining] at hrem
    omega
  rcases dispatch_step_cases hrem hd with ⟨_, hg⟩ | ⟨hsel, hwhere, _, hg⟩
  · rw [hg]
    exact ⟨rfl, le_refl _, hlt⟩
  · have hs : CursorSafe hsel.handleValue := by
      rcases hwhere with ⟨hmem, _⟩ | ⟨_, hget⟩
      · exact hN (g.deref, hsel) hmem
      · exact hU hsel (List.mem_iff_get?.mpr ⟨_, hget⟩)
    obtain ⟨h1, h2, h3⟩ := hs { g with current_ := g.current_ + 1 } g.deref s.values hlt
    rw [hg]
    exact ⟨h1, h2, h3⟩

/-- Over bindings whose conversion steps are safe for the cursor, the loop ends
within as many iterations as there are tokens left. -/
theorem parseLoop_terminates {σ : Type} :
    ∀ (fuel : Nat) (g : CmdLineArgGenerator) (s : SimpleCmdLineArgs σ),
      (∀ p ∈ s.namedArgs_, CursorSafe p.2.handleValue) →
      (∀ h ∈ s.unnamedArgs_, CursorSafe h.handleValue) →
      g.current_ ≤ g.end_ → g.remaining ≤ fuel →
      ∃ res, AbstractCmdLineArgs.parseLoop (virtuals σ) fuel g s = some res := by
  intro fuel
  induction fuel with
  | zero =>
    intro g s _ _ hle hfuel
    have hrem : g.remaining = 0 := by
      simp only [CmdLineArgGenerator.remaining] at hfuel ⊢
      simp only [CharP.cast_eq_zero] at hfuel
      omega
    unfold AbstractCmdLineArgs.parseLoop
    simp only [hrem, if_true]
    exact ⟨_, rfl⟩
  | succ fuel ih =>
    intro g s hN hU hle hfuel
    unfold AbstractCmdLineArgs.parseLoop
    by_cases hrem : g.remaining = 0
    · simp only [hrem, if_true]
      exact ⟨_, rfl⟩
    · simp only [hrem, if_false]
      rcases hd : AbstractCmdLineArgs.dispatch (virtuals σ) g s with ⟨r2, g2, s2⟩
      cases r2 with
      | error e => exact ⟨_, rfl⟩
      | ok u =>
        obtain ⟨h1, h2, h3⟩ := dispatch_cursor hrem hle hN hU hd
        obtain ⟨hN2, hU2⟩ := sameBindings_handlers CursorSafe (dispatch_sameBindings_any hd) hN hU
        have hle2 : g2.current_ ≤ g2.end_ := by
          simp only [CmdLineArgGenerator.end_, h1]
          exact h3
        have hfuel2 : g2.remaining ≤ fuel := by
          simp only [CmdLineArgGenerator.remaining, CmdLineArgGenerator.end_, h1]
          simp only [CmdLineArgGenerator.remaining, CmdLineArgGenerator.end_] at hfuel
          push_cast at hfuel
          omega
        exact ih g2 s2 hN2 hU2 hle2 hfuel2

/-- C40.  Let every binding of `a` have a conversion step that a registration of
the library creates (scalar, list, set or separator-splitting, named or
positional, with any conversion function).  Then (1) each of these steps keeps
the stream, leaves the cursor at or after the position it was started on, and
not past the end; (2) every iteration of the loop of a parse on `a`, whether it
ends normally or throws, moves the cursor at least one token forward and not
past the end; (3) on every stream, `parse` ends: with as many iterations as the
stream has tokens it gives a result, and it gives that same result with any
greater number. -/
theorem C40_parse_terminates {σ : Type} (a : SimpleCmdLineArgs σ) (argv : List String)
    (hN : ∀ p ∈ a.namedArgs_, BuiltIn p.2.handleValue)
    (hU : ∀ h ∈ a.unnamedArgs_, BuiltIn h.handleValue) :
    ((∀ p ∈ a.namedArgs_, CursorSafe p.2.handleValue) ∧
      (∀ h ∈ a.unnamedArgs_, CursorSafe h.handleValue)) ∧
    (∀ (s s1 : SimpleCmdLineArgs σ) (g g1 : CmdLineArgGenerator) (r : Except Exc Unit),
      SameBindings a s → g.remaining ≠ 0 → g.current_ ≤ g.end_ →
      AbstractCmdLineArgs.dispatch (virtuals σ) g s = (r, g1, s1) →
      g1.argv = g.argv ∧ g.current_ + 1 ≤ g1.current_ ∧ g1.current_ ≤ g.end_) ∧
    ∃ res, ∀ fuel, argv.length - 1 ≤ fuel → parse fuel a argv = some res := by
  have hNs : ∀ p ∈ a.namedArgs_, CursorSafe p.2.handleValue :=
    fun p hp => cursorSafe_of_builtIn (hN p hp)
  have hUs : ∀ h ∈ a.unnamedArgs_, CursorSafe h.handleValue :=
    fun h hh => cursorSafe_of_builtIn (hU h hh)
  refine ⟨⟨hNs, hUs⟩, ?_, ?_⟩
  · intro s s1 g g1 r hsame hrem hle hd
    obtain ⟨hN2, hU2⟩ := sameBindings_handlers CursorSafe hsame hNs hUs
    exact dispatch_cursor hrem hle hN2 hU2 hd
  · obtain ⟨ri, a0, hi⟩ : ∃ ri a0, a.init_ argv = (ri, a0) := ⟨_, _, rfl⟩
    have hi2 : (virtuals σ).init_ a argv = (ri, a0) := hi
    cases ri with
    | error e =>
      exact ⟨(.error e, a0), fun fuel _ => by
        simp only [parse, AbstractCmdLineArgs.parse, hi2]⟩
    | ok u =>
      cases hnew : CmdLineArgGenerator.new argv with
      | error e =>
        exact ⟨(.error e, a0), fun fuel _ => by
          simp only [parse, AbstractCmdLineArgs.parse, hi2, hnew]⟩
      | ok g0 =>
        have hg0 : g0 = ⟨argv, 1⟩ ∧ 1 ≤ argv.length := by
          unfold CmdLineArgGenerator.new at hnew
          split at hnew
          · exact Except.noConfusion hnew
          · rename_i hlen
            simp only [Except.ok.injEq] at hnew
            exact ⟨hnew.symm, by omega⟩
        obtain ⟨hN0, hU0⟩ := sameBindings_handlers CursorSafe
          (init_spec a a0 argv _ hi).1 hNs hUs
        have hle0 : g0.current_ ≤ g0.end_ := by
          rw [hg0.1]
          simp only [CmdLineArgGenerator.end_]
          have := hg0.2
          omega
        have hrem0 : g0.remaining ≤ ((argv.length - 1 : Nat) : Int) := by
          rw [hg0.1]
          simp only [CmdLineArgGenerator.remaining, CmdLineArgGenerator.end_]
          have := hg0.2
          omega
        obtain ⟨lres, hl⟩ := parseLoop_terminates (argv.length - 1) g0 a0 hN0 hU0 hle0 hrem0
        have hall : ∀ fuel, argv.length - 1 ≤ fuel →
            AbstractCmdLineArgs.parseLoop (virtuals σ) fuel g0 a0 = some lres := by
          intro fuel hf
          obtain ⟨k, rfl⟩ : ∃ k, fuel = (argv.length - 1) + k := ⟨fuel - (argv.length - 1), by omega⟩
          exact AbstractCmdLineArgs.parseLoop_fuel_mono (virtuals σ) _ g0 a0 lres k hl
        obtain ⟨rl, g, s⟩ := lres
        cases rl with
        | error e =>
          exact ⟨(.error e, s), fun fuel hf => by
            simp only [parse, AbstractCmdLineArgs.parse, hi2, hnew, hall fuel hf]⟩
        | ok u2 =>
          exact ⟨(virtuals σ).check_ s g.appName, fun fuel hf => by
            simp only [parse, AbstractCmdLineArgs.parse, hi2, hnew, hall fuel hf]⟩

/-- C40 on the definition `namedAndPositional` (a scalar flag and a scalar
positional binding) and the stream `-i 3 7 8`: three iterations end the parse,
which fails on the fourth token with `TooManyCmdLineArgsError`, and any number
of iterations from 4 on gives the same result. -/
theorem C40_parse_terminates_witness :
    (parse 3 Sample.namedAndPositional ["some_program", "-i", "3", "7", "8"]).map
      (fun r => r.1) = some (.error (Exc.TooManyCmdLineArgsError "some_program")) ∧
    ∃ res, ∀ fuel, ["some_program", "-i", "3", "7", "8"].length - 1 ≤ fuel →
      parse fuel Sample.namedAndPositional ["some_program", "-i", "3", "7", "8"] = some res :=
  ⟨by decide,
    (C40_parse_terminates Sample.namedAndPositional ["some_program", "-i", "3", "7", "8"]
      (fun p hp => by
        simp only [Sample.namedAndPositional, List.mem_singleton] at hp
        subst hp
        exact Or.inl ⟨Int, ArgFormatter.formatInt decimalNumUtil, Memory.intRef 0, Or.inl rfl⟩)
      (fun h hh => by
        simp only [Sample.namedAndPositional, List.mem_singleton] at hh
        subst hh
        exact Or.inl ⟨Int, ArgFormatter.formatInt decimalNumUtil, Memory.intRef 1,
          Or.inr rfl⟩)).2.2⟩

end SimpleCmdLineArgs

end Pistis

namespace Pistis

/-! ## Positional bindings in registration order: claim C27 -/

namespace SimpleCmdLineArgs

/-- The loop of `parse` on a run of positional tokens, when the positional
bindings from the iterator on are not final and the `j`-th of them accepts the
`j`-th token without moving the cursor: the tokens are read one by one, the
`j`-th token is handed to the `j`-th binding, and the bindings that were handed
a token are marked found. -/
theorem dispatched_positionals {σ : Type} :
    ∀ (toks pre : List String) (s : SimpleCmdLineArgs σ),
      (∀ i h, s.currentUnnamedArg_ ≤ i → s.unnamedArgs_.get? i = some h → h.final_ = false) →
      (∀ t ∈ toks, isNamedToken t = false) →
      (∀ j t h, toks.get? j = some t →
        s.unnamedArgs_.get? (s.currentUnnamedArg_ + j) = some h →
        ∀ g v, h.handleValue g t v = (.ok (), g, (h.handleValue g t v).2.2)) →
      s.currentUnnamedArg_ + toks.length ≤ s.unnamedArgs_.length →
      ∃ s1, AbstractCmdLineArgs.dispatched (virtuals σ) toks.length
          ⟨pre ++ toks, (pre.length : Int)⟩ s =
          some (toks, ⟨pre ++ toks, ((pre ++ toks).length : Int)⟩, s1) ∧
        s1.currentUnnamedArg_ = s.currentUnnamedArg_ + toks.length ∧
        s1.namedArgs_ = s.namedArgs_ ∧ s1.checkValues_ = s.checkValues_ ∧
        s1.unnamedArgs_.length = s.unnamedArgs_.length ∧
        (∀ i h, s.unnamedArgs_.get? i = some h →
          s1.unnamedArgs_.get? i =
            some (if s.currentUnnamedArg_ ≤ i ∧ i < s.currentUnnamedArg_ + toks.length
              then h.setFound true else h)) ∧
        (∀ j t, toks.get? j = some t →
          ∃ gj sj h, AbstractCmdLineArgs.dispatched (virtuals σ) j
              ⟨pre ++ toks, (pre.length : Int)⟩ s = some (toks.take j, gj, sj) ∧
            gj.remaining ≠ 0 ∧ gj.deref = t ∧
            sj.currentUnnamedArg_ = s.currentUnnamedArg_ + j ∧
            s.unnamedArgs_.get? (s.currentUnnamedArg_ + j) = some h ∧
            (AbstractCmdLineArgs.dispatch (virtuals σ) gj sj).1 = .ok () ∧
            (AbstractCmdLineArgs.dispatch (virtuals σ) gj sj).2.2.values =
              (h.handleValue { gj with current_ := gj.current_ + 1 } t sj.values).2.2) ∧
        (∀ (β : Type) (obs : σ → β),
          (∀ j t h, toks.get? j = some t →
            s.unnamedArgs_.get? (s.currentUnnamedArg_ + j) = some h →
            ∀ g v, obs (h.handleValue g t v).2.2 = obs v) →
          obs s1.values = obs s.values) ∧
        (∀ (β : Type) (obs : σ → β) (y : β) j t h, toks.get? j = some t →
          s.unnamedArgs_.get? (s.currentUnnamedArg_ + j) = some h →
          (∀ g v, obs (h.handleValue g t v).2.2 = y) →
          (∀ i ti hi, j < i → toks.get? i = some ti →
            s.unnamedArgs_.get? (s.currentUnnamedArg_ + i) = some hi →
            ∀ g v, obs (hi.handleValue g ti v).2.2 = obs v) →
          obs s1.values = y) := by
  intro toks
  induction toks with
  | nil =>
    intro pre s _ _ _ _
    refine ⟨s, ?_, by simp, rfl, rfl, rfl, ?_, ?_, ?_, ?_⟩
    · simp [AbstractCmdLineArgs.dispatched]
    · intro i h hget
      have : ¬ (s.currentUnnamedArg_ ≤ i ∧
          i < s.currentUnnamedArg_ + ([] : List String).length) := by
        simp only [List.length_nil, Nat.add_zero]
        omega
      simp only [this, if_false]
      exact hget
    · intro j t hj
      simp at hj
    · intro β obs _
      rfl
    · intro β obs y j t h hj
      simp at hj
  | cons t rest ih =>
    intro pre s hI hpos hacc hlen
    simp only [List.length_cons] at hlen
    -- the binding under the positional iterator
    have hc : s.currentUnnamedArg_ < s.unnamedArgs_.length := by omega
    obtain ⟨h, hget⟩ : ∃ h, s.unnamedArgs_.get? s.currentUnnamedArg_ = some h :=
      ⟨s.unnamedArgs_.get ⟨_, hc⟩, List.get?_eq_get hc⟩
    have hnf : h.final_ = false := hI _ h (le_refl _) hget
    have hrem0 : (CmdLineArgGenerator.mk (pre ++ t :: rest) (pre.length : Int)).remaining ≠ 0 := by
      simp only [CmdLineArgGenerator.remaining, CmdLineArgGenerator.end_, List.length_append,
        List.length_cons]
      push_cast
      omega
    have hderef : (CmdLineArgGenerator.mk (pre ++ t :: rest) (pre.length : Int)).deref = t :=
      CmdLineArgGenerator.deref_at_length pre t rest
    have htpos : isNamedToken t = false := hpos t (List.mem_cons_self _ _)
    have hstep := hacc 0 t h rfl (by rw [Nat.add_zero]; exact hget)
      ⟨pre ++ t :: rest, (pre.length : Int) + 1⟩ s.values
    have hd : AbstractCmdLineArgs.dispatch (virtuals σ)
        ⟨pre ++ t :: rest, (pre.length : Int)⟩ s =
        (.ok (), ⟨pre ++ t :: rest, (pre.length : Int) + 1⟩,
          { s with
            values := (h.handleValue ⟨pre ++ t :: rest, (pre.length : Int) + 1⟩ t s.values).2.2
            unnamedArgs_ := s.unnamedArgs_.set s.currentUnnamedArg_ (h.setFound true)
            currentUnnamedArg_ := s.currentUnnamedArg_ + 1 }) := by
      rw [dispatch_unnamed s _ h hrem0 (by rw [hderef]; exact htpos) hget, hderef, hstep]
      simp only [hnf, Bool.false_eq_true, if_false]
    -- the rest of the run
    have hgetrest : ∀ i h1, s.currentUnnamedArg_ + 1 ≤ i →
        ((s.unnamedArgs_.set s.currentUnnamedArg_ (h.setFound true)).get? i = some h1 ↔
          s.unnamedArgs_.get? i = some h1) := by
      intro i h1 hle
      have hne : s.currentUnnamedArg_ ≠ i := by omega
      rw [List.get?_eq_getElem?, List.getElem?_set_ne hne, ← List.get?_eq_getElem?]
    have hshift : ∀ j, s.currentUnnamedArg_ + 1 + j = s.currentUnnamedArg_ + (j + 1) := by
      intro j
      omega
    have ih1 := ih (pre ++ [t])
      { s with
        values := (h.handleValue ⟨pre ++ t :: rest, (pre.length : Int) + 1⟩ t s.values).2.2
        unnamedArgs_ := s.unnamedArgs_.set s.currentUnnamedArg_ (h.setFound true)
        currentUnnamedArg_ := s.currentUnnamedArg_ + 1 }
      (by
        intro i h1 hle hg1
        simp only at hle hg1
        exact hI i h1 (by omega) ((hgetrest i h1 hle).mp hg1))
      (fun t1 ht1 => hpos t1 (List.mem_cons_of_mem _ ht1))
      (by
        intro j t1 h1 hj hg1
        simp only at hg1
        rw [hgetrest _ h1 (by omega), hshift] at hg1
        exact hacc (j + 1) t1 h1 (by simpa using hj) hg1)
      (by simp only [List.length_set]; omega)
    obtain ⟨s1, hrun, hcur, hnamed, hcheck, hlen1, hmap, hsteps, hframe, hset⟩ := ih1
    simp only [List.length_set] at hlen1
    have hargv2 : pre ++ [t] ++ rest = pre ++ t :: rest := by simp
    have hlen2 : ((pre ++ [t]).length : Int) = (pre.length : Int) + 1 := by simp
    rw [hargv2, hlen2] at hrun
    simp only [hargv2, hlen2] at hsteps
    refine ⟨s1, ?_, ?_, hnamed, hcheck, hlen1, ?_, ?_, ?_, ?_⟩
    · simp only [List.length_cons, AbstractCmdLineArgs.dispatched, hrem0, if_false, hd, hrun,
        hderef]
    · rw [hcur]
      simp only [List.length_cons]
      omega
    · intro i h0 hg0
      by_cases hic : i = s.currentUnnamedArg_
      · subst hic
        rw [hget] at hg0
        have hh0 : h = h0 := Option.some.inj hg0
        subst hh0
        have hs : (s.unnamedArgs_.set s.currentUnnamedArg_ (h.setFound true)).get?
            s.currentUnnamedArg_ = some (h.setFound true) := by
          rw [List.get?_eq_getElem?, List.getElem?_set_self hc]
        have := hmap _ _ hs
        simp only at this
        rw [this]
        have hno : ¬ (s.currentUnnamedArg_ + 1 ≤ s.currentUnnamedArg_ ∧
            s.currentUnnamedArg_ < s.currentUnnamedArg_ + 1 + rest.length) := by omega
        have hyes : s.currentUnnamedArg_ ≤ s.currentUnnamedArg_ ∧
            s.currentUnnamedArg_ < s.currentUnnamedArg_ + (t :: rest).length := by
          simp only [List.length_cons]
          omega
        simp only [hno, hyes, if_false, and_self, if_true]
      · have hne : s.currentUnnamedArg_ ≠ i := fun h => hic h.symm
        have hs : (s.unnamedArgs_.set s.currentUnnamedArg_ (h.setFound true)).get? i =
            some h0 := by
          rw [List.get?_eq_getElem?, List.getElem?_set_ne hne, ← List.get?_eq_getElem?]
          exact hg0
        have := hmap _ _ hs
        simp only at this
        rw [this]
        by_cases hin : s.currentUnnamedArg_ + 1 ≤ i ∧ i < s.currentUnnamedArg_ + 1 + rest.length
        · have hyes : s.currentUnnamedArg_ ≤ i ∧
              i < s.currentUnnamedArg_ + (t :: rest).length := by
            simp only [List.length_cons]
            omega
          simp only [hin, hyes, and_self, if_true]
        · have hno : ¬ (s.currentUnnamedArg_ ≤ i ∧
              i < s.currentUnnamedArg_ + (t :: rest).length) := by
            simp only [List.length_cons]
            omega
          simp only [hin, hno, if_false]
    · intro j t1 hj
      cases j with
      | zero =>
        simp only [List.get?_cons_zero, Option.some.injEq] at hj
        subst hj
        refine ⟨_, s, h, rfl, hrem0, hderef, by simp, by rw [Nat.add_zero]; exact hget, ?_, ?_⟩
        · rw [hd]
        · rw [hd]
      | succ j =>
        obtain ⟨gj, sj, h1, hrunj, hremj, hderefj, hcurj, hgetj, hokj, hvalj⟩ :=
          hsteps j t1 (by simpa using hj)
        rw [hgetrest _ h1 (by omega), hshift] at hgetj
        refine ⟨gj, sj, h1, ?_, hremj, hderefj, by rw [hcurj]; omega, hgetj, hokj, hvalj⟩
        simp only [List.take_succ_cons, AbstractCmdLineArgs.dispatched, hrem0, if_false, hd,
          hrunj, hderef]
    · intro β obs hkeep
      rw [hframe β obs]
      · exact hkeep 0 t h rfl (by rw [Nat.add_zero]; exact hget) _ _
      · intro j t1 h1 hj hg1
        simp only at hg1
        rw [hgetrest _ h1 (by omega), hshift] at hg1
        exact hkeep (j + 1) t1 h1 (by simpa using hj) hg1
    · intro β obs y j t1 h1 hj hg1 hsets hlater
      cases j with
      | zero =>
        simp only [List.get?_cons_zero, Option.some.injEq] at hj
        subst hj
        rw [Nat.add_zero, hget] at hg1
        have hh : h = h1 := Option.some.inj hg1
        subst hh
        rw [hframe β obs]
        · exact hsets _ _
        · intro i ti hi hti hgi
          simp only at hgi
          rw [hgetrest _ hi (by omega), hshift] at hgi
          exact hlater (i + 1) ti hi (by omega) (by simpa using hti) hgi
      | succ j =>
        apply hset β obs y j t1 h1 (by simpa using hj)
        · simp only
          rw [hgetrest _ h1 (by omega), hshift]
          exact hg1
        · exact hsets
        · intro i ti hi hji hti hgi
          simp only at hgi
          rw [hgetrest _ hi (by omega), hshift] at hgi
          exact hlater (i + 1) ti hi (by omega) (by simpa using hti) hgi

/-- What `check_` does to the object: the bindings stay, and an observation of
the destinations that the `checkValues_` hook keeps is kept. -/
theorem check_frame {σ β : Type} (s : SimpleCmdLineArgs σ) (appName : String) (obs : σ → β)
    (hobs : ∀ v, obs (s.checkValues_ v).2 = obs v) :
    (s.check_ appName).2.unnamedArgs_ = s.unnamedArgs_ ∧
    obs (s.check_ appName).2.values = obs s.values := by
  unfold check_
  simp only [AbstractCmdLineArgs.check_, eta_base]
  cases firstMissing (s.namedArgs_.map Prod.snd) with
  | some h => exact ⟨rfl, rfl⟩
  | none =>
    cases firstMissing (s.unnamedArgs_.drop s.currentUnnamedArg_) with
    | some h => exact ⟨rfl, rfl⟩
    | none => exact ⟨rfl, hobs s.values⟩

/-- The scalar positional delegate on a token that converts: it returns
normally, leaves the cursor alone and assigns the conversion to its variable. -/
theorem unnamedScalarDelegate_ok {σ α : Type} (format : String → Except Exc α)
    (ref : Ref σ α) (g : CmdLineArgGenerator) (t : String) (v : σ) (x : α)
    (hx : format t = .ok x) :
    unnamedScalarDelegate format ref g t v = (.ok (), g, ref.set v x) := by
  simp only [unnamedScalarDelegate, hx]

/-- C27, as amended.  Take an argument definition, over any destinations and
with any hooks, whose `initValues_` hook returns normally and whose `k`
positional bindings are not final and scalar (each has the delegate of the
scalar `registerUnnamedArg_` for some conversion `format` and variable `ref`),
and a stream of `m <= k` positional tokens of which the `j`-th converts under
the conversion of the `j`-th binding.  Then there is an object `s1` such that
(A) the loop of `parse` reads the `m` tokens in `m` iterations, none failing,
and leaves `s1`; (B) `parse` ends with what `check_` gives on `s1`; (C) the
`j`-th token is handed to the `j`-th registered binding: the iteration that
reads it starts with the positional iterator on `j`, ends normally, and changes
the destinations by the conversion step of that binding, which assigns the
conversion of the token to the binding's variable; (D) in `s1`, and in the
object `parse` leaves, binding `i` is marked found exactly if `i < m`; (E) every
observation of the destinations that the steps of the first `m` bindings keep
(such as a variable none of them writes) is in `s1` as `initValues_` left it;
(F) if the variable of the `j`-th binding reads back what is assigned to it and
is kept by the steps of the bindings `j+1 .. m-1`, it holds the conversion of
the `j`-th token in `s1`; (G) `check_` keeps every observation that the
`checkValues_` hook keeps; (H) when no named binding and no positional binding
from `m` on is required, `check_` is the call of the `checkValues_` hook. -/
theorem C27_positional_order {σ : Type} (a : SimpleCmdLineArgs σ) (app : String)
    (toks : List String) (fuel : Nat)
    (hinit : (a.initValues_ a.values).1 = .ok ())
    (hscalar : ∀ i h, a.unnamedArgs_.get? i = some h → h.final_ = false ∧
      ∃ (α : Type) (format : String → Except Exc α) (ref : Ref σ α),
        h.handleValue = unnamedScalarDelegate format ref ∧
        ∀ t, toks.get? i = some t → ∃ x, format t = .ok x)
    (hpos : ∀ t ∈ toks, isNamedToken t = false)
    (hlen : toks.length ≤ a.unnamedArgs_.length)
    (hfuel : toks.length ≤ fuel) :
    ∃ s1 : SimpleCmdLineArgs σ,
      AbstractCmdLineArgs.dispatched (virtuals σ) toks.length ⟨app :: toks, 1⟩
        (a.init_ (app :: toks)).2 =
        some (toks, ⟨app :: toks, ((app :: toks).length : Int)⟩, s1) ∧
      parse fuel a (app :: toks) = some (s1.check_ app) ∧
      (∀ j t, toks.get? j = some t →
        ∃ gj sj h, AbstractCmdLineArgs.dispatched (virtuals σ) j ⟨app :: toks, 1⟩
            (a.init_ (app :: toks)).2 = some (toks.take j, gj, sj) ∧
          gj.deref = t ∧ sj.currentUnnamedArg_ = j ∧ a.unnamedArgs_.get? j = some h ∧
          (AbstractCmdLineArgs.dispatch (virtuals σ) gj sj).1 = .ok () ∧
          (AbstractCmdLineArgs.dispatch (virtuals σ) gj sj).2.2.values =
            (h.handleValue { gj with current_ := gj.current_ + 1 } t sj.values).2.2 ∧
          ∀ (α : Type) (format : String → Except Exc α) (ref : Ref σ α) (x : α),
            h.handleValue = unnamedScalarDelegate format ref → format t = .ok x →
            (AbstractCmdLineArgs.dispatch (virtuals σ) gj sj).2.2.values =
              ref.set sj.values x) ∧
      (∀ i h, a.unnamedArgs_.get? i = some h →
        s1.unnamedArgs_.get? i = some (h.setFound (decide (i < toks.length))) ∧
        (s1.check_ app).2.unnamedArgs_.get? i =
          some (h.setFound (decide (i < toks.length)))) ∧
      (∀ (β : Type) (obs : σ → β),
        (∀ j h, j < toks.length → a.unnamedArgs_.get? j = some h →
          ∀ g t v, obs (h.handleValue g t v).2.2 = obs v) →
        obs s1.values = obs (a.initValues_ a.values).2) ∧
      (∀ j t h (α : Type) (format : String → Except Exc α) (ref : Ref σ α) (x : α),
        toks.get? j = some t → a.unnamedArgs_.get? j = some h →
        h.handleValue = unnamedScalarDelegate format ref → format t = .ok x →
        (∀ v y, ref.get (ref.set v y) = y) →
        (∀ i hi, j < i → i < toks.length → a.unnamedArgs_.get? i = some hi →
          ∀ g ti v, ref.get (hi.handleValue g ti v).2.2 = ref.get v) →
        ref.get s1.values = x) ∧
      (∀ (β : Type) (obs : σ → β), (∀ v, obs (a.checkValues_ v).2 = obs v) →
        obs (s1.check_ app).2.values = obs s1.values) ∧
      ((∀ p ∈ a.namedArgs_, p.2.required_ = false) →
        (∀ i h, toks.length ≤ i → a.unnamedArgs_.get? i = some h → h.required_ = false) →
        s1.check_ app =
          ((a.checkValues_ s1.values).1, { s1 with values := (a.checkValues_ s1.values).2 })) := by
  -- the object after `init_`
  obtain ⟨a0, ha0⟩ : ∃ a0, a0 = (a.init_ (app :: toks)).2 := ⟨_, rfl⟩
  have hinit0 : a.init_ (app :: toks) = (.ok (), a0) := by
    rw [ha0]
    exact Prod.ext hinit rfl
  have hnamed0 : a0.namedArgs_ = a.namedArgs_.map (fun p => (p.1, p.2.setFound false)) := by
    rw [ha0]; rfl
  have hunnamed0 : a0.unnamedArgs_ = a.unnamedArgs_.map (fun h => h.setFound false) := by
    rw [ha0]; rfl
  have hvalues0 : a0.values = (a.initValues_ a.values).2 := by
    rw [ha0]; rfl
  have hcheck0 : a0.checkValues_ = a.checkValues_ := by
    rw [ha0]; rfl
  have hcur0 : a0.currentUnnamedArg_ = 0 := by
    rw [ha0]; rfl
  have hlen0 : a0.unnamedArgs_.length = a.unnamedArgs_.length := by
    rw [hunnamed0, List.length_map]
  have hget0 : ∀ i h0, a0.unnamedArgs_.get? i = some h0 →
      ∃ h, a.unnamedArgs_.get? i = some h ∧ h0 = h.setFound false := by
    intro i h0 hg
    rw [hunnamed0, List.get?_eq_getElem?, List.getElem?_map] at hg
    rw [List.get?_eq_getElem?]
    cases hx : a.unnamedArgs_[i]? with
    | none => rw [hx] at hg; simp at hg
    | some h =>
      rw [hx] at hg
      simp only [Option.map_some', Option.some.injEq] at hg
      exact ⟨h, rfl, hg.symm⟩
  have hget1 : ∀ i h, a.unnamedArgs_.get? i = some h →
      a0.unnamedArgs_.get? i = some (h.setFound false) := by
    intro i h hg
    rw [hunnamed0, List.get?_eq_getElem?, List.getElem?_map, ← List.get?_eq_getElem?, hg]
    rfl
  have hlt : ∀ j t, toks.get? j = some t → j < toks.length := by
    intro j t hj
    by_contra hge
    rw [List.get?_eq_none.mpr (by omega)] at hj
    exact Option.noConfusion hj
  rw [← ha0]
  -- the loop
  obtain ⟨s1, hrun, hcur, hnamed, hcheck, hlen1, hmap, hsteps, hframe, hset⟩ :=
    dispatched_positionals toks [app] a0
      (by
        intro i h0 _ hg
        obtain ⟨h, hg1, rfl⟩ := hget0 i h0 hg
        exact (hscalar i h hg1).1)
      hpos
      (by
        intro j t h0 hj hg g v
        rw [hcur0, Nat.zero_add] at hg
        obtain ⟨h, hg1, rfl⟩ := hget0 j h0 hg
        obtain ⟨_, α, format, ref, hdel, hconv⟩ := hscalar j h hg1
        obtain ⟨x, hx⟩ := hconv t hj
        show h.handleValue g t v = (.ok (), g, (h.handleValue g t v).2.2)
        rw [hdel, unnamedScalarDelegate_ok format ref g t v x hx])
      (by rw [hcur0, hlen0]; omega)
  simp only [List.singleton_append, List.length_singleton, Nat.cast_one, hcur0, Nat.zero_add,
    Nat.zero_le, true_and] at hrun hcur hmap hsteps hframe hset
  have hend : (CmdLineArgGenerator.mk (app :: toks) ((app :: toks).length : Int)).remaining
      = 0 := by
    simp [CmdLineArgGenerator.remaining, CmdLineArgGenerator.end_]
  have hloop := parseLoop_of_dispatched_end hrun hend hfuel
  have hi : (virtuals σ).init_ a (app :: toks) = (.ok (), a0) := hinit0
  have hnew : CmdLineArgGenerator.new (app :: toks) = .ok ⟨app :: toks, 1⟩ := by
    simp [CmdLineArgGenerator.new]
  have hparse : parse fuel a (app :: toks) = some (check_ s1 app) := by
    simp only [parse, AbstractCmdLineArgs.parse, hi, hnew, hloop]
    rfl
  have hfound : ∀ i h, a.unnamedArgs_.get? i = some h →
      s1.unnamedArgs_.get? i = some (h.setFound (decide (i < toks.length))) := by
    intro i h hg
    rw [hmap i _ (hget1 i h hg)]
    by_cases hl : i < toks.length
    · simp only [hl, if_true, decide_True]
      rfl
    · simp only [hl, if_false, decide_False]
  refine ⟨s1, hrun, hparse, ?_, ?_, ?_, ?_, ?_, ?_⟩
  · intro j t hj
    obtain ⟨gj, sj, h0, hrunj, _, hderefj, hcurj, hgetj, hokj, hvalj⟩ := hsteps j t hj
    obtain ⟨h, hg1, rfl⟩ := hget0 j h0 hgetj
    refine ⟨gj, sj, h, hrunj, hderefj, hcurj, hg1, hokj, hvalj, ?_⟩
    intro α format ref x hdel hx
    rw [hvalj]
    show (h.handleValue { gj with current_ := gj.current_ + 1 } t sj.values).2.2 = _
    rw [hdel, unnamedScalarDelegate_ok format ref _ t sj.values x hx]
  · intro i h hg
    refine ⟨hfound i h hg, ?_⟩
    rw [(check_frame s1 app (fun _ => ()) (fun _ => rfl)).1]
    exact hfound i h hg
  · intro β obs hkeep
    rw [hframe β obs, hvalues0]
    intro j t h0 hj hg g v
    obtain ⟨h, hg1, rfl⟩ := hget0 j h0 hg
    exact hkeep j h (hlt j t hj) hg1 g t v
  · intro j t h α format ref x hj hg hdel hx hlaw hlater
    apply hset α ref.get x j t (h.setFound false) hj (hget1 j h hg)
    · intro g v
      show ref.get (h.handleValue g t v).2.2 = x
      rw [hdel, unnamedScalarDelegate_ok format ref g t v x hx]
      exact hlaw v x
    · intro i ti hi0 hji hti hgi g v
      obtain ⟨hi, hgi1, rfl⟩ := hget0 i hi0 hgi
      exact hlater i hi hji (hlt i ti hti) hgi1 g ti v
  · intro β obs hobs
    exact (check_frame s1 app obs (by rw [hcheck, hcheck0]; exact hobs)).2
  · intro hnreq hureq
    have hn : firstMissing (s1.namedArgs_.map Prod.snd) = none := by
      apply firstMissing_eq_none
      intro x hx hreq
      rw [hnamed] at hx
      obtain ⟨p, hp, rfl⟩ := List.mem_map.mp hx
      rw [hnamed0] at hp
      obtain ⟨q, hq, rfl⟩ := List.mem_map.mp hp
      have := hnreq q hq
      simp only [ArgHandler.setFound] at hreq
      rw [this] at hreq
      exact Bool.noConfusion hreq
    have hu : firstMissing (s1.unnamedArgs_.drop s1.currentUnnamedArg_) = none := by
      apply firstMissing_eq_none
      intro x hx hreq
      rw [hcur] at hx
      obtain ⟨j, hj⟩ := List.mem_iff_get?.mp hx
      rw [List.get?_eq_getElem?, List.getElem?_drop, ← List.get?_eq_getElem?] at hj
      have hlj : toks.length + j < s1.unnamedArgs_.length := by
        by_contra hge
        rw [List.get?_eq_none.mpr (by omega)] at hj
        exact Option.noConfusion hj
      rw [hlen1, hlen0] at hlj
      obtain ⟨h, hg⟩ : ∃ h, a.unnamedArgs_.get? (toks.length + j) = some h :=
        ⟨a.unnamedArgs_.get ⟨_, hlj⟩, List.get?_eq_get hlj⟩
      rw [hfound _ h hg] at hj
      have := hureq (toks.length + j) h (by omega) hg
      simp only [Option.some.injEq] at hj
      rw [← hj] at hreq
      simp only [ArgHandler.setFound] at hreq
      rw [this] at hreq
      exact Bool.noConfusion hreq
    unfold check_
    simp only [AbstractCmdLineArgs.check_, eta_base, hn, hu, hcheck, hcheck0]

/-- C27 (amended) on three scalar positional bindings (an `int`, a string, an
`int`) and the stream `151 foobar`: `parse` returns normally, the first `int`
holds 151, the string holds `foobar`, the first two bindings are marked found
and the third is not, and the second `int` holds what it held. -/
theorem C27_positional_order_witness :
    (parse 2 Sample.threePositional ["some_program", "151", "foobar"]).map
      (fun r => (r.1, r.2.values.ints 0, r.2.values.strings 0, r.2.values.ints 1,
        r.2.unnamedArgs_.map (fun b => b.found_))) =
      some (.ok (), 151, "foobar", 0, [true, true, false]) ∧
    ∃ s1 : SimpleCmdLineArgs Memory,
      AbstractCmdLineArgs.dispatched (virtuals Memory) 2
        ⟨["some_program", "151", "foobar"], 1⟩
        (Sample.threePositional.init_ ["some_program", "151", "foobar"]).2 =
        some (["151", "foobar"], ⟨["some_program", "151", "foobar"], 3⟩, s1) ∧
      parse 2 Sample.threePositional ["some_program", "151", "foobar"] =
        some (s1.check_ "some_program") :=
  ⟨by decide,
   Exists.imp (fun _ h => ⟨h.1, h.2.1⟩)
    (C27_positional_order Sample.threePositional "some_program" ["151", "foobar"] 2 rfl
      (by
        intro i h hg
        match i, hg with
        | 0, hg =>
          simp [Sample.threePositional] at hg
          subst hg
          exact ⟨rfl, Int, ArgFormatter.formatInt decimalNumUtil, Memory.intRef 0, rfl,
            fun t ht => by
              simp only [List.get?_cons_zero, Option.some.injEq] at ht
              subst ht
              exact ⟨151, by decide⟩⟩
        | 1, hg =>
          simp [Sample.threePositional] at hg
          subst hg
          exact ⟨rfl, String, ArgFormatter.formatString, Memory.stringRef 0, rfl,
            fun t ht => ⟨t, rfl⟩⟩
        | 2, hg =>
          simp [Sample.threePositional] at hg
          subst hg
          exact ⟨rfl, Int, ArgFormatter.formatInt decimalNumUtil, Memory.intRef 1, rfl,
            fun t ht => by simp at ht⟩
        | n + 3, hg => simp [Sample.threePositional] at hg)
      (by decide) (by decide) (by decide))⟩

/-- C27 as stated fails in three ways, each on a definition whose positional
bindings are scalar and not final and a stream of one positional token that
converts under the first binding.  (1) With two bindings bound to one `int`
variable, after `7` the second binding is unfound and its destination has
changed from 0 to 7.  (2) With an `initValues_` hook that sets a default, after
`151` the destination of the third binding, which is unfound, has changed from
0 to 42.  (3) With an `initValues_` hook that throws, `parse` fails before any
token is read: the token `151` is converted by no binding and no binding is
marked found. -/
theorem C27_counterexample :
    ((parse 1 Sample.sharedPositional ["some_program", "7"]).map
        (fun r => (r.1, r.2.values.ints 0, r.2.unnamedArgs_.map (fun b => b.found_))) =
        some (.ok (), 7, [true, false]) ∧
      Sample.sharedPositional.values.ints 0 = 0 ∧
      Sample.sharedPositional.unnamedArgs_.map (fun b => b.final_) = [false, false] ∧
      Sample.sharedPositional.unnamedArgs_.map (fun b => b.handleValue) =
        [unnamedScalarDelegate (ArgFormatter.formatInt decimalNumUtil) (Memory.intRef 0),
         unnamedScalarDelegate (ArgFormatter.formatInt decimalNumUtil) (Memory.intRef 0)]) ∧
    ((parse 1 Sample.positionalDefaults ["some_program", "151"]).map
        (fun r => (r.1, r.2.values.ints 0, r.2.values.ints 1,
          r.2.unnamedArgs_.map (fun b => b.found_))) =
        some (.ok (), 151, 42, [true, false, false]) ∧
      Sample.positionalDefaults.values.ints 1 = 0 ∧
      Sample.positionalDefaults.unnamedArgs_.map (fun b => b.final_) = [false, false, false]) ∧
    ((parse 1 Sample.positionalInitThrows ["some_program", "151"]).map
        (fun r => (r.1, r.2.values.ints 0, r.2.unnamedArgs_.map (fun b => b.found_))) =
        some (.error (Exc.StdException "no defaults"), 0, [false, false, false]) ∧
      ArgFormatter.formatInt decimalNumUtil "151" = .ok 151) :=
  ⟨⟨by decide, by decide, by decide, rfl⟩, ⟨by decide, by decide, by decide⟩,
    ⟨by decide, by decide⟩⟩

end SimpleCmdLineArgs

end Pistis
